import Mathlib

/-! XMLStructure: a depth-bounded streaming navigator over an XML token reader

Shallow embedding of `src/XMLStructure.hpp` (class `irr::xml::XMLStructure`).

* The token reader `irr::io::IXMLReader` is an external collaborator; it is
  modelled as a current token plus the list of tokens not read yet.
* `current_layer` and `stop_layer` are C++ `int`; they are embedded as `Int`
  (a document would need more than 2^31 open elements to overflow them).
* Loops are recursive functions on a fuel argument; `Result.out_of_fuel` is
  an artefact of the embedding: where a statement says that a call returns,
  it gives the fuel that suffices.
* The macros `XML_USE_CPP_EXCEPTION` and `NDEBUG` are set by the build, not
  by the source: they are the parameter `Build` of every operation.
* Callbacks are `std::function` objects.  A `NodeProcessor` receives a
  `const INode&`, so it can only observe the current node: it is embedded as
  an identifier, and every invocation is recorded in the `trace` together
  with the node it sees.  A `StructureProcessor` receives the navigator and
  can call `node`, `each` and `close` on it: it is embedded as the sequence
  of such calls it makes.
-/

namespace XML

/-- Modelled from the spec: the event kinds of the Token Reader
(`irr::io::EXML_NODE`, declared outside `src/`): start-element, end-element,
and every other kind. -/
inductive EXML_NODE where
  | EXN_ELEMENT
  | EXN_ELEMENT_END
  | EXN_OTHER
  deriving DecidableEq, Repr

open EXML_NODE

/-- Modelled from the spec: one event of the Token Reader, i.e. what
`getNodeType`, `getNodeName`, `isEmptyElement` and `getAttributeValueSafe`
report while the reader is positioned on it. -/
structure Token where
  type : EXML_NODE
  name : String
  empty : Bool
  attrs : List (String × String)
  deriving DecidableEq, Repr

/-- Modelled from the spec: the Token Reader (`irr::io::IXMLReader`, declared
outside `src/`): a forward-only cursor.  `cur` is the current event, `rest`
the events not read yet, `pos` the number of events read so far. -/
structure IXMLReader where
  cur : Token
  rest : List Token
  pos : Nat
  deriving DecidableEq, Repr

/-- Modelled from the spec: `advance() -> bool` moves to the next event and
returns false at document end (the current event is then left as it is). -/
def IXMLReader.read (r : IXMLReader) : Bool × IXMLReader :=
  match r.rest with
  | [] => (false, r)
  | t :: ts => (true, { cur := t, rest := ts, pos := r.pos + 1 })

/-- Modelled from the spec: `stringAttribute(name)` on the current event, with
the empty string when the attribute is absent (`getAttributeValueSafe`). -/
def Token.str_attr (t : Token) (name : String) : String :=
  match t.attrs.find? (fun p => p.1 == name) with
  | some p => p.2
  | none => ""

/-- A `NodeProcessor` (`std::function<void(const INode&)>`): `none` is the
empty function object, `some id` a callable identified by `id`. -/
abbrev NodeProcessor := Option Nat

/-- One call a `StructureProcessor` makes on the `IXMLStructure*` it is given.
`each name func1 func2 body`: `func2 = some id` is a nested callback named
`id` whose calls are `body`; with `func2 = none` the body is not used. -/
inductive Call where
  | node (name : String)
  | node_func (name : String) (func : Nat)
  | close
  | each (name : String) (func1 : NodeProcessor) (func2 : Option Nat) (body : List Call)

/-- A non-empty `StructureProcessor` (`std::function<void(IXMLStructure*)>`). -/
structure StructureProcessor where
  id : Nat
  body : List Call

/-- The tuple `EachCallback` of the source. -/
structure EachCallback where
  name : String
  func1 : NodeProcessor
  func2 : Option StructureProcessor

/-- What a callback invocation is recorded as. `view` is the reader's current
event at the time of the call (what the `INode` accessors read), `pos` its
index in the document.  `immediate` is a call of a `NodeProcessor`; `enter`
is the call of a `StructureProcessor`, with the Scope Bound it runs under;
`leave` is its return, with `current_layer` and `last_read_invalid` at that
moment and the Scope Bound put back after it. -/
inductive Event where
  | immediate (id : Nat) (view : Token) (pos : Nat)
  | enter (id : Nat) (view : Token) (pos : Nat) (bound : Int)
  | leave (id : Nat) (depth : Int) (pushback : Bool) (bound : Int)
  deriving DecidableEq, Repr

/-- The fields of `class XMLStructure`, with their initial values, plus the
record of callback invocations. -/
structure XMLStructure where
  reader : IXMLReader
  each_callbacks : List EachCallback := []
  last_read_invalid : Bool := false
  current_layer : Int := 0
  stop_layer : Int := -1
  trace : List Event := []

/-- The build options the source depends on: `XML_USE_CPP_EXCEPTION` (whether
`throw_eof` throws) and `NDEBUG` (whether `assert` is compiled out). -/
structure Build where
  XML_USE_CPP_EXCEPTION : Bool
  NDEBUG : Bool
  deriving DecidableEq, Repr

/-- Why a call did not return normally. -/
inductive Abort where
  | XMLEOF
  | assertion
  | no_return
  deriving DecidableEq, Repr

/-- Outcome of running a member function: normal return, abnormal end (with
the state at that point), or not enough fuel. -/
inductive Result where
  | ok (s : XMLStructure)
  | stop (why : Abort) (s : XMLStructure)
  | out_of_fuel

/-- Sequencing: continue with `k` after a normal return. -/
def Result.bind (r : Result) (k : XMLStructure → Result) : Result :=
  match r with
  | .ok s => k s
  | .stop w s => .stop w s
  | .out_of_fuel => .out_of_fuel

namespace XMLStructure

/-- The constructor `XMLStructure(irr::io::IXMLReader* reader)`. -/
def create (reader : IXMLReader) : XMLStructure := { reader := reader }

/-- Member `INode::name`. -/
def name (s : XMLStructure) : String := s.reader.cur.name

/-- Member `INode::str_attr`. -/
def str_attr (s : XMLStructure) (n : String) : String := s.reader.cur.str_attr n

def get_current_layer (s : XMLStructure) : Int := s.current_layer

def get_current_node_layer (s : XMLStructure) : Int :=
  if s.reader.cur.type = EXN_ELEMENT ∧ s.reader.cur.empty = true then
    s.current_layer + 1
  else s.current_layer

def set_new_bound (s : XMLStructure) (layer : Int) : XMLStructure :=
  { s with stop_layer := layer }

def get_current_bound (s : XMLStructure) : Int := s.stop_layer

/-- Member `bool read()`: step to next node. -/
def read (s : XMLStructure) : Bool × XMLStructure :=
  if s.last_read_invalid then
    if s.current_layer ≥ s.stop_layer then
      (true, { s with last_read_invalid := false })
    else (false, s)
  else
    match s.reader.read with
    | (true, r) =>
      match r.cur.type with
      | EXN_ELEMENT =>
        if r.cur.empty then (true, { s with reader := r })
        else (true, { s with reader := r, current_layer := s.current_layer + 1 })
      | EXN_ELEMENT_END =>
        if s.current_layer - 1 < s.stop_layer then
          (false, { s with reader := r, current_layer := s.current_layer - 1,
                           last_read_invalid := true })
        else (true, { s with reader := r, current_layer := s.current_layer - 1 })
      | EXN_OTHER => (true, { s with reader := r })
    | (false, r) => (false, { s with reader := r })

def node_name_is (s : XMLStructure) (str : String) : Bool :=
  str == s.reader.cur.name

/-- Member `throw_eof()`: throws `XMLEOF` when `XML_USE_CPP_EXCEPTION` is defined and
does nothing otherwise. -/
def throw_eof (b : Build) (s : XMLStructure) : Result :=
  if b.XML_USE_CPP_EXCEPTION then .stop .XMLEOF s else .ok s

/-- The `while (read())` loop of `skip`. -/
def skip_loop (b : Build) : Nat → Int → XMLStructure → Result
  | 0, _, _ => .out_of_fuel
  | fuel + 1, count, s =>
    match s.read with
    | (true, s1) =>
      match s1.reader.cur.type with
      | EXN_ELEMENT =>
        if s1.reader.cur.empty then skip_loop b fuel count s1
        else skip_loop b fuel (count + 1) s1
      | EXN_ELEMENT_END =>
        if count - 1 = 0 then .ok s1 else skip_loop b fuel (count - 1) s1
      | EXN_OTHER => skip_loop b fuel count s1
    | (false, s1) => throw_eof b s1

/-- Member `void skip()`: read to the end of current element. -/
def skip (b : Build) (fuel : Nat) (s : XMLStructure) : Result :=
  if s.reader.cur.empty then .ok s else skip_loop b fuel 1 s

/-- Invocation `func(*this)` of a `NodeProcessor`: the callback sees the
reader's current node. -/
def call_node_processor (func : Nat) (s : XMLStructure) : XMLStructure :=
  { s with trace := s.trace ++ [Event.immediate func s.reader.cur s.reader.pos] }

/-- The `while (read())` loop shared by the two overloads of `node`;
`func = none` is the overload without a callback.  Leaving the loop calls
`throw_eof()`; when that returns, control reaches the end of the function
without a `return` statement. -/
def node_loop (b : Build) (name : String) (func : Option Nat) :
    Nat → XMLStructure → Result
  | 0, _ => .out_of_fuel
  | fuel + 1, s =>
    match s.read with
    | (true, s1) =>
      if s1.reader.cur.type = EXN_ELEMENT then
        if s1.node_name_is name then
          match func with
          | some f => .ok (call_node_processor f s1)
          | none => .ok s1
        else (skip b fuel s1).bind (node_loop b name func fuel)
      else node_loop b name func fuel s1
    | (false, s1) => (throw_eof b s1).bind (fun s2 => .stop .no_return s2)

/-- The `assert(each_callbacks.size() == 0)` that opens both overloads of `node`. -/
def assert_no_callbacks (b : Build) (s : XMLStructure) : Result :=
  if b.NDEBUG = false ∧ s.each_callbacks.length ≠ 0 then .stop .assertion s else .ok s

/-- Member `IXMLStructure* node(const XMLChar* name)`. -/
def node (b : Build) (fuel : Nat) (name : String) (s : XMLStructure) : Result :=
  (assert_no_callbacks b s).bind (node_loop b name none fuel)

/-- Member `IXMLStructure* node(const XMLChar* name, const NodeProcessor& func)`. -/
def node_func (b : Build) (fuel : Nat) (name : String) (func : Nat)
    (s : XMLStructure) : Result :=
  (assert_no_callbacks b s).bind (node_loop b name (some func) fuel)

/-- Member `IXMLStructure* each(name, func1, func2)`. -/
def each (s : XMLStructure) (name : String) (func1 : NodeProcessor)
    (func2 : Option StructureProcessor) : XMLStructure :=
  { s with each_callbacks := s.each_callbacks ++ [⟨name, func1, func2⟩] }

/-- The body of `do_each_to_close`, with its `while (read())` loop passed as
`loop` (applied to `start_layer` and the navigator). -/
def do_each_to_close_body (b : Build) (loop : Int → XMLStructure → Result)
    (s : XMLStructure) : Result :=
  (if s.last_read_invalid then throw_eof b s else .ok s).bind (fun s1 =>
    if s1.reader.cur.empty then .ok s1
    else loop s1.get_current_node_layer s1)

/-- The lambda `[=](EachCallback& e)` of `do_each_to_close`; `name` is the node
name captured before the iteration, `run` runs the calls of a nested
callback on the navigator. -/
def each_lambda (run : List Call → XMLStructure → Result) (e : EachCallback)
    (name : String) (s : XMLStructure) : Result :=
  if e.name = name then
    let s1 := match e.func1 with
      | some f => call_node_processor f s
      | none => s
    match e.func2 with
    | some g =>
      if s1.reader.cur.empty = false then
        let bound := s1.get_current_bound
        let s2 := s1.set_new_bound s1.get_current_node_layer
        let s3 := { s2 with trace := s2.trace ++
          [Event.enter g.id s2.reader.cur s2.reader.pos s2.stop_layer] }
        (run g.body s3).bind (fun s4 =>
          let s5 := s4.set_new_bound bound
          .ok { s5 with trace := s5.trace ++
            [Event.leave g.id s5.current_layer s5.last_read_invalid s5.stop_layer] })
      else .ok s1
    | none => .ok s1
  else .ok s

mutual

/-- The `while (read())` loop of `do_each_to_close`. -/
def do_each_loop (b : Build) : Nat → Int → XMLStructure → Result
  | 0, _, _ => .out_of_fuel
  | fuel + 1, start_layer, s =>
    match s.read with
    | (true, s1) =>
      match s1.reader.cur.type with
      | EXN_ELEMENT =>
        if s1.get_current_node_layer = start_layer + 1 then
          (for_each b fuel s1.each_callbacks s1.reader.cur.name s1).bind
            (do_each_loop b fuel start_layer)
        else do_each_loop b fuel start_layer s1
      | EXN_ELEMENT_END =>
        if s1.get_current_node_layer = start_layer - 1 then .ok s1
        else do_each_loop b fuel start_layer s1
      | EXN_OTHER => do_each_loop b fuel start_layer s1
    | (false, s1) => .ok s1

/-- The `std::for_each` over `each_callbacks`.  The iteration runs over the
registry as it was when `for_each` was called: `begin()` and `end()` are
taken once, and an `each` made by a nested callback appends behind that
range.  That is the run in which the `push_back` does not move the vector's
storage; a `push_back` that reallocates while the iteration is under way
invalidates the iterators, which C++ leaves undefined and this definition
does not represent. -/
def for_each (b : Build) : Nat → List EachCallback → String → XMLStructure → Result
  | 0, _, _, _ => .out_of_fuel
  | _ + 1, [], _, s => .ok s
  | fuel + 1, e :: es, name, s =>
    (each_lambda (exec b fuel) e name s).bind (for_each b fuel es name)

/-- Running the calls a `StructureProcessor` makes, in order; an exception
raised by a call leaves the callback at once. -/
def exec (b : Build) : Nat → List Call → XMLStructure → Result
  | 0, _, _ => .out_of_fuel
  | _ + 1, [], s => .ok s
  | fuel + 1, c :: cs, s =>
    match c with
    | .node name => (node b fuel name s).bind (exec b fuel cs)
    | .node_func name func => (node_func b fuel name func s).bind (exec b fuel cs)
    | .each name func1 func2 body =>
      exec b fuel cs (s.each name func1 (func2.map (fun id => ⟨id, body⟩)))
    | .close => (do_each_to_close_body b (do_each_loop b fuel) s).bind (exec b fuel cs)

end

/-- Member `void do_each_to_close()`: handle the subscriptions and read to the end of
the current element. -/
def do_each_to_close (b : Build) (fuel : Nat) (s : XMLStructure) : Result :=
  do_each_to_close_body b (do_each_loop b fuel) s

/-- Member `IXMLStructure* close()`. -/
def close (b : Build) (fuel : Nat) (s : XMLStructure) : Result :=
  do_each_to_close b fuel s

end XMLStructure

/-! ## Documents: well-formedness and the children of a scope -/

/-- Well-formedness, `balanced d ts`: with `d` elements open, reading `ts` never closes an
element that is not open and leaves no element open (names are not
compared: the navigator checks open/close matching only). -/
def balanced : Nat → List Token → Bool
  | d, [] => d == 0
  | d, t :: ts =>
    match t.type with
    | EXN_ELEMENT => if t.empty then balanced d ts else balanced (d + 1) ts
    | EXN_ELEMENT_END =>
      match d with
      | 0 => false
      | d + 1 => balanced d ts
    | EXN_OTHER => balanced d ts

/-- The start-events of `ts` that are direct children of the scope, in
document order, each with its index in the document; `d` is the number of
elements open inside the scope and `pos` the index of the event before `ts`. -/
def children : Nat → Nat → List Token → List (Nat × Token)
  | _, _, [] => []
  | d, pos, t :: ts =>
    match t.type with
    | EXN_ELEMENT =>
      (if d = 0 then [(pos + 1, t)] else []) ++
        children (if t.empty then d else d + 1) (pos + 1) ts
    | EXN_ELEMENT_END => children (d - 1) (pos + 1) ts
    | EXN_OTHER => children d (pos + 1) ts

/-- The immediate callbacks fired for one child: every subscription whose
name equals the child's name, in registration order. -/
def fan_out (cbs : List EachCallback) (c : Nat × Token) : List Event :=
  (cbs.filter (fun e => e.name = c.2.name)).filterMap
    (fun e => e.func1.map (fun f => Event.immediate f c.2 c.1))

/-- The invocation sequence the spec prescribes for `close()`: the direct
children in document order and, for each, the matching subscriptions in
registration order. -/
def dispatch_spec (cbs : List EachCallback) : List (Nat × Token) → List Event
  | [] => []
  | c :: cs => fan_out cbs c ++ dispatch_spec cbs cs

/-- No nested callback is fired for the child `t`: every subscription named
like `t` has no nested callback, or `t` is self-closing. -/
def quiet (cbs : List EachCallback) (t : Token) : Prop :=
  ∀ e ∈ cbs, e.name = t.name → e.func2 = none ∨ t.empty = true

/-- A non-self-closing start-event: the events that open an element. -/
def Token.opens (t : Token) : Bool := t.type = EXN_ELEMENT ∧ t.empty = false

/-- An end-event. -/
def Token.closes (t : Token) : Bool := t.type = EXN_ELEMENT_END

/-- Outcome of the reference search of `node`: the element matched, as its
offset in the tokens not read yet, or no match after `k` tokens were
consumed. -/
inductive Search where
  | found (k : Nat)
  | exhausted (k : Nat)
  deriving DecidableEq, Repr

/-- The same outcome seen from one token earlier. -/
def Search.shift : Search → Search
  | .found k => .found (k + 1)
  | .exhausted k => .exhausted (k + 1)

/-- Reference definition of the search `node(name)` performs, from the spec:
step repeatedly; a start-event whose name equals `name` exactly is the
match; the subtree of any other start-event is skipped whole (`c` is the
open-count of the subtree being skipped, 0 outside one); end-events and
other events are never matched; the search is exhausted when the tokens run
out or an end-event takes the depth `layer` below the Scope Bound `stop`. -/
def search (name : String) (stop : Int) : Nat → Int → List Token → Search
  | _, _, [] => .exhausted 0
  | c, layer, t :: ts =>
    match t.type with
    | EXN_ELEMENT =>
      if c = 0 ∧ name = t.name then .found 0
      else if t.empty then (search name stop c layer ts).shift
      else (search name stop (c + 1) (layer + 1) ts).shift
    | EXN_ELEMENT_END =>
      if layer - 1 < stop then .exhausted 1
      else (search name stop (c - 1) (layer - 1) ts).shift
    | EXN_OTHER => (search name stop c layer ts).shift

/-- How `node` ends when `throw_eof()` is reached: the exception, or (when
exceptions are disabled) the end of the function without a return value. -/
def eof_abort (b : Build) : Abort :=
  if b.XML_USE_CPP_EXCEPTION then .XMLEOF else .no_return

/-- What the result of `node` must be for a given outcome of the reference
search, started with `ts` unread at position `pos`, invocation record `tr`,
registry `cbs` and Scope Bound `stop`. -/
def node_post (b : Build) (name : String) (func : Option Nat) (pos : Nat)
    (tr : List Event) (cbs : List EachCallback) (stop : Int) (ts : List Token) :
    Search → Result → Prop
  | .found k, .ok s' =>
    s'.reader.cur :: s'.reader.rest = ts.drop k ∧ s'.reader.pos = pos + k + 1 ∧
    s'.reader.cur.type = EXN_ELEMENT ∧ s'.reader.cur.name = name ∧
    s'.trace = tr ++ (match func with
      | some f => [Event.immediate f s'.reader.cur s'.reader.pos]
      | none => []) ∧
    s'.last_read_invalid = false ∧ s'.each_callbacks = cbs ∧ s'.stop_layer = stop
  | .exhausted k, .stop w s' =>
    w = eof_abort b ∧ s'.reader.rest = ts.drop k ∧ s'.reader.pos = pos + k ∧
    s'.trace = tr ∧ s'.each_callbacks = cbs ∧ s'.stop_layer = stop
  | _, _ => False

/-! ## Frames: what a bounded navigator can reach -/

section frames
open XMLStructure

/-- The names of the subscriptions that carry a nested callback. -/
def nested_names (cbs : List EachCallback) : List String :=
  (cbs.filter (fun e => e.func2.isSome)).map (fun e => e.name)

/-- A call that registers no nested callback. -/
def Call.flat : Call → Bool
  | .each _ _ (some _) _ => false
  | _ => true

/-- Every nested callback of the registry registers immediate callbacks only. -/
def flat_bodies (cbs : List EachCallback) : Prop :=
  ∀ e ∈ cbs, ∀ g, e.func2 = some g → ∀ c ∈ g.body, c.flat = true

/-- A registry in which no two subscriptions with a nested callback share a
name and nested callbacks register immediate callbacks only. -/
def tame (cbs : List EachCallback) : Prop :=
  (nested_names cbs).Nodup ∧ flat_bodies cbs

/-- Inside the frame that ends with the end-event `e` followed by `after`,
under Scope Bound `B`: the flag is clear and the unread tokens close the `d`
elements open inside the frame before `e`. -/
def Inside (B : Int) (e : Token) (after : List Token) (s : XMLStructure) : Prop :=
  s.stop_layer = B ∧ s.last_read_invalid = false ∧
    ∃ (ts : List Token) (d : Nat), s.reader.rest = ts ++ e :: after ∧ balanced d ts = true ∧
      s.current_layer = B + d

/-- The frame's end-event has been read and is pushed back. -/
def Done (B : Int) (e : Token) (after : List Token) (s : XMLStructure) : Prop :=
  s.stop_layer = B ∧ s.last_read_invalid = true ∧ s.reader.cur = e ∧
    s.reader.rest = after ∧ s.current_layer = B - 1

/-- In a frame (inside it, or on its pushed-back end-event) with a tame
registry. -/
def Framed (B : Int) (e : Token) (after : List Token) (s : XMLStructure) : Prop :=
  (Inside B e after s ∨ Done B e after s) ∧ tame s.each_callbacks

/-- State of the loop of `do_each_to_close` while it drains the element that
ends with `e1` (followed by `rest1`): `start` is the element's Node Depth,
`stop` the Scope Bound, `k` the number of elements open inside it. -/
def LoopInv (start stop : Int) (e1 : Token) (rest1 : List Token) (s : XMLStructure) : Prop :=
  s.stop_layer = stop ∧
  (s.last_read_invalid = true → s.reader.cur.type = EXN_ELEMENT_END) ∧
  (∃ (ts : List Token) (k : Nat), s.reader.rest = ts ++ e1 :: rest1 ∧ balanced k ts = true ∧
    s.current_layer = start + k) ∧
  tame s.each_callbacks

/-- State in which that loop returns. -/
def LoopPost (start stop : Int) (e1 : Token) (rest1 : List Token) (s : XMLStructure) : Prop :=
  s.reader.cur = e1 ∧ s.reader.rest = rest1 ∧ s.current_layer = start - 1 ∧
  s.last_read_invalid = decide (start - 1 < stop) ∧ s.stop_layer = stop ∧
  tame s.each_callbacks

/-- The loop of `do_each_to_close` with fuel `n` returns only in `LoopPost`. -/
def LoopOK (b : Build) (n : Nat) : Prop :=
  ∀ (start stop : Int) (e1 : Token) (rest1 : List Token) (s s' : XMLStructure),
    e1.type = EXN_ELEMENT_END → stop ≤ start → LoopInv start stop e1 rest1 s →
    do_each_loop b n start s = .ok s' → LoopPost start stop e1 rest1 s'

/-- The dispatch of one child with fuel `n` returns only in `LoopInv`: either
the reader is still on the child (flag clear; a non-self-closing child is at
depth `start + 1`), or no subscription left carries a nested callback for
this name. -/
def ForEachOK (b : Build) (n : Nat) : Prop :=
  ∀ (es : List EachCallback) (name : String) (start stop : Int) (e1 : Token)
    (rest1 : List Token) (s s' : XMLStructure),
    e1.type = EXN_ELEMENT_END → stop ≤ start → LoopInv start stop e1 rest1 s →
    (nested_names es).Nodup → flat_bodies es →
    ((s.last_read_invalid = false ∧
        (s.reader.cur.empty = false → s.current_layer = start + 1)) ∨
      (∀ e ∈ es, e.name = name → e.func2 = none)) →
    for_each b n es name s = .ok s' → LoopInv start stop e1 rest1 s'

/-- The calls of a nested callback with fuel `n` stay in their frame. -/
def ExecOK (b : Build) (n : Nat) : Prop :=
  ∀ (cs : List Call) (B : Int) (e : Token) (after : List Token) (s s' : XMLStructure),
    e.type = EXN_ELEMENT_END → (∀ c ∈ cs, c.flat = true) → Framed B e after s →
    exec b n cs s = .ok s' → Framed B e after s'

/-- The state in which `close()` leaves a scope entered in state `s` on a
non-self-closing element whose end-event is `e`, followed by `after`:
Depth is startDepth - 1, the reader is on `e`, the Scope Bound is unchanged,
and the Pushback Flag is clear when the bound is below startDepth and set
when it equals startDepth. -/
def close_post (s : XMLStructure) (e : Token) (after : List Token) (s' : XMLStructure) :
    Prop :=
  s'.current_layer = s.get_current_node_layer - 1 ∧
  s'.stop_layer = s.stop_layer ∧
  (s.stop_layer < s.get_current_node_layer → s'.last_read_invalid = false) ∧
  (s.stop_layer = s.get_current_node_layer → s'.last_read_invalid = true) ∧
  s'.reader.cur = e ∧ s'.reader.rest = after

end frames

/-! ## Example documents -/

def tStart (n : String) (a : List (String × String)) : Token := ⟨EXN_ELEMENT, n, false, a⟩
def tEmpty (n : String) (a : List (String × String)) : Token := ⟨EXN_ELEMENT, n, true, a⟩
def tEnd (n : String) : Token := ⟨EXN_ELEMENT_END, n, false, []⟩
def tText : Token := ⟨EXN_OTHER, "", false, []⟩

/-- The reader before its first `read()`. -/
def open_reader (doc : List Token) : IXMLReader := ⟨tText, doc, 0⟩

/-- The build the spec describes: `throw_eof` throws, `assert` is active. -/
def debug_build : Build := ⟨true, false⟩

/-- Exceptions enabled, assertions compiled out. -/
def release_build : Build := ⟨true, true⟩

/-- The document `<root><a x="1"/><b><c/></b><a x="2"/></root>`. -/
def scenario_doc : List Token :=
  [tStart "root" [], tEmpty "a" [("x", "1")], tStart "b" [], tEmpty "c" [], tEnd "b",
   tEmpty "a" [("x", "2")], tEnd "root"]

/-- The navigator positioned on `<root>` of `scenario_doc`, as `node("root")`
leaves it, with the subscriptions `cbs` registered. -/
def scenario_at_root (cbs : List EachCallback) : XMLStructure :=
  { reader := ⟨tStart "root" [], scenario_doc.tail, 1⟩, each_callbacks := cbs,
    current_layer := 1 }

/-- Children `[A, B, A, C]` of a scope, followed by the scope's end-event. -/
def abac_rest : List Token :=
  [tEmpty "A" [("k", "first")], tStart "B" [], tEnd "B", tStart "A" [("k", "second")],
   tEmpty "A" [("k", "inner")], tEnd "A", tEmpty "C" [], tEnd "S"]

/-- The navigator positioned on the scope element `<S>` whose children are
`[A, B, A, C]`, with the subscriptions `cbs` registered. -/
def abac_at_scope (cbs : List EachCallback) : XMLStructure :=
  { reader := ⟨tStart "S" [], abac_rest, 1⟩, each_callbacks := cbs, current_layer := 1 }

/-- A traversal by a caller: the calls `script` made, in order, on a navigator
freshly created on a reader over `doc`. -/
def run (b : Build) (fuel : Nat) (doc : List Token) (script : List Call) : Result :=
  XMLStructure.exec b fuel script (XMLStructure.create (open_reader doc))

/-- The document `<root><A><x/></A></root>`. -/
def nested_doc : List Token :=
  [tStart "root" [], tStart "A" [], tEmpty "x" [], tEnd "A", tEnd "root"]

/-- The navigator as the nested callback of `each("A", nested)` receives it on
`nested_doc`: positioned on `<A>`, Scope Bound = Node Depth of `<A>` = 2. -/
def nested_doc_in_callback (body : List Call) : XMLStructure :=
  { reader := ⟨tStart "A" [], [tEmpty "x" [], tEnd "A", tEnd "root"], 2⟩,
    each_callbacks := [⟨"A", none, some ⟨1, body⟩⟩],
    current_layer := 2, stop_layer := 2,
    trace := [Event.enter 1 (tStart "A" []) 2 2] }

/-- The navigator positioned on `<root>` of `nested_doc`, as `node("root")`
leaves it, with `each("A", nested)` registered. -/
def nested_doc_at_root (body : List Call) : XMLStructure :=
  { reader := ⟨tStart "root" [], [tStart "A" [], tEmpty "x" [], tEnd "A", tEnd "root"], 1⟩,
    each_callbacks := [⟨"A", none, some ⟨1, body⟩⟩],
    current_layer := 1 }

/-- The tokens `<a><b x="inner"/></a>text<B></B><b x="outer"/><b/>`: the first `b` lies
inside the non-matching `a`, and `B` differs from `b` by case only. -/
def search_doc : List Token :=
  [tStart "a" [], tEmpty "b" [("x", "inner")], tEnd "a", tText, tStart "B" [], tEnd "B",
   tEmpty "b" [("x", "outer")], tEmpty "b" []]

/-- The document `<root><A></A><B></B></root>`. -/
def sibling_doc : List Token :=
  [tStart "root" [], tStart "A" [], tEnd "A", tStart "B" [], tEnd "B", tEnd "root"]

/-- A traversal of `sibling_doc` with two subscriptions named `A` that both
carry a nested callback (the first drains `<A>` with `close()`, the second
makes the calls `second`) and a subscription on `B`. -/
def two_nested_script (second : List Call) : List Call :=
  [Call.node "root",
   Call.each "A" none (some 1) [Call.close],
   Call.each "A" (some 5) (some 2) second,
   Call.each "B" (some 3) none [],
   Call.close]

/-! ## Reference definition of the step operation -/

/-- Reference definition of the step operation, following the spec's words.
With the Pushback Flag set the reader is not touched: if Depth is at least
the Scope Bound the flag is cleared and a token is reported, otherwise no
token is reported and nothing changes.  With the flag clear and no token
left, no token is reported and nothing changes.  Otherwise exactly one token
is consumed: an opening start-event adds 1 to Depth; an end-event subtracts
1 and then, if Depth is below the Scope Bound, sets the flag and reports no
token; every other event leaves Depth as it is. -/
def step_spec (s : XMLStructure) : Bool × XMLStructure :=
  match s.last_read_invalid, s.reader.rest with
  | true, _ =>
    if s.stop_layer ≤ s.current_layer then (true, { s with last_read_invalid := false })
    else (false, s)
  | false, [] => (false, s)
  | false, t :: ts =>
    let consumed : IXMLReader := ⟨t, ts, s.reader.pos + 1⟩
    if t.opens then
      (true, { s with reader := consumed, current_layer := s.current_layer + 1 })
    else if t.closes then
      let depth := s.current_layer - 1
      if depth < s.stop_layer then
        (false, { s with reader := consumed, current_layer := depth,
                         last_read_invalid := true })
      else (true, { s with reader := consumed, current_layer := depth })
    else (true, { s with reader := consumed })

/-- The document `<root><A k="v"><x/></A></root>`. -/
def attr_doc : List Token :=
  [tStart "root" [], tStart "A" [("k", "v")], tEmpty "x" [], tEnd "A", tEnd "root"]

/-- The document `<root><A><A/></A></root>`. -/
def same_name_doc : List Token :=
  [tStart "root" [], tStart "A" [], tEmpty "A" [], tEnd "A", tEnd "root"]

/-! ## Invariants of a traversal -/

/-- Holds of a result whose state satisfies `P` after a normal return and `Q`
after an abort (the state the navigator is left in when the exception or
the assertion stops the traversal). -/
def Result.sat (P Q : XMLStructure → Prop) : Result → Prop
  | .ok s => P s
  | .stop _ s => Q s
  | .out_of_fuel => True

/-- The build the spec describes: `throw_eof()` throws and the assertion of
`node` is active. -/
def spec_build (b : Build) : Prop := b.XML_USE_CPP_EXCEPTION = true ∧ b.NDEBUG = false

/-- The reader, the Pushback Flag and Depth of `s'` are those of `s`. -/
def same_position (s s' : XMLStructure) : Prop :=
  s'.reader = s.reader ∧ s'.last_read_invalid = s.last_read_invalid ∧
    s'.current_layer = s.current_layer

/-- The registry of `s'` is the registry of `s` with subscriptions appended. -/
def grown (s s' : XMLStructure) : Prop := ∃ l, s'.each_callbacks = s.each_callbacks ++ l

/-- A family `M c` of state properties under Scope Bound `c`, with `O` for
the states an abort leaves behind, that `read()` and the bound changes made
around a nested callback preserve.  Where the build is the one the spec
describes, a nested callback entered with the pushback pending is not asked
to preserve `M`: it cannot read at all (see `frozen`). -/
structure Invariant (b : Build) (M : Int → XMLStructure → Prop) (O : XMLStructure → Prop) :
    Prop where
  bound : ∀ c s, M c s → s.stop_layer = c
  step : ∀ c s, M c s → M c s.read.2
  abort : ∀ c s, M c s → O s
  frame : ∀ c s s', M c s → same_position s s' → s'.stop_layer = s.stop_layer →
    grown s s' → M c s'
  enter : ∀ c s, M c s → s.reader.cur.empty = false →
    (s.last_read_invalid = false ∨ ¬ spec_build b) →
    M s.get_current_node_layer (s.set_new_bound s.get_current_node_layer)
  leave : ∀ c s s', M c s → s.reader.cur.empty = false →
    (s.last_read_invalid = false ∨ ¬ spec_build b) →
    M s.get_current_node_layer s' → M c (s'.set_new_bound c)
  frozen : ∀ c s s', M c s → s.last_read_invalid = true → same_position s s' → O s'

/-- What an invariant promises of a result reached from `s` under bound `c`. -/
def Invariant.post (M : Int → XMLStructure → Prop) (c : Int) (s s' : XMLStructure) : Prop :=
  M c s' ∧ grown s s'

/-- Invariant I2 of the spec: whenever the Pushback Flag is false, the Scope
Bound is at most Depth. -/
def I2 (s : XMLStructure) : Prop :=
  s.last_read_invalid = false → s.stop_layer ≤ s.current_layer

/-- The number of non-self-closing start-events among `ts` minus the number
of end-events among `ts`. -/
def net_depth (ts : List Token) : Int :=
  (ts.countP Token.opens : Int) - (ts.countP Token.closes : Int)

/-- The navigator `s`, created on the reader `r0`, has consumed the first `k`
tokens `r0` had left, and its Depth is the number of elements those tokens
leave open. -/
def counted (r0 : IXMLReader) (s : XMLStructure) : Prop :=
  ∃ k : Nat, k ≤ r0.rest.length ∧ s.reader.rest = r0.rest.drop k ∧
    s.reader.pos = r0.pos + k ∧ s.current_layer = net_depth (r0.rest.take k)

/-- The reader has not advanced past the end-event `e` (followed by `after`)
of an element whose Node Depth is `B`: either `e` is still unread, with the
`d` elements open inside the element closed by the tokens before it, or `e`
is the current event, pushed back, with Depth `B - 1`. -/
def within_scope (B : Int) (e : Token) (after : List Token) (s : XMLStructure) : Prop :=
  (∃ (ts : List Token) (d : Nat), s.reader.rest = ts ++ e :: after ∧ balanced d ts = true ∧
    s.current_layer = B + d) ∨
  (s.reader.cur = e ∧ s.reader.rest = after ∧ s.current_layer = B - 1 ∧
    s.last_read_invalid = true)

/-- The header compiled as it stands: `XML_USE_CPP_EXCEPTION` is not defined
(`throw_eof()` does nothing) and `assert` is active. -/
def plain_build : Build := ⟨false, false⟩

/-- The document `<root><A><A></A></A><B/></root>`. -/
def nested_twice_doc : List Token :=
  [tStart "root" [], tStart "A" [], tStart "A" [], tEnd "A", tEnd "A", tEmpty "B" [],
   tEnd "root"]

/-- A traversal with three subscriptions named `A`, each with a nested
callback that calls `close()`. -/
def three_nested_script : List Call :=
  [Call.node "root",
   Call.each "A" none (some 1) [Call.close],
   Call.each "A" none (some 2) [Call.close],
   Call.each "A" none (some 3) [Call.close],
   Call.close]

/-- The document `<root><S><G></G><x></x></S><y/></root>`. -/
def scope_doc : List Token :=
  [tStart "root" [], tStart "S" [], tStart "G" [], tEnd "G", tStart "x" [], tEnd "x",
   tEnd "S", tEmpty "y" [], tEnd "root"]

/-- A traversal of `scope_doc`: the nested callback for `S` drains it with
`close()`; three subscriptions named `G` carry nested callbacks, the first
drains `<G>`, the second goes on to `<x>`, drains it and closes the enclosing
scope, the third searches for `y`. -/
def scope_script : List Call :=
  [Call.node "root",
   Call.each "S" none (some 0) [Call.close],
   Call.each "G" none (some 1) [Call.close],
   Call.each "G" none (some 2) [Call.node "x", Call.close, Call.close],
   Call.each "G" none (some 3) [Call.node "y"],
   Call.close]

/-- The document `<root><first><a/></first><next/></root>`. -/
def sequence_doc : List Token :=
  [tStart "root" [], tStart "first" [], tEmpty "a" [], tEnd "first", tEmpty "next" [],
   tEnd "root"]

/-- Root-level reuse for a sequential sibling search: `node`, `each`, `close`,
then `node` again. -/
def sequence_script : List Call :=
  [Call.node "root", Call.node "first", Call.each "a" (some 0) none [], Call.close,
   Call.node "next"]

/-! ## Termination -/

/-- The number of steps that can still report a token: two for every token
the reader has left (one to consume it, one to release it if it was pushed
back) and one if a pushback is pending now. -/
def pending_steps (s : XMLStructure) : Nat :=
  2 * s.reader.rest.length + (if s.last_read_invalid then 1 else 0)

/-- The computation `f`, given its fuel, halts: from some fuel on it gives one
and the same result, and that result is a return or an abort of the code,
not the exhaustion of the fuel. -/
def Halts (f : Nat → Result) : Prop :=
  ∃ (n : Nat) (r : Result), r ≠ .out_of_fuel ∧ ∀ m, n ≤ m → f m = r

/-- The navigator positioned on `<root>` (index 1) with `rest` still to read
and two subscriptions named `A` registered, whose nested callbacks (ids 1
and 2) make the calls `first` and `second`. -/
def two_nested_at_root (rest : List Token) (first second : List Call) : XMLStructure :=
  { reader := ⟨tStart "root" [], rest, 1⟩,
    each_callbacks := [⟨"A", none, some ⟨1, first⟩⟩, ⟨"A", none, some ⟨2, second⟩⟩],
    current_layer := 1 }

/-! ## Basic facts about `read` -/

section read_lemmas
open XMLStructure

theorem read_open (s : XMLStructure) (t : Token) (ts : List Token)
    (hf : s.last_read_invalid = false) (hr : s.reader.rest = t :: ts)
    (ht : t.type = EXN_ELEMENT) (he : t.empty = false) :
    s.read = (true, { s with reader := ⟨t, ts, s.reader.pos + 1⟩,
                             current_layer := s.current_layer + 1 }) := by
  simp [XMLStructure.read, IXMLReader.read, hf, hr, ht, he]

theorem read_leaf (s : XMLStructure) (t : Token) (ts : List Token)
    (hf : s.last_read_invalid = false) (hr : s.reader.rest = t :: ts)
    (ht : t.type = EXN_ELEMENT) (he : t.empty = true) :
    s.read = (true, { s with reader := ⟨t, ts, s.reader.pos + 1⟩ }) := by
  simp [XMLStructure.read, IXMLReader.read, hf, hr, ht, he]

theorem read_other (s : XMLStructure) (t : Token) (ts : List Token)
    (hf : s.last_read_invalid = false) (hr : s.reader.rest = t :: ts)
    (ht : t.type = EXN_OTHER) :
    s.read = (true, { s with reader := ⟨t, ts, s.reader.pos + 1⟩ }) := by
  simp [XMLStructure.read, IXMLReader.read, hf, hr, ht]

theorem read_end (s : XMLStructure) (t : Token) (ts : List Token)
    (hf : s.last_read_invalid = false) (hr : s.reader.rest = t :: ts)
    (ht : t.type = EXN_ELEMENT_END) (hb : s.stop_layer ≤ s.current_layer - 1) :
    s.read = (true, { s with reader := ⟨t, ts, s.reader.pos + 1⟩,
                             current_layer := s.current_layer - 1 }) := by
  have : ¬ (s.current_layer - 1 < s.stop_layer) := by omega
  simp [XMLStructure.read, IXMLReader.read, hf, hr, ht, this]

theorem read_end_pushback (s : XMLStructure) (t : Token) (ts : List Token)
    (hf : s.last_read_invalid = false) (hr : s.reader.rest = t :: ts)
    (ht : t.type = EXN_ELEMENT_END) (hb : s.current_layer - 1 < s.stop_layer) :
    s.read = (false, { s with reader := ⟨t, ts, s.reader.pos + 1⟩,
                              current_layer := s.current_layer - 1,
                              last_read_invalid := true }) := by
  simp [XMLStructure.read, IXMLReader.read, hf, hr, ht, hb]

theorem read_eof (s : XMLStructure)
    (hf : s.last_read_invalid = false) (hr : s.reader.rest = []) :
    s.read = (false, s) := by
  cases s
  simp_all [XMLStructure.read, IXMLReader.read]

/-- With the flag clear and a token left, `read` consumes exactly that token and
touches neither the registry, the bound nor the trace; when it reports a
token the flag is still clear. -/
theorem read_cons (s : XMLStructure) (t : Token) (ts : List Token)
    (hf : s.last_read_invalid = false) (hr : s.reader.rest = t :: ts) :
    (s.read).2.reader = ⟨t, ts, s.reader.pos + 1⟩ ∧
    (s.read).2.each_callbacks = s.each_callbacks ∧
    (s.read).2.stop_layer = s.stop_layer ∧
    (s.read).2.trace = s.trace ∧
    ((s.read).1 = true → (s.read).2.last_read_invalid = false) := by
  cases ht : t.type with
  | EXN_ELEMENT =>
    cases hem : t.empty with
    | true => rw [read_leaf s t ts hf hr ht hem]; simp [hf]
    | false => rw [read_open s t ts hf hr ht hem]; simp [hf]
  | EXN_ELEMENT_END =>
    by_cases hb : s.current_layer - 1 < s.stop_layer
    · rw [read_end_pushback s t ts hf hr ht hb]; simp
    · rw [read_end s t ts hf hr ht (by omega)]; simp [hf]
  | EXN_OTHER => rw [read_other s t ts hf hr ht]; simp [hf]

theorem read_as_step_spec (s : XMLStructure) : s.read = step_spec s := by
  obtain ⟨⟨cur, rest, pos⟩, cbs, flag, layer, stop, tr⟩ := s
  cases flag
  · cases rest with
    | nil => simp [XMLStructure.read, step_spec, IXMLReader.read]
    | cons t ts =>
      obtain ⟨ty, nm, em, at_⟩ := t
      cases ty <;> cases em <;>
        simp [XMLStructure.read, step_spec, IXMLReader.read, Token.opens, Token.closes]
  · by_cases h : stop ≤ layer <;> simp [XMLStructure.read, step_spec, h]

end read_lemmas

/-! ## Dispatch when no nested callback fires -/

section dispatch
open XMLStructure

theorem fan_out_cons (e : EachCallback) (es : List EachCallback) (c : Nat × Token) :
    fan_out (e :: es) c = fan_out [e] c ++ fan_out es c := by
  unfold fan_out
  by_cases h : e.name = c.2.name <;> cases hf : e.func1 <;> simp [List.filter, h, hf]

theorem each_lambda_quiet (run : List Call → XMLStructure → Result) (e : EachCallback)
    (s : XMLStructure)
    (hq : e.name = s.reader.cur.name → e.func2 = none ∨ s.reader.cur.empty = true) :
    each_lambda run e s.reader.cur.name s =
      .ok { s with trace := s.trace ++ fan_out [e] (s.reader.pos, s.reader.cur) } := by
  unfold each_lambda fan_out
  by_cases h : e.name = s.reader.cur.name
  · rcases hq h with h2 | h2
    · cases hf : e.func1 <;> simp [h, h2, hf, call_node_processor, List.filter]
    · cases hf : e.func1 <;> cases hg : e.func2 <;>
        simp [h, h2, hf, call_node_processor, List.filter]
  · simp [h, List.filter]

theorem for_each_quiet (b : Build) (es : List EachCallback) :
    ∀ (fuel : Nat) (s : XMLStructure), es.length < fuel → quiet es s.reader.cur →
      for_each b fuel es s.reader.cur.name s =
        .ok { s with trace := s.trace ++ fan_out es (s.reader.pos, s.reader.cur) } := by
  induction es with
  | nil =>
    intro fuel s hfuel _
    cases fuel with
    | zero => omega
    | succ f => cases s; simp [for_each, fan_out]
  | cons e es ih =>
    intro fuel s hfuel hq
    cases fuel with
    | zero => omega
    | succ f =>
      have hq1 : e.name = s.reader.cur.name → e.func2 = none ∨ s.reader.cur.empty = true :=
        hq e (List.mem_cons_self _ _)
      have hq2 : quiet es s.reader.cur := fun x hx => hq x (List.mem_cons_of_mem _ hx)
      rw [for_each, each_lambda_quiet _ e s hq1]
      simp only [Result.bind]
      have := ih f { s with trace := s.trace ++ fan_out [e] (s.reader.pos, s.reader.cur) }
        (by simp at hfuel ⊢; omega) hq2
      simp only [] at this
      rw [this, fan_out_cons e es, List.append_assoc]

theorem node_layer_leaf (s : XMLStructure) (ht : s.reader.cur.type = EXN_ELEMENT)
    (he : s.reader.cur.empty = true) : s.get_current_node_layer = s.current_layer + 1 := by
  simp [get_current_node_layer, ht, he]

theorem node_layer_open (s : XMLStructure) (he : s.reader.cur.empty = false) :
    s.get_current_node_layer = s.current_layer := by
  simp [get_current_node_layer, he]

theorem node_layer_not_element (s : XMLStructure) (ht : s.reader.cur.type ≠ EXN_ELEMENT) :
    s.get_current_node_layer = s.current_layer := by
  simp [get_current_node_layer, ht]

/-- The loop of `do_each_to_close` on a well-formed scope body in which no
nested callback fires: it stops on the scope's end-event and has fired the
immediate callbacks the spec prescribes. -/
theorem do_each_loop_quiet (b : Build) (start : Int) (e : Token) (after : List Token)
    (he : e.type = EXN_ELEMENT_END) :
    ∀ (ts : List Token) (d : Nat) (fuel : Nat) (s : XMLStructure),
      s.last_read_invalid = false →
      s.reader.rest = ts ++ e :: after →
      balanced d ts = true →
      s.current_layer = start + d →
      s.stop_layer ≤ start →
      (∀ c ∈ children d s.reader.pos ts, quiet s.each_callbacks c.2) →
      ts.length + s.each_callbacks.length + 2 ≤ fuel →
      do_each_loop b fuel start s = .ok
        { s with reader := ⟨e, after, s.reader.pos + ts.length + 1⟩,
                 current_layer := start - 1,
                 last_read_invalid := decide (start - 1 < s.stop_layer),
                 trace := s.trace ++
                   dispatch_spec s.each_callbacks (children d s.reader.pos ts) } := by
  intro ts
  induction ts with
  | nil =>
    intro d fuel s hf hr hb hl hs _ hfuel
    obtain ⟨f, rfl⟩ : ∃ f, fuel = f + 1 := ⟨fuel - 1, by omega⟩
    have hd : d = 0 := by simpa [balanced] using hb
    subst hd
    simp only [List.nil_append] at hr
    rw [do_each_loop]
    by_cases hp : s.current_layer - 1 < s.stop_layer
    · rw [read_end_pushback s e after hf hr he hp]
      have : start - 1 < s.stop_layer := by simp at hl; omega
      simp [children, dispatch_spec, this, hl]
    · rw [read_end s e after hf hr he (by omega)]
      have : ¬ (start - 1 < s.stop_layer) := by simp at hl; omega
      simp [children, dispatch_spec, this, hl, he, hf, get_current_node_layer]
  | cons t ts ih =>
    intro d fuel s hf hr hb hl hs hq hfuel
    obtain ⟨f, rfl⟩ : ∃ f, fuel = f + 1 := ⟨fuel - 1, by omega⟩
    obtain ⟨⟨cur, rest, pos⟩, cbs, flag, layer, stop, tr⟩ := s
    dsimp only at hf hr hl hs hq hfuel
    subst hf hr hl
    simp only [List.length_cons] at hfuel
    rw [do_each_loop]
    cases ht : t.type with
    | EXN_ELEMENT =>
      cases hem : t.empty with
      | true =>
        rw [read_leaf _ t (ts ++ e :: after) rfl rfl ht hem]
        dsimp only
        simp only [ht]
        have hb2 : balanced d ts = true := by simpa [balanced, ht, hem] using hb
        rw [node_layer_leaf _ ht hem]
        dsimp only
        by_cases hd : d = 0
        · subst hd
          rw [if_pos (by simp)]
          have hq0 : quiet cbs t := hq (pos + 1, t) (by simp [children, ht])
          have hfe := for_each_quiet b cbs f
            ⟨⟨t, ts ++ e :: after, pos + 1⟩, cbs, false, start + (0 : Nat), stop, tr⟩
            (by omega) hq0
          dsimp only at hfe
          rw [hfe]
          simp only [Result.bind]
          rw [ih 0 f ⟨⟨t, ts ++ e :: after, pos + 1⟩, cbs, false, start + (0 : Nat), stop,
            tr ++ fan_out cbs (pos + 1, t)⟩ rfl rfl hb2 rfl hs
            (fun c hc => hq c (by simp [children, ht, hem]; right; exact hc))
            (by simp; omega)]
          simp [children, ht, hem, dispatch_spec, List.append_assoc, Nat.add_assoc,
            Nat.add_comm 1]
        · rw [if_neg (by simp; omega)]
          rw [ih d f ⟨⟨t, ts ++ e :: after, pos + 1⟩, cbs, false, start + d, stop, tr⟩
            rfl rfl hb2 rfl hs
            (fun c hc => hq c (by simp [children, ht, hem, hd]; exact hc))
            (by simp; omega)]
          simp [children, ht, hem, hd, Nat.add_assoc, Nat.add_comm 1]
      | false =>
        rw [read_open _ t (ts ++ e :: after) rfl rfl ht hem]
        dsimp only
        simp only [ht]
        have hb2 : balanced (d + 1) ts = true := by simpa [balanced, ht, hem] using hb
        have hl2 : start + (d : Int) + 1 = start + ((d + 1 : Nat) : Int) := by
          push_cast; omega
        rw [node_layer_open _ hem]
        dsimp only
        by_cases hd : d = 0
        · subst hd
          rw [if_pos (by simp)]
          have hq0 : quiet cbs t := hq (pos + 1, t) (by simp [children, ht])
          have hfe := for_each_quiet b cbs f
            ⟨⟨t, ts ++ e :: after, pos + 1⟩, cbs, false, start + (0 : Nat) + 1, stop, tr⟩
            (by omega) hq0
          dsimp only at hfe
          rw [hfe]
          simp only [Result.bind]
          rw [ih 1 f ⟨⟨t, ts ++ e :: after, pos + 1⟩, cbs, false, start + (0 : Nat) + 1, stop,
            tr ++ fan_out cbs (pos + 1, t)⟩ rfl rfl hb2 hl2 hs
            (fun c hc => hq c (by simp [children, ht, hem]; right; exact hc))
            (by simp; omega)]
          simp [children, ht, hem, dispatch_spec, List.append_assoc, Nat.add_assoc,
            Nat.add_comm 1]
        · rw [if_neg (by simp; omega)]
          rw [ih (d + 1) f ⟨⟨t, ts ++ e :: after, pos + 1⟩, cbs, false, start + d + 1, stop, tr⟩
            rfl rfl hb2 hl2 hs
            (fun c hc => hq c (by simp [children, ht, hem, hd]; exact hc))
            (by simp; omega)]
          simp [children, ht, hem, hd, Nat.add_assoc, Nat.add_comm 1]
    | EXN_ELEMENT_END =>
      cases d with
      | zero => simp [balanced, ht] at hb
      | succ d =>
        have hb2 : balanced d ts = true := by simpa [balanced, ht] using hb
        have hl2 : start + ((d + 1 : Nat) : Int) - 1 = start + (d : Int) := by
          push_cast; omega
        rw [read_end _ t (ts ++ e :: after) rfl rfl ht (by dsimp only; omega)]
        dsimp only
        simp only [ht]
        rw [node_layer_not_element _ (by simp [ht])]
        dsimp only
        rw [if_neg (by push_cast; omega)]
        rw [ih d f ⟨⟨t, ts ++ e :: after, pos + 1⟩, cbs, false,
            start + ((d + 1 : Nat) : Int) - 1, stop, tr⟩
          rfl rfl hb2 hl2 hs
          (fun c hc => hq c (by simp [children, ht]; exact hc))
          (by simp; omega)]
        simp [children, ht, Nat.add_assoc, Nat.add_comm 1]
    | EXN_OTHER =>
      rw [read_other _ t (ts ++ e :: after) rfl rfl ht]
      dsimp only
      simp only [ht]
      have hb2 : balanced d ts = true := by simpa [balanced, ht] using hb
      rw [ih d f ⟨⟨t, ts ++ e :: after, pos + 1⟩, cbs, false, start + d, stop, tr⟩
        rfl rfl hb2 rfl hs
        (fun c hc => hq c (by simp [children, ht]; exact hc))
        (by simp; omega)]
      simp [children, ht, Nat.add_assoc, Nat.add_comm 1]

/-- Running `close()` on a non-self-closing scope element whose subtree is well formed
and in which no nested callback fires: the final state in full. -/
theorem close_quiet (b : Build) (fuel : Nat) (s : XMLStructure) (body : List Token)
    (e : Token) (after : List Token)
    (hne : s.reader.cur.empty = false)
    (hf : s.last_read_invalid = false)
    (hbound : s.stop_layer ≤ s.current_layer)
    (hr : s.reader.rest = body ++ e :: after)
    (hb : balanced 0 body = true)
    (he : e.type = EXN_ELEMENT_END)
    (hq : ∀ c ∈ children 0 s.reader.pos body, quiet s.each_callbacks c.2)
    (hfuel : body.length + s.each_callbacks.length + 2 ≤ fuel) :
    close b fuel s = .ok
      { s with reader := ⟨e, after, s.reader.pos + body.length + 1⟩,
               current_layer := s.current_layer - 1,
               last_read_invalid := decide (s.current_layer - 1 < s.stop_layer),
               trace := s.trace ++
                 dispatch_spec s.each_callbacks (children 0 s.reader.pos body) } := by
  unfold close do_each_to_close do_each_to_close_body
  simp only [hf, Bool.false_eq_true, if_false, Result.bind, hne]
  rw [node_layer_open s hne]
  exact do_each_loop_quiet b s.current_layer e after he body 0 fuel s hf hr hb (by simp)
    hbound hq hfuel

theorem quiet_of_no_nested (cbs : List EachCallback) (t : Token)
    (h : ∀ c ∈ cbs, c.func2 = none) : quiet cbs t :=
  fun c hc _ => Or.inl (h c hc)

theorem dispatch_spec_single (n : String) (cb : Nat) (cs : List (Nat × Token)) :
    dispatch_spec [⟨n, some cb, none⟩] cs =
      (cs.filter (fun c => c.2.name = n)).map (fun c => Event.immediate cb c.2 c.1) := by
  induction cs with
  | nil => rfl
  | cons c cs ih =>
    by_cases h : n = c.2.name
    · have h2 : c.2.name = n := h.symm
      simp [dispatch_spec, fan_out, List.filter, h2, ih]
    · have h2 : ¬ c.2.name = n := fun x => h x.symm
      simp [dispatch_spec, fan_out, List.filter, h, h2, ih]

/-- Without nested callbacks the loop of `do_each_to_close` returns normally
on every token stream. -/
theorem do_each_loop_returns (b : Build) (start : Int) :
    ∀ (ts : List Token) (fuel : Nat) (s : XMLStructure),
      s.last_read_invalid = false →
      s.reader.rest = ts →
      (∀ c ∈ s.each_callbacks, c.func2 = none) →
      ts.length + s.each_callbacks.length + 1 ≤ fuel →
      ∃ s', do_each_loop b fuel start s = .ok s' := by
  intro ts
  induction ts with
  | nil =>
    intro fuel s hf hr _ hfuel
    obtain ⟨f, rfl⟩ : ∃ f, fuel = f + 1 := ⟨fuel - 1, by omega⟩
    rw [do_each_loop, read_eof s hf hr]
    exact ⟨s, rfl⟩
  | cons t ts ih =>
    intro fuel s hf hr himm hfuel
    obtain ⟨f, rfl⟩ : ∃ f, fuel = f + 1 := ⟨fuel - 1, by omega⟩
    simp only [List.length_cons] at hfuel
    obtain ⟨h1, h2, _, _, h5⟩ := read_cons s t ts hf hr
    rw [do_each_loop]
    rcases hrd : s.read with ⟨r, s1⟩
    rw [hrd] at h1 h2 h5
    dsimp only at h1 h2 h5
    cases r with
    | false => exact ⟨s1, rfl⟩
    | true =>
      have hf1 : s1.last_read_invalid = false := h5 rfl
      have hr1 : s1.reader.rest = ts := by rw [h1]
      have himm1 : ∀ c ∈ s1.each_callbacks, c.func2 = none := by rw [h2]; exact himm
      have hfuel1 : ts.length + s1.each_callbacks.length + 1 ≤ f := by rw [h2]; omega
      dsimp only
      split
      · split
        · have hfe := for_each_quiet b s1.each_callbacks f s1 (by omega)
            (quiet_of_no_nested _ _ himm1)
          rw [hfe]
          simp only [Result.bind]
          exact ih f _ hf1 hr1 himm1 hfuel1
        · exact ih f s1 hf1 hr1 himm1 hfuel1
      · split
        · exact ⟨s1, rfl⟩
        · exact ih f s1 hf1 hr1 himm1 hfuel1
      · exact ih f s1 hf1 hr1 himm1 hfuel1

end dispatch

/-! ## `skip` on a well-formed subtree -/

section skipping
open XMLStructure

/-- In a balanced stretch every open element is closed: the end-events are the
`d` pending ones plus one per non-self-closing start-event. -/
theorem balanced_count : ∀ (ts : List Token) (d : Nat), balanced d ts = true →
    ts.countP Token.closes = d + ts.countP Token.opens := by
  intro ts
  induction ts with
  | nil =>
    intro d h
    have hd : d = 0 := by simpa [balanced] using h
    simp [hd]
  | cons t ts ih =>
    intro d h
    cases ht : t.type with
    | EXN_ELEMENT =>
      cases hem : t.empty with
      | true =>
        have := ih d (by simpa [balanced, ht, hem] using h)
        simp [List.countP_cons, Token.opens, Token.closes, ht, hem, this]
      | false =>
        have := ih (d + 1) (by simpa [balanced, ht, hem] using h)
        simp [List.countP_cons, Token.opens, Token.closes, ht, hem, this]
        omega
    | EXN_ELEMENT_END =>
      cases d with
      | zero => simp [balanced, ht] at h
      | succ d =>
        have := ih d (by simpa [balanced, ht] using h)
        simp [List.countP_cons, Token.opens, Token.closes, ht, this]
        omega
    | EXN_OTHER =>
      have := ih d (by simpa [balanced, ht] using h)
      simp [List.countP_cons, Token.opens, Token.closes, ht, this]

/-- The loop of `skip` with `d` nested elements open (open-count `d + 1`) on a
well-formed remainder: it stops on the end-event that closes the skipped
element. -/
theorem skip_loop_balanced (b : Build) (e : Token) (after : List Token)
    (he : e.type = EXN_ELEMENT_END) :
    ∀ (ts : List Token) (d : Nat) (fuel : Nat) (s : XMLStructure),
      s.last_read_invalid = false →
      s.reader.rest = ts ++ e :: after →
      balanced d ts = true →
      s.stop_layer ≤ s.current_layer - d - 1 →
      ts.length + 1 ≤ fuel →
      skip_loop b fuel (d + 1) s = .ok
        { s with reader := ⟨e, after, s.reader.pos + ts.length + 1⟩,
                 current_layer := s.current_layer - d - 1 } := by
  intro ts
  induction ts with
  | nil =>
    intro d fuel s hf hr hb hs hfuel
    obtain ⟨f, rfl⟩ : ∃ f, fuel = f + 1 := ⟨fuel - 1, by omega⟩
    have hd : d = 0 := by simpa [balanced] using hb
    subst hd
    simp only [List.nil_append] at hr
    rw [skip_loop, read_end s e after hf hr he (by simp at hs; omega)]
    simp [he]
  | cons t ts ih =>
    intro d fuel s hf hr hb hs hfuel
    obtain ⟨f, rfl⟩ : ∃ f, fuel = f + 1 := ⟨fuel - 1, by omega⟩
    obtain ⟨⟨cur, rest, pos⟩, cbs, flag, layer, stop, tr⟩ := s
    dsimp only at hf hr hs hfuel
    subst hf hr
    simp only [List.length_cons] at hfuel
    rw [skip_loop]
    cases ht : t.type with
    | EXN_ELEMENT =>
      cases hem : t.empty with
      | true =>
        rw [read_leaf _ t (ts ++ e :: after) rfl rfl ht hem]
        dsimp only
        simp only [ht, hem, if_true]
        rw [ih d f ⟨⟨t, ts ++ e :: after, pos + 1⟩, cbs, false, layer, stop, tr⟩ rfl rfl
          (by simpa [balanced, ht, hem] using hb) hs (by omega)]
        simp [Nat.add_assoc, Nat.add_comm 1]
      | false =>
        rw [read_open _ t (ts ++ e :: after) rfl rfl ht hem]
        dsimp only
        simp only [ht, hem, Bool.false_eq_true, if_false]
        have := ih (d + 1) f ⟨⟨t, ts ++ e :: after, pos + 1⟩, cbs, false, layer + 1, stop, tr⟩
          rfl rfl (by simpa [balanced, ht, hem] using hb) (by dsimp only; push_cast; omega)
          (by omega)
        push_cast at this
        rw [this]
        simp [Nat.add_assoc, Nat.add_comm 1]
    | EXN_ELEMENT_END =>
      cases d with
      | zero => simp [balanced, ht] at hb
      | succ d =>
        rw [read_end _ t (ts ++ e :: after) rfl rfl ht (by dsimp only; push_cast at hs; omega)]
        dsimp only
        simp only [ht]
        rw [if_neg (by push_cast; omega)]
        have := ih d f ⟨⟨t, ts ++ e :: after, pos + 1⟩, cbs, false, layer - 1, stop, tr⟩
          rfl rfl (by simpa [balanced, ht] using hb) (by dsimp only; push_cast at hs; omega)
          (by omega)
        have hc : ((d + 1 : Nat) : Int) + 1 - 1 = (d : Int) + 1 := by push_cast; omega
        rw [hc, this]
        simp [Nat.add_assoc, Nat.add_comm 1]
        omega
    | EXN_OTHER =>
      rw [read_other _ t (ts ++ e :: after) rfl rfl ht]
      dsimp only
      simp only [ht]
      rw [ih d f ⟨⟨t, ts ++ e :: after, pos + 1⟩, cbs, false, layer, stop, tr⟩ rfl rfl
        (by simpa [balanced, ht] using hb) hs (by omega)]
      simp [Nat.add_assoc, Nat.add_comm 1]

end skipping

/-! ## `node` against its reference search -/

section searching
open XMLStructure

theorem node_post_shift (b : Build) (name : String) (func : Option Nat) (pos : Nat)
    (tr : List Event) (cbs : List EachCallback) (stop : Int) (t : Token) (ts : List Token)
    (r : Search) (res : Result)
    (h : node_post b name func (pos + 1) tr cbs stop ts r res) :
    node_post b name func pos tr cbs stop (t :: ts) r.shift res := by
  cases r <;> cases res <;> simp_all [node_post, Search.shift] <;> omega

/-- Leaving the loop of `node` because `read` reported no token. -/
theorem node_exit (b : Build) (s : XMLStructure) :
    (throw_eof b s).bind (fun s2 => Result.stop Abort.no_return s2) =
      .stop (eof_abort b) s := by
  cases h : b.XML_USE_CPP_EXCEPTION <;> simp [throw_eof, eof_abort, Result.bind, h]

/-- After `skip` gave up (its `throw_eof()` threw, or returned because
exceptions are disabled) `node` ends at the same point. -/
theorem skip_exit (b : Build) (name : String) (func : Option Nat) (fuel : Nat)
    (s : XMLStructure) (hread : s.read = (false, s)) :
    (throw_eof b s).bind (node_loop b name func (fuel + 1)) = .stop (eof_abort b) s := by
  cases h : b.XML_USE_CPP_EXCEPTION
  · simp only [throw_eof, h, Bool.false_eq_true, if_false, Result.bind]
    rw [node_loop, hread]
    exact node_exit b s
  · simp [throw_eof, eof_abort, Result.bind, h]

/-- The loop of `node`, alone and after the loop of `skip` with open-count `c`,
ends as the reference search says, on every token stream and in every
build. -/
theorem node_loop_search (b : Build) (name : String) (func : Option Nat) :
    ∀ (ts : List Token) (s : XMLStructure),
      s.last_read_invalid = false → s.reader.rest = ts →
      (∀ fuel, ts.length + 2 ≤ fuel →
        node_post b name func s.reader.pos s.trace s.each_callbacks s.stop_layer ts
          (search name s.stop_layer 0 s.current_layer ts) (node_loop b name func fuel s)) ∧
      (∀ (c : Nat) (fuel fuel' : Nat), 1 ≤ c → ts.length + 1 ≤ fuel → ts.length + 1 ≤ fuel' →
        node_post b name func s.reader.pos s.trace s.each_callbacks s.stop_layer ts
          (search name s.stop_layer c s.current_layer ts)
          ((skip_loop b fuel (c : Int) s).bind (node_loop b name func fuel'))) := by
  intro ts
  induction ts with
  | nil =>
    intro s hf hr
    constructor
    · intro fuel hfuel
      obtain ⟨f, rfl⟩ : ∃ f, fuel = f + 1 := ⟨fuel - 1, by omega⟩
      rw [node_loop, read_eof s hf hr]
      dsimp only
      rw [node_exit]
      simp [search, node_post, hr]
    · intro c fuel fuel' _ hfuel hfuel'
      obtain ⟨f, rfl⟩ : ∃ f, fuel = f + 1 := ⟨fuel - 1, by omega⟩
      obtain ⟨f', rfl⟩ : ∃ f, fuel' = f + 1 := ⟨fuel' - 1, by omega⟩
      rw [skip_loop, read_eof s hf hr]
      dsimp only
      rw [skip_exit b name func f' s (read_eof s hf hr)]
      simp [search, node_post, hr]
  | cons t ts ih =>
    intro s hf hr
    obtain ⟨⟨cur, rest, pos⟩, cbs, flag, layer, stop, tr⟩ := s
    dsimp only at hf hr
    subst hf hr
    dsimp only
    constructor
    · intro fuel hfuel
      obtain ⟨f, rfl⟩ : ∃ f, fuel = f + 1 := ⟨fuel - 1, by omega⟩
      simp only [List.length_cons] at hfuel
      rw [node_loop]
      cases ht : t.type with
      | EXN_ELEMENT =>
        by_cases hn : name = t.name
        · have hs : search name stop 0 layer (t :: ts) = .found 0 := by
            simp [search, ht, hn]
          rw [hs]
          cases hem : t.empty with
          | true =>
            rw [read_leaf _ t ts rfl rfl ht hem]
            cases func <;>
              simp [ht, node_name_is, hn, node_post, call_node_processor]
          | false =>
            rw [read_open _ t ts rfl rfl ht hem]
            cases func <;>
              simp [ht, node_name_is, hn, node_post, call_node_processor]
        · cases hem : t.empty with
          | true =>
            have hs : search name stop 0 layer (t :: ts) =
                (search name stop 0 layer ts).shift := by
              simp [search, ht, hn, hem]
            rw [hs, read_leaf _ t ts rfl rfl ht hem]
            simp only [ht, node_name_is, beq_iff_eq, hn, if_true, if_false, skip, hem,
              Result.bind]
            exact node_post_shift _ _ _ _ _ _ _ _ _ _ _
              ((ih ⟨⟨t, ts, pos + 1⟩, cbs, false, layer, stop, tr⟩ rfl rfl).1 f (by omega))
          | false =>
            have hs : search name stop 0 layer (t :: ts) =
                (search name stop 1 (layer + 1) ts).shift := by
              simp [search, ht, hn, hem]
            rw [hs, read_open _ t ts rfl rfl ht hem]
            simp only [ht, node_name_is, beq_iff_eq, hn, if_true, if_false, skip, hem,
              Bool.false_eq_true]
            exact node_post_shift _ _ _ _ _ _ _ _ _ _ _
              ((ih ⟨⟨t, ts, pos + 1⟩, cbs, false, layer + 1, stop, tr⟩ rfl rfl).2 1 f f
                (by omega) (by omega) (by omega))
      | EXN_ELEMENT_END =>
        by_cases hp : layer - 1 < stop
        · have hs : search name stop 0 layer (t :: ts) = .exhausted 1 := by
            simp [search, ht, hp]
          rw [hs, read_end_pushback _ t ts rfl rfl ht hp]
          dsimp only
          rw [node_exit]
          simp [node_post]
        · have hs : search name stop 0 layer (t :: ts) =
              (search name stop 0 (layer - 1) ts).shift := by
            simp [search, ht, hp]
          rw [hs, read_end _ t ts rfl rfl ht (by dsimp only; omega)]
          simp only [ht, if_false, reduceCtorEq]
          exact node_post_shift _ _ _ _ _ _ _ _ _ _ _
            ((ih ⟨⟨t, ts, pos + 1⟩, cbs, false, layer - 1, stop, tr⟩ rfl rfl).1 f (by omega))
      | EXN_OTHER =>
        have hs : search name stop 0 layer (t :: ts) =
            (search name stop 0 layer ts).shift := by
          simp [search, ht]
        rw [hs, read_other _ t ts rfl rfl ht]
        simp only [ht, if_false, reduceCtorEq]
        exact node_post_shift _ _ _ _ _ _ _ _ _ _ _
          ((ih ⟨⟨t, ts, pos + 1⟩, cbs, false, layer, stop, tr⟩ rfl rfl).1 f (by omega))
    · intro c fuel fuel' hc hfuel hfuel'
      obtain ⟨f, rfl⟩ : ∃ f, fuel = f + 1 := ⟨fuel - 1, by omega⟩
      simp only [List.length_cons] at hfuel hfuel'
      have hc0 : ¬ c = 0 := by omega
      rw [skip_loop]
      cases ht : t.type with
      | EXN_ELEMENT =>
        cases hem : t.empty with
        | true =>
          have hs : search name stop c layer (t :: ts) =
              (search name stop c layer ts).shift := by
            simp [search, ht, hc0, hem]
          rw [hs, read_leaf _ t ts rfl rfl ht hem]
          simp only [ht, hem, if_true]
          exact node_post_shift _ _ _ _ _ _ _ _ _ _ _
            ((ih ⟨⟨t, ts, pos + 1⟩, cbs, false, layer, stop, tr⟩ rfl rfl).2 c f fuel'
              hc (by omega) (by omega))
        | false =>
          have hs : search name stop c layer (t :: ts) =
              (search name stop (c + 1) (layer + 1) ts).shift := by
            simp [search, ht, hc0, hem]
          rw [hs, read_open _ t ts rfl rfl ht hem]
          simp only [ht, hem, if_false, Bool.false_eq_true]
          have := (ih ⟨⟨t, ts, pos + 1⟩, cbs, false, layer + 1, stop, tr⟩ rfl rfl).2 (c + 1) f
            fuel' (by omega) (by omega) (by omega)
          push_cast at this
          exact node_post_shift _ _ _ _ _ _ _ _ _ _ _ this
      | EXN_ELEMENT_END =>
        by_cases hp : layer - 1 < stop
        · have hs : search name stop c layer (t :: ts) = .exhausted 1 := by
            simp [search, ht, hp]
          obtain ⟨f', rfl⟩ : ∃ f, fuel' = f + 1 := ⟨fuel' - 1, by omega⟩
          rw [hs, read_end_pushback _ t ts rfl rfl ht hp]
          dsimp only
          rw [skip_exit b name func f' _ (by
            have : ¬ (stop ≤ layer - 1) := by omega
            simp [XMLStructure.read, this])]
          simp [node_post]
        · have hs : search name stop c layer (t :: ts) =
              (search name stop (c - 1) (layer - 1) ts).shift := by
            simp [search, ht, hp]
          rw [hs, read_end _ t ts rfl rfl ht (by dsimp only; omega)]
          simp only [ht]
          by_cases hc1 : c = 1
          · subst hc1
            simp only [Nat.cast_one, sub_self, if_true, Result.bind]
            exact node_post_shift _ _ _ _ _ _ _ _ _ _ _
              ((ih ⟨⟨t, ts, pos + 1⟩, cbs, false, layer - 1, stop, tr⟩ rfl rfl).1 fuel'
                (by omega))
          · rw [if_neg (by omega)]
            have := (ih ⟨⟨t, ts, pos + 1⟩, cbs, false, layer - 1, stop, tr⟩ rfl rfl).2 (c - 1) f
              fuel' (by omega) (by omega) (by omega)
            rw [Nat.cast_sub hc, Nat.cast_one] at this
            exact node_post_shift _ _ _ _ _ _ _ _ _ _ _ this
      | EXN_OTHER =>
        have hs : search name stop c layer (t :: ts) =
            (search name stop c layer ts).shift := by
          simp [search, ht]
        rw [hs, read_other _ t ts rfl rfl ht]
        simp only [ht]
        exact node_post_shift _ _ _ _ _ _ _ _ _ _ _
          ((ih ⟨⟨t, ts, pos + 1⟩, cbs, false, layer, stop, tr⟩ rfl rfl).2 c f fuel'
            hc (by omega) (by omega))

/-- A sequence that ends within the fuel has a first part that does. -/
theorem bind_ne_out_of_fuel (r : Result) (k : XMLStructure → Result)
    (h : r.bind k ≠ .out_of_fuel) : r ≠ .out_of_fuel := by
  intro hr; rw [hr] at h; exact h rfl

/-- More fuel does not change a result of the loop of `skip` that was reached
within the fuel. -/
theorem skip_loop_mono (b : Build) : ∀ (fuel : Nat) (c : Int) (s : XMLStructure),
    skip_loop b fuel c s ≠ .out_of_fuel →
    skip_loop b (fuel + 1) c s = skip_loop b fuel c s := by
  intro fuel
  induction fuel with
  | zero => intro c s h; exact absurd rfl h
  | succ f ih =>
    intro c s h
    rw [skip_loop] at h
    rw [skip_loop]
    conv_rhs => rw [skip_loop]
    rcases hrd : s.read with ⟨r, s1⟩
    rw [hrd] at h
    cases r with
    | false => rfl
    | true =>
      dsimp only at h ⊢
      cases ht : s1.reader.cur.type <;> simp only [ht] at h ⊢
      · split
        · rw [if_pos (by assumption)] at h; exact ih _ _ h
        · rw [if_neg (by assumption)] at h; exact ih _ _ h
      · split
        · rfl
        · rw [if_neg (by assumption)] at h; exact ih _ _ h
      · exact ih _ _ h

theorem skip_mono (b : Build) (fuel : Nat) (s : XMLStructure)
    (h : skip b fuel s ≠ .out_of_fuel) : skip b (fuel + 1) s = skip b fuel s := by
  unfold skip at h ⊢
  split
  · rfl
  · rw [if_neg (by assumption)] at h; exact skip_loop_mono b fuel 1 s h

/-- More fuel does not change a result of the loop of `node` that was reached
within the fuel. -/
theorem node_loop_mono (b : Build) (name : String) (func : Option Nat) :
    ∀ (fuel : Nat) (s : XMLStructure),
    node_loop b name func fuel s ≠ .out_of_fuel →
    node_loop b name func (fuel + 1) s = node_loop b name func fuel s := by
  intro fuel
  induction fuel with
  | zero => intro s h; exact absurd rfl h
  | succ f ih =>
    intro s h
    rw [node_loop] at h
    rw [node_loop]
    conv_rhs => rw [node_loop]
    rcases hrd : s.read with ⟨r, s1⟩
    rw [hrd] at h
    cases r with
    | false => rfl
    | true =>
      dsimp only at h ⊢
      split
      · rw [if_pos (by assumption)] at h
        split
        · rfl
        · rw [if_neg (by assumption)] at h
          have h1 := bind_ne_out_of_fuel _ _ h
          rw [skip_mono b f s1 h1]
          cases hsk : skip b f s1 with
          | ok s2 =>
            rw [hsk] at h
            simp only [Result.bind] at h ⊢
            exact ih s2 h
          | stop w s2 => rfl
          | out_of_fuel => exact absurd hsk h1
      · rw [if_neg (by assumption)] at h; exact ih _ h

theorem node_loop_mono_add (b : Build) (name : String) (func : Option Nat)
    (fuel : Nat) (s : XMLStructure) (h : node_loop b name func fuel s ≠ .out_of_fuel) :
    ∀ k, node_loop b name func (fuel + k) s = node_loop b name func fuel s := by
  intro k
  induction k with
  | zero => rfl
  | succ k ih =>
    rw [← Nat.add_assoc, node_loop_mono b name func (fuel + k) s (by rw [ih]; exact h), ih]

/-- The two overloads of `node` run the shared loop once the assertion on the
registry has passed. -/
theorem node_eq_loop (b : Build) (fuel : Nat) (name : String) (func : Option Nat)
    (s : XMLStructure) (h : b.NDEBUG = true ∨ s.each_callbacks = []) :
    (match func with
      | none => node b fuel name s
      | some f => node_func b fuel name f s) = node_loop b name func fuel s := by
  have ha : assert_no_callbacks b s = .ok s := by
    rcases h with h | h <;> simp [assert_no_callbacks, h]
  cases func <;> simp [node, node_func, ha, Result.bind]

/-- The loop of `node` entered in any state in which a pending pushback is not
on a start-event: it ends as `node_post` says for the reference search, or
with end-of-input when the pushback cannot be released. -/
theorem node_loop_any (b : Build) (name : String) (func : Option Nat) (fuel : Nat)
    (s : XMLStructure)
    (hinv : s.last_read_invalid = true → s.reader.cur.type ≠ EXN_ELEMENT)
    (hfuel : s.reader.rest.length + 3 ≤ fuel) :
    node_post b name func s.reader.pos s.trace s.each_callbacks s.stop_layer s.reader.rest
        (search name s.stop_layer 0 s.current_layer s.reader.rest)
        (node_loop b name func fuel s) ∨
      (s.last_read_invalid = true ∧ node_loop b name func fuel s = .stop (eof_abort b) s) := by
  cases hf : s.last_read_invalid with
  | false => exact Or.inl ((node_loop_search b name func _ s hf rfl).1 fuel (by omega))
  | true =>
    obtain ⟨f, rfl⟩ : ∃ f, fuel = f + 1 := ⟨fuel - 1, by omega⟩
    obtain ⟨⟨cur, rest, pos⟩, cbs, flag, layer, stop, tr⟩ := s
    dsimp only at hf hinv hfuel ⊢
    subst hf
    by_cases hl : stop ≤ layer
    · left
      have hrd : XMLStructure.read ⟨⟨cur, rest, pos⟩, cbs, true, layer, stop, tr⟩ =
          (true, ⟨⟨cur, rest, pos⟩, cbs, false, layer, stop, tr⟩) := by
        simp [XMLStructure.read, hl]
      rw [node_loop, hrd]
      simp only [hinv rfl, if_false]
      exact (node_loop_search b name func _ ⟨⟨cur, rest, pos⟩, cbs, false, layer, stop, tr⟩
        rfl rfl).1 f (by dsimp only; omega)
    · right
      have hrd : XMLStructure.read ⟨⟨cur, rest, pos⟩, cbs, true, layer, stop, tr⟩ =
          (false, ⟨⟨cur, rest, pos⟩, cbs, true, layer, stop, tr⟩) := by
        simp [XMLStructure.read, hl]
      refine ⟨rfl, ?_⟩
      rw [node_loop, hrd]
      exact node_exit b _

/-- In a well-formed remainder that closes the `d` open elements without
reaching the Scope Bound and holds no element named `name`, the reference
search consumes everything. -/
theorem search_exhausts_document (name : String) (stop : Int) :
    ∀ (ts : List Token) (c d : Nat) (layer : Int),
      balanced d ts = true → stop ≤ layer - d →
      (∀ t ∈ ts, ¬ (t.type = EXN_ELEMENT ∧ t.name = name)) →
      search name stop c layer ts = .exhausted ts.length := by
  intro ts
  induction ts with
  | nil => intro c d layer _ _ _; rfl
  | cons t ts ih =>
    intro c d layer hb hl hno
    have hno' : ∀ x ∈ ts, ¬ (x.type = EXN_ELEMENT ∧ x.name = name) :=
      fun x hx => hno x (List.mem_cons_of_mem _ hx)
    cases ht : t.type with
    | EXN_ELEMENT =>
      have hn : ¬ name = t.name := fun h => hno t (List.mem_cons_self _ _) ⟨ht, h.symm⟩
      cases hem : t.empty with
      | true =>
        simp [search, ht, hn, hem, Search.shift,
          ih c d layer (by simpa [balanced, ht, hem] using hb) hl hno']
      | false =>
        simp [search, ht, hn, hem, Search.shift,
          ih (c + 1) (d + 1) (layer + 1) (by simpa [balanced, ht, hem] using hb)
            (by push_cast; omega) hno']
    | EXN_ELEMENT_END =>
      cases d with
      | zero => simp [balanced, ht] at hb
      | succ d =>
        have hp : ¬ (layer - 1 < stop) := by push_cast at hl; omega
        simp [search, ht, hp, Search.shift,
          ih (c - 1) d (layer - 1) (by simpa [balanced, ht] using hb)
            (by push_cast at hl; omega) hno']
    | EXN_OTHER =>
      simp [search, ht, Search.shift,
        ih c d layer (by simpa [balanced, ht] using hb) hl hno']

/-- In a scope whose Scope Bound is the scope element's depth, with a
well-formed body holding no element named `name`, the reference search
stops on the scope's end-event. -/
theorem search_exhausts_scope (name : String) (stop : Int) (e : Token) (after : List Token)
    (he : e.type = EXN_ELEMENT_END) :
    ∀ (ts : List Token) (c d : Nat) (layer : Int),
      balanced d ts = true → layer = stop + d →
      (∀ t ∈ ts, ¬ (t.type = EXN_ELEMENT ∧ t.name = name)) →
      search name stop c layer (ts ++ e :: after) = .exhausted (ts.length + 1) := by
  intro ts
  induction ts with
  | nil =>
    intro c d layer hb hl _
    have hd : d = 0 := by simpa [balanced] using hb
    subst hd
    have hp : layer - 1 < stop := by simp at hl; omega
    simp [search, he, hp]
  | cons t ts ih =>
    intro c d layer hb hl hno
    have hno' : ∀ x ∈ ts, ¬ (x.type = EXN_ELEMENT ∧ x.name = name) :=
      fun x hx => hno x (List.mem_cons_of_mem _ hx)
    cases ht : t.type with
    | EXN_ELEMENT =>
      have hn : ¬ name = t.name := fun h => hno t (List.mem_cons_self _ _) ⟨ht, h.symm⟩
      cases hem : t.empty with
      | true =>
        simp [search, ht, hn, hem, Search.shift,
          ih c d layer (by simpa [balanced, ht, hem] using hb) hl hno']
      | false =>
        simp [search, ht, hn, hem, Search.shift,
          ih (c + 1) (d + 1) (layer + 1) (by simpa [balanced, ht, hem] using hb)
            (by push_cast; omega) hno']
    | EXN_ELEMENT_END =>
      cases d with
      | zero => simp [balanced, ht] at hb
      | succ d =>
        have hp : ¬ (layer - 1 < stop) := by push_cast at hl; omega
        simp [search, ht, hp, Search.shift,
          ih (c - 1) d (layer - 1) (by simpa [balanced, ht] using hb)
            (by push_cast at hl; omega) hno']
    | EXN_OTHER =>
      simp [search, ht, Search.shift,
        ih c d layer (by simpa [balanced, ht] using hb) hl hno']

end searching

/-! ## Confinement of nested callbacks -/

section confinement_proofs
open XMLStructure

/-- With an element open, a balanced stretch splits at the end-event that
closes it. -/
theorem balanced_split : ∀ (ts : List Token) (k d : Nat), balanced (d + 1 + k) ts = true →
    ∃ ts1 e1 ts2, ts = ts1 ++ e1 :: ts2 ∧ balanced k ts1 = true ∧
      e1.type = EXN_ELEMENT_END ∧ balanced d ts2 = true := by
  intro ts
  induction ts with
  | nil => intro k d h; simp [balanced] at h
  | cons t ts ih =>
    intro k d h
    cases ht : t.type with
    | EXN_ELEMENT =>
      cases hem : t.empty with
      | true =>
        obtain ⟨ts1, e1, ts2, h1, h2, h3, h4⟩ := ih k d (by simpa [balanced, ht, hem] using h)
        exact ⟨t :: ts1, e1, ts2, by simp [h1], by simpa [balanced, ht, hem] using h2, h3, h4⟩
      | false =>
        obtain ⟨ts1, e1, ts2, h1, h2, h3, h4⟩ := ih (k + 1) d
          (by simpa [balanced, ht, hem, Nat.add_assoc] using h)
        exact ⟨t :: ts1, e1, ts2, by simp [h1], by simpa [balanced, ht, hem] using h2, h3, h4⟩
    | EXN_ELEMENT_END =>
      cases k with
      | zero =>
        exact ⟨[], t, ts, rfl, rfl, ht, by simpa [balanced, ht] using h⟩
      | succ k =>
        obtain ⟨ts1, e1, ts2, h1, h2, h3, h4⟩ := ih k d
          (by simpa [balanced, ht, ← Nat.add_assoc] using h)
        exact ⟨t :: ts1, e1, ts2, by simp [h1], by simpa [balanced, ht] using h2, h3, h4⟩
    | EXN_OTHER =>
      obtain ⟨ts1, e1, ts2, h1, h2, h3, h4⟩ := ih k d (by simpa [balanced, ht] using h)
      exact ⟨t :: ts1, e1, ts2, by simp [h1], by simpa [balanced, ht] using h2, h3, h4⟩

/-- Balanced stretches concatenate. -/
theorem balanced_append : ∀ (xs : List Token) (a b : Nat) (ys : List Token),
    balanced a xs = true → balanced b ys = true → balanced (a + b) (xs ++ ys) = true := by
  intro xs
  induction xs with
  | nil =>
    intro a b ys h1 h2
    have : a = 0 := by simpa [balanced] using h1
    simpa [this] using h2
  | cons t ts ih =>
    intro a b ys h1 h2
    cases ht : t.type with
    | EXN_ELEMENT =>
      cases hem : t.empty with
      | true =>
        have := ih a b ys (by simpa [balanced, ht, hem] using h1) h2
        simpa [balanced, ht, hem] using this
      | false =>
        have := ih (a + 1) b ys (by simpa [balanced, ht, hem] using h1) h2
        simpa [balanced, ht, hem, Nat.add_right_comm] using this
    | EXN_ELEMENT_END =>
      cases a with
      | zero => simp [balanced, ht] at h1
      | succ a =>
        have := ih a b ys (by simpa [balanced, ht] using h1) h2
        simpa [balanced, ht, Nat.add_right_comm] using this
    | EXN_OTHER =>
      have := ih a b ys (by simpa [balanced, ht] using h1) h2
      simpa [balanced, ht] using this

theorem bind_eq_ok (r : Result) (k : XMLStructure → Result) (s' : XMLStructure)
    (h : r.bind k = .ok s') : ∃ s2, r = .ok s2 ∧ k s2 = .ok s' := by
  cases r with
  | ok s2 => exact ⟨s2, rfl, h⟩
  | stop w s2 => simp [Result.bind] at h
  | out_of_fuel => simp [Result.bind] at h

theorem throw_eof_eq_ok (b : Build) (s s' : XMLStructure) (h : throw_eof b s = .ok s') :
    s' = s := by
  unfold throw_eof at h
  split at h
  · cases h
  · cases h; rfl

/-- One step never leaves the frame: `read` stays inside it or stops on its
end-event, and reports a token only inside. -/
theorem read_framed (B : Int) (e : Token) (after : List Token) (he : e.type = EXN_ELEMENT_END)
    (s : XMLStructure) (h : Framed B e after s) :
    Framed B e after (s.read).2 ∧ ((s.read).1 = true → Inside B e after (s.read).2) := by
  obtain ⟨hio, htame⟩ := h
  rcases hio with ⟨hs, hf, ts, d, hr, hb, hl⟩ | ⟨hs, hf, hc, hr, hl⟩
  · cases ts with
    | nil =>
      have hd : d = 0 := by simpa [balanced] using hb
      subst hd
      simp only [List.nil_append] at hr
      rw [read_end_pushback s e after hf hr he (by simp at hl; omega)]
      refine ⟨⟨Or.inr ⟨hs, rfl, rfl, rfl, by simp at hl; simp [hl]⟩, htame⟩, by simp⟩
    | cons t ts =>
      simp only [List.cons_append] at hr
      cases ht : t.type with
      | EXN_ELEMENT =>
        cases hem : t.empty with
        | true =>
          rw [read_leaf s t _ hf hr ht hem]
          refine ⟨⟨Or.inl ?_, htame⟩, fun _ => ?_⟩ <;>
            exact ⟨hs, hf, ts, d, rfl, by simpa [balanced, ht, hem] using hb, hl⟩
        | false =>
          rw [read_open s t _ hf hr ht hem]
          refine ⟨⟨Or.inl ?_, htame⟩, fun _ => ?_⟩ <;>
            exact ⟨hs, hf, ts, d + 1, rfl, by simpa [balanced, ht, hem] using hb,
              by simp [hl]; omega⟩
      | EXN_ELEMENT_END =>
        cases d with
        | zero => simp [balanced, ht] at hb
        | succ d =>
          rw [read_end s t _ hf hr ht (by rw [hs, hl]; push_cast; omega)]
          refine ⟨⟨Or.inl ?_, htame⟩, fun _ => ?_⟩ <;>
            exact ⟨hs, hf, ts, d, rfl, by simpa [balanced, ht] using hb,
              by simp [hl]; omega⟩
      | EXN_OTHER =>
        rw [read_other s t _ hf hr ht]
        refine ⟨⟨Or.inl ?_, htame⟩, fun _ => ?_⟩ <;>
          exact ⟨hs, hf, ts, d, rfl, by simpa [balanced, ht] using hb, hl⟩
  · have hrd : s.read = (false, s) := by
      have : ¬ (s.stop_layer ≤ s.current_layer) := by omega
      simp [XMLStructure.read, hf, this]
    rw [hrd]
    exact ⟨⟨Or.inr ⟨hs, hf, hc, hr, hl⟩, htame⟩, by simp⟩

theorem framed_trace (B : Int) (e : Token) (after : List Token) (s : XMLStructure)
    (tr : List Event) (h : Framed B e after s) : Framed B e after { s with trace := tr } := h

theorem skip_loop_framed (b : Build) (B : Int) (e : Token) (after : List Token)
    (he : e.type = EXN_ELEMENT_END) :
    ∀ (fuel : Nat) (c : Int) (s s' : XMLStructure), Framed B e after s →
      skip_loop b fuel c s = .ok s' → Framed B e after s' := by
  intro fuel
  induction fuel with
  | zero => intro c s s' _ h; simp [skip_loop] at h
  | succ f ih =>
    intro c s s' hfr h
    rw [skip_loop] at h
    have hr := (read_framed B e after he s hfr).1
    rcases hrd : s.read with ⟨r, s1⟩
    rw [hrd] at h hr
    cases r with
    | false =>
      have := throw_eof_eq_ok b s1 s' h
      subst this
      exact hr
    | true =>
      dsimp only at h hr
      split at h
      · split at h
        · exact ih _ _ _ hr h
        · exact ih _ _ _ hr h
      · split at h
        · cases h; exact hr
        · exact ih _ _ _ hr h
      · exact ih _ _ _ hr h

theorem skip_framed (b : Build) (B : Int) (e : Token) (after : List Token)
    (he : e.type = EXN_ELEMENT_END) (fuel : Nat) (s s' : XMLStructure)
    (hfr : Framed B e after s) (h : skip b fuel s = .ok s') : Framed B e after s' := by
  unfold skip at h
  split at h
  · cases h; exact hfr
  · exact skip_loop_framed b B e after he fuel 1 s s' hfr h

/-- When `node` returns inside a frame, the element found is inside the frame. -/
theorem node_loop_framed (b : Build) (name : String) (func : Option Nat) (B : Int) (e : Token)
    (after : List Token) (he : e.type = EXN_ELEMENT_END) :
    ∀ (fuel : Nat) (s s' : XMLStructure), Framed B e after s →
      node_loop b name func fuel s = .ok s' → Inside B e after s' ∧ tame s'.each_callbacks := by
  intro fuel
  induction fuel with
  | zero => intro s s' _ h; simp [node_loop] at h
  | succ f ih =>
    intro s s' hfr h
    rw [node_loop] at h
    have hr := read_framed B e after he s hfr
    rcases hrd : s.read with ⟨r, s1⟩
    rw [hrd] at h hr
    cases r with
    | false =>
      dsimp only at h
      rw [node_exit] at h
      cases h
    | true =>
      dsimp only at h hr
      split at h
      · split at h
        · cases func with
          | none => cases h; exact ⟨hr.2 rfl, hr.1.2⟩
          | some g => cases h; exact ⟨hr.2 rfl, hr.1.2⟩
        · obtain ⟨s2, h1, h2⟩ := bind_eq_ok _ _ _ h
          exact ih s2 s' (skip_framed b B e after he f s1 s2 hr.1 h1) h2
      · exact ih s1 s' hr.1 h

theorem nested_names_cons_some (e : EachCallback) (es : List EachCallback)
    (g : StructureProcessor) (h : e.func2 = some g) :
    nested_names (e :: es) = e.name :: nested_names es := by
  simp [nested_names, List.filter, h]

theorem nested_names_cons_none (e : EachCallback) (es : List EachCallback)
    (h : e.func2 = none) : nested_names (e :: es) = nested_names es := by
  simp [nested_names, List.filter, h]

theorem nested_names_tail_nodup (e : EachCallback) (es : List EachCallback)
    (h : (nested_names (e :: es)).Nodup) : (nested_names es).Nodup := by
  cases hf : e.func2 with
  | none => rwa [nested_names_cons_none e es hf] at h
  | some g =>
    rw [nested_names_cons_some e es g hf] at h
    exact (List.nodup_cons.mp h).2

theorem mem_nested_names (es : List EachCallback) (e : EachCallback) (g : StructureProcessor)
    (he : e ∈ es) (hg : e.func2 = some g) : e.name ∈ nested_names es := by
  simp only [nested_names, List.mem_map, List.mem_filter]
  exact ⟨e, ⟨he, by simp [hg]⟩, rfl⟩

theorem no_other_nested (e : EachCallback) (es : List EachCallback) (g : StructureProcessor)
    (hg : e.func2 = some g) (h : (nested_names (e :: es)).Nodup) :
    ∀ x ∈ es, x.name = e.name → x.func2 = none := by
  intro x hx hn
  rw [nested_names_cons_some e es g hg] at h
  have hnot := (List.nodup_cons.mp h).1
  cases hx2 : x.func2 with
  | none => rfl
  | some g2 => exact absurd (hn ▸ mem_nested_names es x g2 hx hx2) hnot

theorem tame_append_immediate (cbs : List EachCallback) (n : String) (f1 : NodeProcessor)
    (h : tame cbs) : tame (cbs ++ [⟨n, f1, none⟩]) := by
  constructor
  · have : nested_names (cbs ++ [⟨n, f1, none⟩]) = nested_names cbs := by
      simp [nested_names, List.filter_append, List.filter]
    rw [this]; exact h.1
  · intro e he g hg
    rcases List.mem_append.mp he with h1 | h1
    · exact h.2 e h1 g hg
    · simp at h1; subst h1; simp at hg

/-- What a normal return of the lambda of `do_each_to_close` means: the
navigator is as before up to the invocation record, or one nested callback
ran under the bound `get_current_node_layer` and the bound was put back. -/
theorem each_lambda_eq_ok (run : List Call → XMLStructure → Result) (e : EachCallback)
    (name : String) (s s2 : XMLStructure) (h : each_lambda run e name s = .ok s2) :
    (∃ tr, s2 = { s with trace := tr }) ∨
    (e.name = name ∧ s.reader.cur.empty = false ∧ ∃ g tr1 s4 tr2, e.func2 = some g ∧
      run g.body { s with stop_layer := s.get_current_node_layer, trace := tr1 } = .ok s4 ∧
      s2 = { s4 with stop_layer := s.stop_layer, trace := tr2 }) := by
  unfold each_lambda at h
  split at h
  · rename_i hn
    cases hf1 : e.func1 with
    | none =>
      cases hf2 : e.func2 with
      | none => simp [hf1, hf2] at h; exact Or.inl ⟨s.trace, by rw [← h]⟩
      | some g =>
        simp only [hf1, hf2] at h
        split at h
        · rename_i hem
          obtain ⟨s4, h1, h2⟩ := bind_eq_ok _ _ _ h
          have h3 := (Result.ok.inj h2).symm
          exact Or.inr ⟨hn, hem, g, _, s4, _, rfl, h1, h3⟩
        · simp at h; exact Or.inl ⟨s.trace, by rw [← h]⟩
    | some f =>
      cases hf2 : e.func2 with
      | none =>
        simp [hf1, hf2] at h
        exact Or.inl ⟨_, by rw [← h]; rfl⟩
      | some g =>
        simp only [hf1, hf2] at h
        split at h
        · rename_i hem
          obtain ⟨s4, h1, h2⟩ := bind_eq_ok _ _ _ h
          have h3 := (Result.ok.inj h2).symm
          exact Or.inr ⟨hn, hem, g, _, s4, _, rfl, h1, h3⟩
        · simp at h; exact Or.inl ⟨_, by rw [← h]; rfl⟩
  · simp at h; exact Or.inl ⟨s.trace, by rw [← h]⟩

theorem loop_step (b : Build) (n : Nat) (hL : LoopOK b n) (hF : ForEachOK b n) :
    LoopOK b (n + 1) := by
  intro start stop e1 rest1 s s' he1 hstop hinv h
  obtain ⟨hs, hj, ⟨ts, k, hr, hb, hl⟩, htame⟩ := hinv
  rw [do_each_loop] at h
  obtain ⟨⟨cur, rest, pos⟩, cbs, flag, layer, stp, tr⟩ := s
  dsimp only at hs hj hr hl htame
  subst hs hr hl
  cases flag with
  | true =>
    have hrd : XMLStructure.read ⟨⟨cur, ts ++ e1 :: rest1, pos⟩, cbs, true, start + k, stp, tr⟩ =
        (true, ⟨⟨cur, ts ++ e1 :: rest1, pos⟩, cbs, false, start + k, stp, tr⟩) := by
      have : stp ≤ start + (k : Int) := by omega
      simp [XMLStructure.read, this]
    rw [hrd] at h
    dsimp only at h
    simp only [hj rfl] at h
    rw [node_layer_not_element _ (by simp [hj rfl])] at h
    dsimp only at h
    rw [if_neg (by omega)] at h
    exact hL start stp e1 rest1 _ s' he1 hstop
      ⟨rfl, by simp, ⟨ts, k, rfl, hb, rfl⟩, htame⟩ h
  | false =>
    cases ts with
    | nil =>
      have hk : k = 0 := by simpa [balanced] using hb
      subst hk
      simp only [List.nil_append] at h
      by_cases hp : start + ((0 : Nat) : Int) - 1 < stp
      · rw [read_end_pushback _ e1 rest1 rfl rfl he1 hp] at h
        cases h
        refine ⟨rfl, rfl, by simp, ?_, rfl, htame⟩
        have : start - 1 < stp := by simpa using hp
        simp [this]
      · rw [read_end _ e1 rest1 rfl rfl he1 (by dsimp only; omega)] at h
        dsimp only at h
        simp only [he1] at h
        rw [node_layer_not_element _ (by simp [he1])] at h
        dsimp only at h
        rw [if_pos (by simp)] at h
        cases h
        refine ⟨rfl, rfl, by simp, ?_, rfl, htame⟩
        have : ¬ (start - 1 < stp) := by simpa using hp
        simp [this]
    | cons t ts =>
      simp only [List.cons_append] at h
      cases ht : t.type with
      | EXN_ELEMENT =>
        cases hem : t.empty with
        | true =>
          rw [read_leaf _ t (ts ++ e1 :: rest1) rfl rfl ht hem] at h
          dsimp only at h
          simp only [ht] at h
          rw [node_layer_leaf _ ht hem] at h
          dsimp only at h
          have hb2 : balanced k ts = true := by simpa [balanced, ht, hem] using hb
          have hinv1 : LoopInv start stp e1 rest1
              ⟨⟨t, ts ++ e1 :: rest1, pos + 1⟩, cbs, false, start + k, stp, tr⟩ :=
            ⟨rfl, by simp, ⟨ts, k, rfl, hb2, rfl⟩, htame⟩
          by_cases hk : k = 0
          · subst hk
            rw [if_pos (by simp)] at h
            obtain ⟨s2, h1, h2⟩ := bind_eq_ok _ _ _ h
            have hinv2 := hF cbs t.name start stp e1 rest1 _ s2 he1 hstop hinv1 htame.1 htame.2
              (Or.inl ⟨rfl, by simp [hem]⟩) h1
            exact hL start stp e1 rest1 s2 s' he1 hstop hinv2 h2
          · rw [if_neg (by omega)] at h
            exact hL start stp e1 rest1 _ s' he1 hstop hinv1 h
        | false =>
          rw [read_open _ t (ts ++ e1 :: rest1) rfl rfl ht hem] at h
          dsimp only at h
          simp only [ht] at h
          rw [node_layer_open _ hem] at h
          dsimp only at h
          have hb2 : balanced (k + 1) ts = true := by simpa [balanced, ht, hem] using hb
          have hinv1 : LoopInv start stp e1 rest1
              ⟨⟨t, ts ++ e1 :: rest1, pos + 1⟩, cbs, false, start + k + 1, stp, tr⟩ :=
            ⟨rfl, by simp, ⟨ts, k + 1, rfl, hb2, by push_cast; omega⟩, htame⟩
          by_cases hk : k = 0
          · subst hk
            rw [if_pos (by simp)] at h
            obtain ⟨s2, h1, h2⟩ := bind_eq_ok _ _ _ h
            have hinv2 := hF cbs t.name start stp e1 rest1 _ s2 he1 hstop hinv1 htame.1 htame.2
              (Or.inl ⟨rfl, by simp⟩) h1
            exact hL start stp e1 rest1 s2 s' he1 hstop hinv2 h2
          · rw [if_neg (by omega)] at h
            exact hL start stp e1 rest1 _ s' he1 hstop hinv1 h
      | EXN_ELEMENT_END =>
        cases k with
        | zero => simp [balanced, ht] at hb
        | succ k =>
          rw [read_end _ t (ts ++ e1 :: rest1) rfl rfl ht (by dsimp only; push_cast; omega)] at h
          dsimp only at h
          simp only [ht] at h
          rw [node_layer_not_element _ (by simp [ht])] at h
          dsimp only at h
          rw [if_neg (by push_cast; omega)] at h
          exact hL start stp e1 rest1 _ s' he1 hstop
            ⟨rfl, by simp, ⟨ts, k, rfl, by simpa [balanced, ht] using hb,
              by dsimp only; push_cast; omega⟩, htame⟩ h
      | EXN_OTHER =>
        rw [read_other _ t (ts ++ e1 :: rest1) rfl rfl ht] at h
        dsimp only at h
        simp only [ht] at h
        exact hL start stp e1 rest1 _ s' he1 hstop
          ⟨rfl, by simp, ⟨ts, k, rfl, by simpa [balanced, ht] using hb, rfl⟩, htame⟩ h

theorem for_each_step (b : Build) (n : Nat) (hF : ForEachOK b n) (hE : ExecOK b n) :
    ForEachOK b (n + 1) := by
  intro es name start stop e1 rest1 s s' he1 hstop hinv hnd hflat hphase h
  cases es with
  | nil =>
    simp only [for_each, Result.ok.injEq] at h
    subst h
    exact hinv
  | cons e es =>
    rw [for_each] at h
    obtain ⟨s2, h1, h2⟩ := bind_eq_ok _ _ _ h
    have hnd' := nested_names_tail_nodup e es hnd
    have hflat' : flat_bodies es := fun x hx => hflat x (List.mem_cons_of_mem _ hx)
    rcases each_lambda_eq_ok _ e name s s2 h1 with
      ⟨tr, rfl⟩ | ⟨hn, hem, g, tr1, s4, tr2, hg, hrun, rfl⟩
    · refine hF es name start stop e1 rest1 { s with trace := tr } s' he1 hstop hinv hnd'
        hflat' ?_ h2
      rcases hphase with hp | hp
      · exact Or.inl hp
      · exact Or.inr (fun x hx => hp x (List.mem_cons_of_mem _ hx))
    · obtain ⟨hs, hj, ⟨ts, k, hr, hb, hl⟩, htame⟩ := hinv
      rcases hphase with ⟨hf, hlay⟩ | hp
      · have hl1 := hlay hem
        have hk : k = 1 := by omega
        subst hk
        obtain ⟨body, ec, ts2, hts, hbody, hec, hts2⟩ := balanced_split ts 0 0 (by simpa using hb)
        have hfr3 : Framed (start + 1) ec (ts2 ++ e1 :: rest1)
            { s with stop_layer := s.get_current_node_layer, trace := tr1 } := by
          refine ⟨Or.inl ⟨?_, hf, body, 0, ?_, hbody, ?_⟩, htame⟩
          · show s.get_current_node_layer = start + 1
            rw [node_layer_open s hem, hl1]
          · show s.reader.rest = body ++ ec :: (ts2 ++ e1 :: rest1)
            rw [hr, hts]; simp
          · show s.current_layer = start + 1 + ((0 : Nat) : Int)
            simp [hl1]
        have hfr4 := hE g.body (start + 1) ec (ts2 ++ e1 :: rest1) _ s4 hec
          (hflat e (List.mem_cons_self _ _) g hg) hfr3 hrun
        have hinv5 : LoopInv start stop e1 rest1
            { s4 with stop_layer := s.stop_layer, trace := tr2 } := by
          obtain ⟨hio, htame4⟩ := hfr4
          rcases hio with ⟨_, hf4, ts', d', hr4, hb4, hl4⟩ | ⟨_, hf4, hc4, hr4, hl4⟩
          · refine ⟨hs, ?_, ⟨ts' ++ ec :: ts2, d' + 1, ?_, ?_, ?_⟩, htame4⟩
            · intro hx; simp only [hf4] at hx; cases hx
            · show s4.reader.rest = (ts' ++ ec :: ts2) ++ e1 :: rest1
              rw [hr4]; simp
            · exact balanced_append ts' d' 1 (ec :: ts2) hb4 (by simpa [balanced, hec] using hts2)
            · show s4.current_layer = start + ((d' + 1 : Nat) : Int)
              rw [hl4]; push_cast; omega
          · refine ⟨hs, ?_, ⟨ts2, 0, hr4, hts2, ?_⟩, htame4⟩
            · intro _
              show s4.reader.cur.type = EXN_ELEMENT_END
              rw [hc4]; exact hec
            · show s4.current_layer = start + ((0 : Nat) : Int)
              rw [hl4]; simp
        refine hF es name start stop e1 rest1 _ s' he1 hstop hinv5 hnd' hflat' (Or.inr ?_) h2
        intro x hx hxn
        exact no_other_nested e es g hg hnd x hx (by rw [hxn, hn])
      · have := hp e (List.mem_cons_self _ _) hn
        rw [hg] at this
        cases this

theorem node_call_framed (b : Build) (fuel : Nat) (name : String) (func : Option Nat)
    (B : Int) (e : Token) (after : List Token) (he : e.type = EXN_ELEMENT_END)
    (s s' : XMLStructure) (hfr : Framed B e after s)
    (h : (assert_no_callbacks b s).bind (node_loop b name func fuel) = .ok s') :
    Framed B e after s' := by
  obtain ⟨s1, h1, h2⟩ := bind_eq_ok _ _ _ h
  have : s1 = s := by
    unfold assert_no_callbacks at h1
    split at h1
    · cases h1
    · cases h1; rfl
  subst this
  have := node_loop_framed b name func B e after he fuel s1 s' hfr h2
  exact ⟨Or.inl this.1, this.2⟩

/-- With the flag clear, `close()` in a frame drains the innermost open
element; it returns inside the frame, or on the frame's own end-event. -/
theorem close_framed (b : Build) (n : Nat) (hL : LoopOK b n) (B : Int) (e : Token)
    (after : List Token) (he : e.type = EXN_ELEMENT_END) (s s' : XMLStructure)
    (hfr : Framed B e after s)
    (h : do_each_to_close_body b (do_each_loop b n) s = .ok s') : Framed B e after s' := by
  unfold do_each_to_close_body at h
  obtain ⟨s1, h1, h2⟩ := bind_eq_ok _ _ _ h
  have hs1 : s1 = s := by
    split at h1
    · exact throw_eof_eq_ok b s s1 h1
    · cases h1; rfl
  subst hs1
  split at h2
  · cases h2; exact hfr
  · rename_i hem
    have hem' : s1.reader.cur.empty = false := by simpa using hem
    rw [node_layer_open s1 hem'] at h2
    obtain ⟨hio, htame⟩ := hfr
    rcases hio with ⟨hs, hf, ts, d, hr, hb, hl⟩ | ⟨hs, hf, hc, hr, hl⟩
    · cases d with
      | zero =>
        have hpost := hL s1.current_layer B e after s1 s' he (by simp [hl])
          ⟨hs, by simp [hf], ⟨ts, 0, hr, hb, by simp⟩, htame⟩ h2
        obtain ⟨p1, p2, p3, p4, p5, p6⟩ := hpost
        refine ⟨Or.inr ⟨p5, ?_, p1, p2, ?_⟩, p6⟩
        · rw [p4]; simp [hl]
        · rw [p3, hl]; simp
      | succ d =>
        obtain ⟨ts1, e1, ts2, hts, hb1, he1, hb2⟩ := balanced_split ts 0 d (by simpa using hb)
        have hpost := hL s1.current_layer B e1 (ts2 ++ e :: after) s1 s' he1
          (by rw [hl]; push_cast; omega)
          ⟨hs, by simp [hf], ⟨ts1, 0, by rw [hr, hts]; simp, hb1, by simp⟩, htame⟩ h2
        obtain ⟨p1, p2, p3, p4, p5, p6⟩ := hpost
        refine ⟨Or.inl ⟨p5, ?_, ts2, d, p2, hb2, ?_⟩, p6⟩
        · rw [p4]; simp [hl]; omega
        · rw [p3, hl]; push_cast; omega
    · cases n with
      | zero => simp [do_each_loop] at h2
      | succ m =>
        have hrd : s1.read = (false, s1) := by
          have : ¬ (s1.stop_layer ≤ s1.current_layer) := by omega
          simp [XMLStructure.read, hf, this]
        rw [do_each_loop, hrd] at h2
        cases h2
        exact ⟨Or.inr ⟨hs, hf, hc, hr, hl⟩, htame⟩

theorem exec_step (b : Build) (n : Nat) (hL : LoopOK b n) (hE : ExecOK b n) :
    ExecOK b (n + 1) := by
  intro cs B e after s s' he hflat hfr h
  cases cs with
  | nil =>
    simp only [exec, Result.ok.injEq] at h
    subst h
    exact hfr
  | cons c cs =>
    have hflat' : ∀ x ∈ cs, x.flat = true := fun x hx => hflat x (List.mem_cons_of_mem _ hx)
    have hc := hflat c (List.mem_cons_self _ _)
    cases c with
    | node name =>
      rw [exec] at h
      obtain ⟨s2, h1, h2⟩ := bind_eq_ok _ _ _ h
      exact hE cs B e after s2 s' he hflat'
        (node_call_framed b n name none B e after he s s2 hfr h1) h2
    | node_func name func =>
      rw [exec] at h
      obtain ⟨s2, h1, h2⟩ := bind_eq_ok _ _ _ h
      exact hE cs B e after s2 s' he hflat'
        (node_call_framed b n name (some func) B e after he s s2 hfr h1) h2
    | close =>
      rw [exec] at h
      obtain ⟨s2, h1, h2⟩ := bind_eq_ok _ _ _ h
      exact hE cs B e after s2 s' he hflat' (close_framed b n hL B e after he s s2 hfr h1) h2
    | each name func1 func2 body =>
      rw [exec] at h
      cases func2 with
      | some g => simp [Call.flat] at hc
      | none =>
        refine hE cs B e after _ s' he hflat' ?_ h
        exact ⟨hfr.1, tame_append_immediate s.each_callbacks name func1 hfr.2⟩

/-- Confinement: for every fuel, with a tame registry, the loop of
`do_each_to_close`, the dispatch of a child and the calls of a nested
callback return only in the states their frames allow. -/
theorem confinement (b : Build) : ∀ n, LoopOK b n ∧ ForEachOK b n ∧ ExecOK b n := by
  intro n
  induction n with
  | zero =>
    refine ⟨?_, ?_, ?_⟩
    · intro start stop e1 rest1 s s' _ _ _ h; simp [do_each_loop] at h
    · intro es name start stop e1 rest1 s s' _ _ _ _ _ _ h; simp [for_each] at h
    · intro cs B e after s s' _ _ _ h; simp [exec] at h
  | succ n ih =>
    exact ⟨loop_step b n ih.1 ih.2.1, for_each_step b n ih.2.1 ih.2.2,
      exec_step b n ih.1 ih.2.2⟩

/-- Running `close()` on a well-formed scope with a tame registry: whenever it
returns, it returns in `close_post`. -/
theorem close_tame (b : Build) (fuel : Nat) (s s' : XMLStructure) (body : List Token)
    (e : Token) (after : List Token)
    (hne : s.reader.cur.empty = false)
    (hf : s.last_read_invalid = false)
    (hbound : s.stop_layer ≤ s.current_layer)
    (hr : s.reader.rest = body ++ e :: after)
    (hb : balanced 0 body = true)
    (he : e.type = EXN_ELEMENT_END)
    (htame : tame s.each_callbacks)
    (h : close b fuel s = .ok s') : close_post s e after s' := by
  unfold close do_each_to_close do_each_to_close_body at h
  simp only [hf, Bool.false_eq_true, if_false, Result.bind, hne] at h
  have hpost := (confinement b fuel).1 s.get_current_node_layer s.stop_layer e after s s' he
    (by rw [node_layer_open s hne]; exact hbound)
    ⟨rfl, by simp [hf], ⟨body, 0, hr, hb, by simp [node_layer_open s hne]⟩, htame⟩ h
  obtain ⟨p1, p2, p3, p4, p5, _⟩ := hpost
  refine ⟨p3, p5, ?_, ?_, p1, p2⟩
  · intro hlt; rw [p4]; simp only [decide_eq_false_iff_not]; omega
  · intro heq; rw [p4]; simp only [decide_eq_true_eq]; omega

end confinement_proofs

/-! ## Invariants are preserved by every call -/

section invariant_proofs
open XMLStructure

theorem sat_bind {P Q P' : XMLStructure → Prop} {r : Result} {k : XMLStructure → Result}
    (hr : r.sat P Q) (hk : ∀ s, P s → (k s).sat P' Q) : (r.bind k).sat P' Q := by
  cases r with
  | ok s => exact hk s hr
  | stop w s => exact hr
  | out_of_fuel => trivial

theorem sat_mono {P Q P' Q' : XMLStructure → Prop} {r : Result}
    (hr : r.sat P Q) (hp : ∀ s, P s → P' s) (hq : ∀ s, Q s → Q' s) : r.sat P' Q' := by
  cases r with
  | ok s => exact hp s hr
  | stop w s => exact hq s hr
  | out_of_fuel => trivial

theorem grown_refl (s : XMLStructure) : grown s s := ⟨[], by simp⟩

theorem grown_trans {s s1 s2 : XMLStructure} (h1 : grown s s1) (h2 : grown s1 s2) :
    grown s s2 := by
  obtain ⟨l1, h1⟩ := h1
  obtain ⟨l2, h2⟩ := h2
  exact ⟨l1 ++ l2, by rw [h2, h1, List.append_assoc]⟩

theorem read_registry (s : XMLStructure) :
    s.read.2.each_callbacks = s.each_callbacks ∧ s.read.2.stop_layer = s.stop_layer ∧
      s.read.2.trace = s.trace := by
  obtain ⟨⟨cur, rest, pos⟩, cbs, flag, layer, stop, tr⟩ := s
  cases flag
  · cases rest with
    | nil => simp [XMLStructure.read, IXMLReader.read]
    | cons t ts =>
      obtain ⟨ty, nm, em, at_⟩ := t
      cases ty <;> cases em <;> simp [XMLStructure.read, IXMLReader.read] <;>
        split_ifs <;> simp
  · by_cases h : stop ≤ layer <;> simp [XMLStructure.read, h]

theorem read_grown (s : XMLStructure) : grown s s.read.2 :=
  ⟨[], by simp [(read_registry s).1]⟩

theorem throw_eof_sat (b : Build) {P Q : XMLStructure → Prop} (s : XMLStructure)
    (hp : P s) (hq : Q s) : (throw_eof b s).sat P Q := by
  unfold throw_eof
  split_ifs
  · exact hq
  · exact hp

variable {b : Build} {M : Int → XMLStructure → Prop} {O : XMLStructure → Prop}

theorem skip_loop_inv (inv : Invariant b M O) (c : Int) :
    ∀ (n : Nat) (k : Int) (s : XMLStructure), M c s →
      (skip_loop b n k s).sat (Invariant.post M c s) O := by
  intro n
  induction n with
  | zero => intro k s _; trivial
  | succ n ih =>
    intro k s hs
    have h1 : M c s.read.2 := inv.step c s hs
    have hg : grown s s.read.2 := read_grown s
    have hrec : ∀ k', (skip_loop b n k' s.read.2).sat (Invariant.post M c s) O :=
      fun k' => sat_mono (ih k' _ h1) (fun s' h => ⟨h.1, grown_trans hg h.2⟩) (fun _ h => h)
    rw [skip_loop]
    rcases hread : s.read with ⟨r, s1⟩
    rw [hread] at h1 hg hrec
    cases r with
    | false => exact throw_eof_sat b s1 ⟨h1, hg⟩ (inv.abort c s1 h1)
    | true =>
      dsimp only
      split
      · split_ifs <;> exact hrec _
      · split_ifs
        · exact ⟨h1, hg⟩
        · exact hrec _
      · exact hrec _

theorem skip_inv (inv : Invariant b M O) (c : Int) (n : Nat) (s : XMLStructure)
    (hs : M c s) : (skip b n s).sat (Invariant.post M c s) O := by
  unfold skip
  split_ifs
  · exact ⟨hs, grown_refl s⟩
  · exact skip_loop_inv inv c n 1 s hs

theorem node_loop_inv (inv : Invariant b M O) (c : Int) (name : String) (func : Option Nat) :
    ∀ (n : Nat) (s : XMLStructure), M c s →
      (node_loop b name func n s).sat (Invariant.post M c s) O := by
  intro n
  induction n with
  | zero => intro s _; trivial
  | succ n ih =>
    intro s hs
    have h1 : M c s.read.2 := inv.step c s hs
    have hg : grown s s.read.2 := read_grown s
    rw [node_loop]
    rcases hread : s.read with ⟨r, s1⟩
    rw [hread] at h1 hg
    cases r with
    | false =>
      dsimp only
      exact sat_bind (throw_eof_sat b s1 h1 (inv.abort c s1 h1)) (fun s2 h2 => inv.abort c s2 h2)
    | true =>
      dsimp only
      split_ifs
      · cases func with
        | none => exact ⟨h1, hg⟩
        | some f =>
          exact ⟨inv.frame c s1 _ h1 ⟨rfl, rfl, rfl⟩ rfl (grown_refl _), hg⟩
      · refine sat_bind (skip_inv inv c n s1 h1) (fun s2 h2 => ?_)
        exact sat_mono (ih s2 h2.1)
          (fun s' h => ⟨h.1, grown_trans hg (grown_trans h2.2 h.2)⟩) (fun _ h => h)
      · exact sat_mono (ih s1 h1) (fun s' h => ⟨h.1, grown_trans hg h.2⟩) (fun _ h => h)

/-- In the build the spec describes, calls made while the pushback is pending
and a subscription is registered cannot read: `node` stops on its assertion
and `close()` throws at once, so only `each` gets through. -/
theorem frozen_exec (hb : spec_build b) :
    ∀ (n : Nat) (cs : List Call) (s : XMLStructure), s.last_read_invalid = true →
      s.each_callbacks ≠ [] →
      (exec b n cs s).sat
        (fun s' => same_position s s' ∧ s'.stop_layer = s.stop_layer ∧ grown s s')
        (fun s' => same_position s s' ∧ s'.stop_layer = s.stop_layer ∧ grown s s') := by
  intro n
  induction n with
  | zero => intro cs s _ _; trivial
  | succ n ih =>
    intro cs s hf hreg
    have hself : same_position s s ∧ s.stop_layer = s.stop_layer ∧ grown s s :=
      ⟨⟨rfl, rfl, rfl⟩, rfl, grown_refl s⟩
    have hlen : s.each_callbacks.length ≠ 0 := by
      intro h; exact hreg (List.length_eq_zero.mp h)
    cases cs with
    | nil => rw [exec]; exact hself
    | cons c cs =>
      cases c with
      | node name =>
        rw [exec]
        simp only [node, assert_no_callbacks, hb.2, hlen, ne_eq, not_false_eq_true, and_self,
          if_true, Result.bind]
        exact hself
      | node_func name func =>
        rw [exec]
        simp only [node_func, assert_no_callbacks, hb.2, hlen, ne_eq, not_false_eq_true,
          and_self, if_true, Result.bind]
        exact hself
      | close =>
        rw [exec]
        simp only [do_each_to_close_body, hf, if_true, throw_eof, hb.1, Result.bind]
        exact hself
      | each name func1 func2 body =>
        rw [exec]
        refine sat_mono (ih cs (s.each name func1 (func2.map (fun id => ⟨id, body⟩))) hf
          (by simp [XMLStructure.each])) ?_ ?_ <;>
        · rintro s' ⟨⟨p1, p2, p3⟩, p4, l, p5⟩
          exact ⟨⟨p1, p2, p3⟩, p4,
            ⟨name, func1, func2.map (fun id => ⟨id, body⟩)⟩ :: l,
            by rw [p5]; simp [XMLStructure.each]⟩

/-- One subscription dispatched on one child preserves an invariant, given
that the calls of nested callbacks do. -/
theorem each_lambda_inv (inv : Invariant b M O) (n : Nat)
    (hexec : ∀ (c : Int) (cs : List Call) (s : XMLStructure), M c s →
      (exec b n cs s).sat (Invariant.post M c s) O)
    (c : Int) (e : EachCallback) (name : String) (s : XMLStructure) (hs : M c s)
    (hreg : s.each_callbacks ≠ []) :
    (each_lambda (exec b n) e name s).sat (Invariant.post M c s) O := by
  unfold each_lambda
  split_ifs with hname
  swap
  · exact ⟨hs, grown_refl s⟩
  have h1 : ∀ s1 : XMLStructure, same_position s s1 → s1.stop_layer = s.stop_layer →
      s1.each_callbacks = s.each_callbacks →
      (match e.func2 with
        | some g =>
          if s1.reader.cur.empty = false then
            (exec b n g.body
              { s1.set_new_bound s1.get_current_node_layer with
                trace := (s1.set_new_bound s1.get_current_node_layer).trace ++
                  [Event.enter g.id (s1.set_new_bound s1.get_current_node_layer).reader.cur
                    (s1.set_new_bound s1.get_current_node_layer).reader.pos
                    (s1.set_new_bound s1.get_current_node_layer).stop_layer] }).bind
              (fun s4 =>
                .ok { s4.set_new_bound s1.get_current_bound with
                      trace := (s4.set_new_bound s1.get_current_bound).trace ++
                        [Event.leave g.id (s4.set_new_bound s1.get_current_bound).current_layer
                          (s4.set_new_bound s1.get_current_bound).last_read_invalid
                          (s4.set_new_bound s1.get_current_bound).stop_layer] })
          else .ok s1
        | none => .ok s1).sat (Invariant.post M c s) O := by
    intro s1 hp hst hcb
    have hm1 : M c s1 := inv.frame c s s1 hs hp hst ⟨[], by simp [hcb]⟩
    have hg1 : grown s s1 := ⟨[], by simp [hcb]⟩
    have hc1 : s1.stop_layer = c := inv.bound c s1 hm1
    cases hg : e.func2 with
    | none => exact ⟨hm1, hg1⟩
    | some g =>
      dsimp only
      split_ifs with hem
      swap
      · exact ⟨hm1, hg1⟩
      by_cases hfl : s1.last_read_invalid = false ∨ ¬ spec_build b
      · have h3 := inv.enter c s1 hm1 hem hfl
        have h3' := inv.frame _ _
          { s1.set_new_bound s1.get_current_node_layer with
            trace := (s1.set_new_bound s1.get_current_node_layer).trace ++
              [Event.enter g.id (s1.set_new_bound s1.get_current_node_layer).reader.cur
                (s1.set_new_bound s1.get_current_node_layer).reader.pos
                (s1.set_new_bound s1.get_current_node_layer).stop_layer] }
          h3 ⟨rfl, rfl, rfl⟩ rfl (grown_refl _)
        refine sat_bind (hexec _ g.body _ h3') (fun s4 h4 => ?_)
        have h5 := inv.leave c s1 s4 hm1 hem hfl h4.1
        refine ⟨inv.frame c _ _ h5 ⟨rfl, rfl, rfl⟩ ?_ (grown_refl _), ?_⟩
        · simp [set_new_bound, get_current_bound, hc1]
        · obtain ⟨l, hl⟩ := h4.2
          exact ⟨l, by simpa [set_new_bound, hcb] using hl⟩
      · have hfl1 : s1.last_read_invalid = true := by
          cases h : s1.last_read_invalid
          · exact absurd (Or.inl h) hfl
          · rfl
        have hb : spec_build b := by
          by_contra h; exact hfl (Or.inr h)
        have hfz := frozen_exec hb n g.body
          { s1.set_new_bound s1.get_current_node_layer with
            trace := (s1.set_new_bound s1.get_current_node_layer).trace ++
              [Event.enter g.id (s1.set_new_bound s1.get_current_node_layer).reader.cur
                (s1.set_new_bound s1.get_current_node_layer).reader.pos
                (s1.set_new_bound s1.get_current_node_layer).stop_layer] }
          hfl1 (by simpa [set_new_bound, hcb] using hreg)
        refine sat_bind (sat_mono hfz (fun s4 h4 => h4) ?_) ?_
        · rintro s4 ⟨⟨p1, p2, p3⟩, -, -⟩
          exact inv.frozen c s1 s4 hm1 hfl1 ⟨p1, p2, p3⟩
        · rintro s4 ⟨⟨p1, p2, p3⟩, -, l, p5⟩
          refine ⟨inv.frame c s1 _ hm1 ⟨p1, p2, p3⟩ ?_ ⟨l, ?_⟩, ⟨l, ?_⟩⟩
          · simp [set_new_bound, get_current_bound]
          · simpa [set_new_bound] using p5
          · simpa [set_new_bound, hcb] using p5
  cases hf1 : e.func1 with
  | none => exact h1 s ⟨rfl, rfl, rfl⟩ rfl rfl
  | some f => exact h1 (call_node_processor f s) ⟨rfl, rfl, rfl⟩ rfl rfl

theorem assert_sat (inv : Invariant b M O) (c : Int) (s : XMLStructure) (hs : M c s) :
    (assert_no_callbacks b s).sat (fun s' => s' = s) O := by
  unfold assert_no_callbacks
  split_ifs
  · exact inv.abort c s hs
  · rfl

theorem node_inv (inv : Invariant b M O) (c : Int) (n : Nat) (name : String)
    (func : Option Nat) (s : XMLStructure) (hs : M c s) :
    ((assert_no_callbacks b s).bind (node_loop b name func n)).sat (Invariant.post M c s) O :=
  sat_bind (assert_sat inv c s hs) (fun s1 h1 => by
    subst h1; exact node_loop_inv inv c name func n s1 hs)

/-- Every invariant holds after each loop of `do_each_to_close`, each dispatch
and each sequence of calls, however they end. -/
theorem invariant_all (inv : Invariant b M O) :
    ∀ n : Nat,
      (∀ (c start : Int) (s : XMLStructure), M c s →
        (do_each_loop b n start s).sat (Invariant.post M c s) O) ∧
      (∀ (c : Int) (es : List EachCallback) (name : String) (s : XMLStructure), M c s →
        (es = [] ∨ s.each_callbacks ≠ []) →
        (for_each b n es name s).sat (Invariant.post M c s) O) ∧
      (∀ (c : Int) (cs : List Call) (s : XMLStructure), M c s →
        (exec b n cs s).sat (Invariant.post M c s) O) := by
  intro n
  induction n with
  | zero => exact ⟨fun _ _ _ _ => trivial, fun _ _ _ _ _ _ => trivial, fun _ _ _ _ => trivial⟩
  | succ n ih =>
    obtain ⟨ihl, ihe, ihx⟩ := ih
    have hthen : ∀ (c : Int) (s s1 : XMLStructure) (r : Result) (k : XMLStructure → Result),
        grown s s1 → r.sat (Invariant.post M c s1) O →
        (∀ s2, M c s2 → (k s2).sat (Invariant.post M c s2) O) →
        (r.bind k).sat (Invariant.post M c s) O := by
      intro c s s1 r k hg hr hk
      refine sat_bind hr (fun s2 h2 => sat_mono (hk s2 h2.1) (fun s3 h3 => ?_) (fun _ h => h))
      exact ⟨h3.1, grown_trans hg (grown_trans h2.2 h3.2)⟩
    refine ⟨?_, ?_, ?_⟩
    · intro c start s hs
      have h1 : M c s.read.2 := inv.step c s hs
      have hg : grown s s.read.2 := read_grown s
      rw [do_each_loop]
      rcases hread : s.read with ⟨r, s1⟩
      rw [hread] at h1 hg
      have hrec : (do_each_loop b n start s1).sat (Invariant.post M c s) O :=
        sat_mono (ihl c start s1 h1) (fun s' h => ⟨h.1, grown_trans hg h.2⟩) (fun _ h => h)
      cases r with
      | false => exact ⟨h1, hg⟩
      | true =>
        dsimp only
        split
        · split_ifs
          · refine hthen c s s1 _ _ hg (ihe c _ _ s1 h1 ?_) (fun s2 h2 => ihl c start s2 h2)
            cases s1.each_callbacks with
            | nil => exact Or.inl rfl
            | cons x xs => exact Or.inr (by simp)
          · exact hrec
        · split_ifs
          · exact ⟨h1, hg⟩
          · exact hrec
        · exact hrec
    · intro c es name s hs hreg
      cases es with
      | nil => rw [for_each]; exact ⟨hs, grown_refl s⟩
      | cons e es =>
        rw [for_each]
        have hne : s.each_callbacks ≠ [] := hreg.resolve_left (by simp)
        refine sat_bind (each_lambda_inv inv n ihx c e name s hs hne) (fun s2 h2 => ?_)
        refine sat_mono (ihe c es name s2 h2.1 (Or.inr ?_))
          (fun s3 h3 => ⟨h3.1, grown_trans h2.2 h3.2⟩) (fun _ h => h)
        obtain ⟨l, hl⟩ := h2.2
        rw [hl]
        intro h
        exact hne (List.append_eq_nil.mp h).1
    · intro c cs s hs
      cases cs with
      | nil => rw [exec]; exact ⟨hs, grown_refl s⟩
      | cons call cs =>
        cases call with
        | node name =>
          rw [exec]
          exact hthen c s s _ _ (grown_refl s) (node_inv inv c n name none s hs)
            (fun s2 h2 => ihx c cs s2 h2)
        | node_func name func =>
          rw [exec]
          exact hthen c s s _ _ (grown_refl s) (node_inv inv c n name (some func) s hs)
            (fun s2 h2 => ihx c cs s2 h2)
        | each name func1 func2 body =>
          rw [exec]
          refine sat_mono (ihx c cs _ (inv.frame c s
            (s.each name func1 (func2.map (fun id => ⟨id, body⟩))) hs ⟨rfl, rfl, rfl⟩ rfl
            ⟨[⟨name, func1, func2.map (fun id => ⟨id, body⟩)⟩], rfl⟩))
            (fun s3 h3 => ⟨h3.1, ?_⟩) (fun _ h => h)
          exact grown_trans ⟨[⟨name, func1, func2.map (fun id => ⟨id, body⟩)⟩], rfl⟩ h3.2
        | close =>
          rw [exec]
          refine hthen c s s _ _ (grown_refl s) ?_ (fun s2 h2 => ihx c cs s2 h2)
          unfold do_each_to_close_body
          refine sat_bind (P := fun s1 => s1 = s) ?_ (fun s1 h1 => ?_)
          · split_ifs
            · exact throw_eof_sat b s rfl (inv.abort c s hs)
            · rfl
          · subst h1
            split_ifs
            · exact ⟨hs, grown_refl s1⟩
            · exact ihl c _ s1 hs

end invariant_proofs

/-! ## Three invariants: I2, the depth count, and staying within a scope -/

section invariant_instances
open XMLStructure

theorem I2_read (s : XMLStructure) (h : I2 s) : I2 s.read.2 := by
  obtain ⟨⟨cur, rest, pos⟩, cbs, flag, layer, stop, tr⟩ := s
  cases flag
  · have h' : stop ≤ layer := h rfl
    cases rest with
    | nil => simpa [XMLStructure.read, IXMLReader.read, I2] using h'
    | cons t ts =>
      obtain ⟨ty, nm, em, at_⟩ := t
      cases ty <;> cases em <;> simp only [XMLStructure.read, IXMLReader.read, I2] <;>
        simp <;> first | omega | (split_ifs <;> first | omega | (simp; omega) | simp)
  · by_cases h1 : stop ≤ layer <;> simp [XMLStructure.read, I2, h1]

theorem I2_invariant {b : Build} (hb : spec_build b) :
    Invariant b (fun c s => s.stop_layer = c ∧ I2 s) I2 where
  bound := fun _ _ h => h.1
  step := fun c s h => ⟨(read_registry s).2.1.trans h.1, I2_read s h.2⟩
  abort := fun _ _ h => h.2
  frame := by
    rintro c s s' ⟨h1, h2⟩ ⟨-, p2, p3⟩ p4 -
    refine ⟨p4.trans h1, ?_⟩
    unfold I2 at h2 ⊢
    rw [p2, p3, p4]; exact h2
  enter := by
    rintro c s ⟨-, -⟩ hem -
    refine ⟨rfl, fun _ => ?_⟩
    simp [set_new_bound, get_current_node_layer, hem]
  leave := by
    rintro c s s' ⟨h1, h2⟩ hem hfl ⟨h3, h4⟩
    refine ⟨rfl, fun hf => ?_⟩
    have hfs : s.last_read_invalid = false := hfl.resolve_right (fun h => h hb)
    have h5 := h2 hfs
    have h6 := h4 (by simpa [set_new_bound] using hf)
    simp only [get_current_node_layer, hem, Bool.false_eq_true, and_false, if_false] at h3
    simp only [set_new_bound]
    omega
  frozen := by
    rintro c s s' - hf ⟨-, p2, -⟩ hf'
    rw [p2, hf] at hf'
    cases hf'

theorem drop_cons_step (l : List Token) :
    ∀ (k : Nat) (t : Token) (ts : List Token), l.drop k = t :: ts →
      k + 1 ≤ l.length ∧ l.drop (k + 1) = ts ∧ l.take (k + 1) = l.take k ++ [t] := by
  induction l with
  | nil => intro k t ts h; simp at h
  | cons x xs ih =>
    intro k t ts h
    cases k with
    | zero =>
      simp only [List.drop_zero, List.cons.injEq] at h
      obtain ⟨h1, h2⟩ := h
      subst h1 h2
      simp
    | succ k =>
      obtain ⟨h1, h2, h3⟩ := ih k t ts (by simpa using h)
      refine ⟨by simp only [List.length_cons]; omega, by simpa using h2, ?_⟩
      simp only [List.take_succ_cons, List.cons_append, h3]

theorem net_depth_snoc (ts : List Token) (t : Token) :
    net_depth (ts ++ [t]) =
      net_depth ts + (if t.opens then 1 else 0) - (if t.closes then 1 else 0) := by
  unfold net_depth
  rw [List.countP_append, List.countP_append]
  by_cases h1 : t.opens = true <;> by_cases h2 : t.closes = true <;>
    simp [List.countP_cons, h1, h2] <;> omega

theorem counted_read (r0 : IXMLReader) (s : XMLStructure) (h : counted r0 s) :
    counted r0 s.read.2 := by
  rw [read_as_step_spec]
  obtain ⟨k, hk, hr, hp, hl⟩ := h
  obtain ⟨⟨cur, rest, pos⟩, cbs, flag, layer, stop, tr⟩ := s
  dsimp only at hr hp hl
  cases flag
  · cases rest with
    | nil => exact ⟨k, hk, hr, hp, hl⟩
    | cons t ts =>
      obtain ⟨h1, h2, h3⟩ := drop_cons_step r0.rest k t ts hr.symm
      have hn := net_depth_snoc (r0.rest.take k) t
      rw [← h3, ← hl] at hn
      have hx : ¬ (t.opens = true ∧ t.closes = true) := by
        simp only [Token.opens, Token.closes, decide_eq_true_eq]
        rintro ⟨⟨a, -⟩, c⟩
        rw [a] at c
        cases c
      simp only [step_spec]
      cases ho : t.opens <;> cases hc : t.closes <;>
        simp only [ho, hc, Bool.false_eq_true, if_false, if_true] at hn hx ⊢
      · exact ⟨k + 1, h1, h2.symm, by dsimp only; omega, by dsimp only; omega⟩
      · split_ifs <;>
          exact ⟨k + 1, h1, h2.symm, by dsimp only; omega, by dsimp only; omega⟩
      · exact ⟨k + 1, h1, h2.symm, by dsimp only; omega, by dsimp only; omega⟩
      · exact absurd ⟨trivial, trivial⟩ hx
  · simp only [step_spec]
    split_ifs <;> exact ⟨k, hk, hr, hp, hl⟩

theorem counted_invariant (b : Build) (r0 : IXMLReader) :
    Invariant b (fun c s => s.stop_layer = c ∧ counted r0 s) (counted r0) where
  bound := fun _ _ h => h.1
  step := fun c s h => ⟨(read_registry s).2.1.trans h.1, counted_read r0 s h.2⟩
  abort := fun _ _ h => h.2
  frame := by
    rintro c s s' ⟨h1, k, q1, q2, q3, q4⟩ ⟨p1, -, p3⟩ p4 -
    exact ⟨p4.trans h1, k, q1, by rw [p1]; exact q2, by rw [p1]; exact q3,
      by rw [p3]; exact q4⟩
  enter := fun _ _ h _ _ => ⟨rfl, h.2⟩
  leave := fun _ _ _ _ _ _ h => ⟨rfl, h.2⟩
  frozen := by
    rintro c s s' ⟨-, k, q1, q2, q3, q4⟩ - ⟨p1, -, p3⟩
    exact ⟨k, q1, by rw [p1]; exact q2, by rw [p1]; exact q3, by rw [p3]; exact q4⟩

/-- In a well-formed sequence every prefix leaves at least as many elements
open as it closes. -/
theorem balanced_prefix_nonneg :
    ∀ (ts : List Token) (d k : Nat), balanced d ts = true → 0 ≤ (d : Int) + net_depth (ts.take k) := by
  intro ts
  induction ts with
  | nil => intro d k _; simp [net_depth]
  | cons t ts ih =>
    intro d k h
    cases k with
    | zero => simp [net_depth]
    | succ k =>
      have hcons : net_depth (t :: ts.take k) =
          net_depth (ts.take k) + (if t.opens then 1 else 0) - (if t.closes then 1 else 0) := by
        unfold net_depth
        by_cases h1 : t.opens = true <;> by_cases h2 : t.closes = true <;>
          simp [List.countP_cons, h1, h2] <;> omega
      rw [List.take_succ_cons, hcons]
      obtain ⟨ty, nm, em, at_⟩ := t
      cases ty <;> cases em <;> simp only [balanced] at h
      · have := ih (d + 1) k (by simpa using h)
        simp [Token.opens, Token.closes]; omega
      · have := ih d k (by simpa using h)
        simp [Token.opens, Token.closes]; omega
      · cases d with
        | zero => simp at h
        | succ d =>
          have := ih d k (by simpa using h)
          simp [Token.opens, Token.closes]; omega
      · cases d with
        | zero => simp at h
        | succ d =>
          have := ih d k (by simpa using h)
          simp [Token.opens, Token.closes]; omega
      · have := ih d k (by simpa using h)
        simp [Token.opens, Token.closes]; omega
      · have := ih d k (by simpa using h)
        simp [Token.opens, Token.closes]; omega

theorem within_read (B : Int) (e : Token) (after : List Token)
    (he : e.type = EXML_NODE.EXN_ELEMENT_END) (s : XMLStructure) (hB : B ≤ s.stop_layer)
    (h : within_scope B e after s) : within_scope B e after s.read.2 := by
  obtain ⟨⟨cur, rest, pos⟩, cbs, flag, layer, stop, tr⟩ := s
  dsimp only at hB
  cases flag
  · rcases h with ⟨ts, d, hr, hbal, hl⟩ | ⟨-, -, -, hf⟩
    swap
    · cases hf
    dsimp only at hr hl
    subst hr hl
    cases ts with
    | nil =>
      have hd : d = 0 := by simpa [balanced] using hbal
      subst hd
      obtain ⟨ty, nm, em, at_⟩ := e
      dsimp only at he
      subst he
      right
      have : B - 1 < stop := by omega
      simp [XMLStructure.read, IXMLReader.read, this, within_scope]
    | cons t ts =>
      left
      obtain ⟨ty, nm, em, at_⟩ := t
      cases ty <;> cases em <;> simp only [balanced] at hbal
      · exact ⟨ts, d + 1, by simp [XMLStructure.read, IXMLReader.read], by simpa using hbal,
          by simp [XMLStructure.read, IXMLReader.read]; omega⟩
      · exact ⟨ts, d, by simp [XMLStructure.read, IXMLReader.read], by simpa using hbal,
          by simp [XMLStructure.read, IXMLReader.read]⟩
      · cases d with
        | zero => simp at hbal
        | succ d =>
          refine ⟨ts, d, ?_, by simpa using hbal, ?_⟩ <;>
            simp only [XMLStructure.read, IXMLReader.read] <;> simp <;> split_ifs <;>
            simp <;> omega
      · cases d with
        | zero => simp at hbal
        | succ d =>
          refine ⟨ts, d, ?_, by simpa using hbal, ?_⟩ <;>
            simp only [XMLStructure.read, IXMLReader.read] <;> simp <;> split_ifs <;>
            simp <;> omega
      · exact ⟨ts, d, by simp [XMLStructure.read, IXMLReader.read], by simpa using hbal,
          by simp [XMLStructure.read, IXMLReader.read]⟩
      · exact ⟨ts, d, by simp [XMLStructure.read, IXMLReader.read], by simpa using hbal,
          by simp [XMLStructure.read, IXMLReader.read]⟩
  · rcases h with ⟨ts, d, hr, hbal, hl⟩ | ⟨h1, h2, h3, -⟩
    · left
      refine ⟨ts, d, ?_, hbal, ?_⟩ <;>
        by_cases hle : stop ≤ layer <;> simp [XMLStructure.read, hle] <;> assumption
    · right
      dsimp only at h1 h2 h3
      subst h1 h2 h3
      have hle : ¬ stop ≤ B - 1 := by omega
      simp [XMLStructure.read, hle]

theorem within_invariant {b : Build} (hb : spec_build b) (B : Int) (e : Token)
    (after : List Token) (he : e.type = EXML_NODE.EXN_ELEMENT_END) :
    Invariant b (fun c s => s.stop_layer = c ∧ B ≤ c ∧ within_scope B e after s)
      (within_scope B e after) where
  bound := fun _ _ h => h.1
  step := fun c s h => ⟨(read_registry s).2.1.trans h.1, h.2.1,
    within_read B e after he s (h.1 ▸ h.2.1) h.2.2⟩
  abort := fun _ _ h => h.2.2
  frame := by
    rintro c s s' ⟨h1, h2, h3⟩ ⟨p1, p2, p3⟩ p4 -
    refine ⟨p4.trans h1, h2, ?_⟩
    unfold within_scope at h3 ⊢
    rw [p1, p2, p3]; exact h3
  enter := by
    rintro c s ⟨-, -, h3⟩ hem hfl
    have hfs : s.last_read_invalid = false := hfl.resolve_right (fun h => h hb)
    have hg : s.get_current_node_layer = s.current_layer := by
      simp [get_current_node_layer, hem]
    refine ⟨rfl, ?_, h3⟩
    rcases h3 with ⟨ts, d, -, -, hl⟩ | ⟨-, -, -, hf⟩
    · rw [hg, hl]; omega
    · rw [hfs] at hf; cases hf
  leave := fun _ _ _ h _ _ h' => ⟨rfl, h.2.1, h'.2.2⟩
  frozen := by
    rintro c s s' ⟨-, -, h3⟩ - ⟨p1, p2, p3⟩
    unfold within_scope at h3 ⊢
    rw [p1, p2, p3]; exact h3

end invariant_instances

/-! ## The registry is never cleared -/

section registry_proofs
open XMLStructure

theorem skip_loop_registry (b : Build) :
    ∀ (n : Nat) (k : Int) (s : XMLStructure),
      (skip_loop b n k s).sat (fun s' => s'.each_callbacks = s.each_callbacks)
        (fun s' => s'.each_callbacks = s.each_callbacks) := by
  intro n
  induction n with
  | zero => intro k s; trivial
  | succ n ih =>
    intro k s
    have hg := (read_registry s).1
    have hrec : ∀ k', (skip_loop b n k' s.read.2).sat
        (fun s' => s'.each_callbacks = s.each_callbacks)
        (fun s' => s'.each_callbacks = s.each_callbacks) :=
      fun k' => sat_mono (ih k' _) (fun s' h => h.trans hg) (fun s' h => h.trans hg)
    rw [skip_loop]
    rcases hread : s.read with ⟨r, s1⟩
    rw [hread] at hg hrec
    cases r with
    | false => exact throw_eof_sat b s1 hg hg
    | true =>
      dsimp only
      split
      · split_ifs <;> exact hrec _
      · split_ifs
        · exact hg
        · exact hrec _
      · exact hrec _

theorem node_loop_registry (b : Build) (name : String) (func : Option Nat) :
    ∀ (n : Nat) (s : XMLStructure),
      (node_loop b name func n s).sat (fun s' => s'.each_callbacks = s.each_callbacks)
        (fun s' => s'.each_callbacks = s.each_callbacks) := by
  intro n
  induction n with
  | zero => intro s; trivial
  | succ n ih =>
    intro s
    have hg := (read_registry s).1
    rw [node_loop]
    rcases hread : s.read with ⟨r, s1⟩
    rw [hread] at hg
    cases r with
    | false =>
      dsimp only
      exact sat_bind (throw_eof_sat b s1 hg hg) (fun s2 h2 => h2)
    | true =>
      dsimp only
      split_ifs
      · cases func with
        | none => exact hg
        | some f => exact hg
      · have hs : (skip b n s1).sat (fun s' => s'.each_callbacks = s.each_callbacks)
            (fun s' => s'.each_callbacks = s.each_callbacks) := by
          unfold skip
          split_ifs
          · exact hg
          · exact sat_mono (skip_loop_registry b n 1 s1) (fun s' h => h.trans hg)
              (fun s' h => h.trans hg)
        exact sat_bind hs (fun s2 h2 =>
          sat_mono (ih s2) (fun s' h => h.trans h2) (fun s' h => h.trans h2))
      · exact sat_mono (ih s1) (fun s' h => h.trans hg) (fun s' h => h.trans hg)

/-- A normal return of `node` (with or without a callback) leaves the registry
as it was, and with the assertion active that registry is empty. -/
theorem node_call_registry (b : Build) (fuel : Nat) (name : String) (func : Option Nat)
    (s s' : XMLStructure)
    (h : (assert_no_callbacks b s).bind (node_loop b name func fuel) = .ok s') :
    s'.each_callbacks = s.each_callbacks ∧ (b.NDEBUG = false → s'.each_callbacks = []) := by
  unfold assert_no_callbacks at h
  split_ifs at h with hc
  · simp [Result.bind] at h
  · have h1 := node_loop_registry b name func fuel s
    simp only [Result.bind] at h
    rw [h] at h1
    refine ⟨h1, fun hn => ?_⟩
    rw [h1]
    by_contra hne
    exact hc ⟨hn, fun hl => hne (List.length_eq_zero.mp hl)⟩

/-- The trivial invariant: the Scope Bound is the one the calls started under. -/
theorem bound_invariant (b : Build) :
    Invariant b (fun c s => s.stop_layer = c) (fun _ => True) where
  bound := fun _ _ h => h
  step := fun _ s h => (read_registry s).2.1.trans h
  abort := fun _ _ _ => trivial
  frame := fun _ _ _ h _ p _ => p.trans h
  enter := fun _ _ _ _ _ => rfl
  leave := fun _ _ _ _ _ _ _ => rfl
  frozen := fun _ _ _ _ _ _ => trivial

end registry_proofs

/-! ## Every call halts -/

section termination_proofs
open XMLStructure

theorem halts_const (r : Result) (hr : r ≠ .out_of_fuel) : Halts (fun _ => r) :=
  ⟨0, r, hr, fun _ _ => rfl⟩

theorem halts_succ {f : Nat → Result} (h : Halts (fun m => f (m + 1))) : Halts f := by
  obtain ⟨n, r, hr, hs⟩ := h
  refine ⟨n + 1, r, hr, fun m hm => ?_⟩
  obtain ⟨m', rfl⟩ : ∃ m', m = m' + 1 := ⟨m - 1, by omega⟩
  exact hs m' (by omega)

theorem halts_bind {f : Nat → Result} {k : Nat → XMLStructure → Result} (hf : Halts f)
    (hk : ∀ n s, f n = .ok s → Halts (fun m => k m s)) :
    Halts (fun m => (f m).bind (k m)) := by
  obtain ⟨n1, r1, hr1, h1⟩ := hf
  cases r1 with
  | out_of_fuel => exact absurd rfl hr1
  | stop w s1 =>
    exact ⟨n1, .stop w s1, by simp, fun m hm => by simp only [h1 m hm, Result.bind]⟩
  | ok s1 =>
    obtain ⟨n2, r2, hr2, h2⟩ := hk n1 s1 (h1 n1 (le_refl _))
    refine ⟨max n1 n2, r2, hr2, fun m hm => ?_⟩
    simp only [h1 m (le_trans (le_max_left _ _) hm), Result.bind]
    exact h2 m (le_trans (le_max_right _ _) hm)

theorem halts_of_mono {f : Nat → Result} (n : Nat) (h0 : f n ≠ .out_of_fuel)
    (hmono : ∀ m, f m ≠ .out_of_fuel → f (m + 1) = f m) : Halts f := by
  refine ⟨n, f n, h0, fun m hm => ?_⟩
  obtain ⟨d, rfl⟩ : ∃ d, m = n + d := ⟨m - n, by omega⟩
  clear hm
  induction d with
  | zero => rfl
  | succ d ih =>
    rw [← Nat.add_assoc, hmono (n + d) (by rw [ih]; exact h0), ih]

theorem read_pending (s : XMLStructure) :
    pending_steps s.read.2 ≤ pending_steps s ∧
      (s.read.1 = true → pending_steps s.read.2 < pending_steps s) := by
  rw [read_as_step_spec]
  obtain ⟨⟨cur, rest, pos⟩, cbs, flag, layer, stop, tr⟩ := s
  cases flag
  · cases rest with
    | nil => simp [step_spec, pending_steps]
    | cons t ts =>
      simp only [step_spec, pending_steps]
      split_ifs <;> simp <;> omega
  · by_cases h : stop ≤ layer <;> simp [step_spec, pending_steps, h]

/-- What a step that reports a token does, and when the flag can be set. -/
theorem read_progress (s : XMLStructure) :
    (s.read.1 = true →
      (s.last_read_invalid = false ∧ s.read.2.last_read_invalid = false ∧
        ∃ t ts, s.reader.rest = t :: ts ∧ s.read.2.reader = ⟨t, ts, s.reader.pos + 1⟩) ∨
      (s.last_read_invalid = true ∧ s.read.2.last_read_invalid = false ∧
        s.read.2.reader = s.reader)) ∧
    (s.last_read_invalid = false → s.read.2.last_read_invalid = true →
      ∃ t ts, s.reader.rest = t :: ts ∧ s.read.2.reader = ⟨t, ts, s.reader.pos + 1⟩) := by
  rw [read_as_step_spec]
  obtain ⟨⟨cur, rest, pos⟩, cbs, flag, layer, stop, tr⟩ := s
  cases flag
  · cases rest with
    | nil => simp [step_spec]
    | cons t ts =>
      simp only [step_spec]
      split_ifs <;> simp
  · by_cases h : stop ≤ layer <;> simp [step_spec, h]

theorem pending_invariant (b : Build) (m : Nat) :
    Invariant b (fun c s => s.stop_layer = c ∧ pending_steps s ≤ m) (fun _ => True) where
  bound := fun _ _ h => h.1
  step := fun _ s h => ⟨(read_registry s).2.1.trans h.1, le_trans (read_pending s).1 h.2⟩
  abort := fun _ _ _ => trivial
  frame := by
    rintro c s s' ⟨h1, h2⟩ ⟨p1, p2, -⟩ p4 -
    refine ⟨p4.trans h1, ?_⟩
    unfold pending_steps at h2 ⊢
    rw [p1, p2]; exact h2
  enter := fun _ _ h _ _ => ⟨rfl, h.2⟩
  leave := fun _ _ _ _ _ _ h => ⟨rfl, h.2⟩
  frozen := fun _ _ _ _ _ _ => trivial

theorem throw_eof_ne (b : Build) (s : XMLStructure) : throw_eof b s ≠ .out_of_fuel := by
  unfold throw_eof; split_ifs <;> simp

/-- The loop of `skip` returns or aborts within `pending_steps + 1` units of
fuel. -/
theorem skip_loop_fuel (b : Build) :
    ∀ (n : Nat) (k : Int) (s : XMLStructure), pending_steps s < n →
      skip_loop b n k s ≠ .out_of_fuel := by
  intro n
  induction n with
  | zero => intro k s h; omega
  | succ n ih =>
    intro k s h
    have hp := read_pending s
    rw [skip_loop]
    rcases hread : s.read with ⟨r, s1⟩
    rw [hread] at hp
    cases r with
    | false => exact throw_eof_ne b s1
    | true =>
      have hlt : pending_steps s1 < n := by have := hp.2 rfl; dsimp only at this; omega
      dsimp only
      split
      · split_ifs <;> exact ih _ s1 hlt
      · split_ifs
        · simp
        · exact ih _ s1 hlt
      · exact ih _ s1 hlt

theorem skip_fuel (b : Build) (n : Nat) (s : XMLStructure) (h : pending_steps s < n) :
    skip b n s ≠ .out_of_fuel := by
  unfold skip
  split_ifs
  · simp
  · exact skip_loop_fuel b n 1 s h

theorem skip_pending (b : Build) (n : Nat) (s s' : XMLStructure) (h : skip b n s = .ok s') :
    pending_steps s' ≤ pending_steps s := by
  have := skip_inv (pending_invariant b (pending_steps s)) s.stop_layer n s ⟨rfl, le_refl _⟩
  rw [h] at this
  exact this.1.2

/-- The loop of `node` returns or aborts within `pending_steps + 1` units of
fuel. -/
theorem node_loop_fuel (b : Build) (name : String) (func : Option Nat) :
    ∀ (n : Nat) (s : XMLStructure), pending_steps s < n →
      node_loop b name func n s ≠ .out_of_fuel := by
  intro n
  induction n with
  | zero => intro s h; omega
  | succ n ih =>
    intro s h
    have hp := read_pending s
    rw [node_loop]
    rcases hread : s.read with ⟨r, s1⟩
    rw [hread] at hp
    cases r with
    | false =>
      dsimp only
      have := throw_eof_ne b s1
      cases h2 : throw_eof b s1 with
      | out_of_fuel => exact absurd h2 this
      | ok s2 => simp [Result.bind]
      | stop w s2 => simp [Result.bind]
    | true =>
      have hlt : pending_steps s1 < n := by have := hp.2 rfl; dsimp only at this; omega
      dsimp only
      split_ifs
      · cases func <;> simp
      · cases h2 : skip b n s1 with
        | out_of_fuel => exact absurd h2 (skip_fuel b n s1 hlt)
        | stop w s2 => simp [Result.bind]
        | ok s2 =>
          simp only [Result.bind]
          exact ih s2 (lt_of_le_of_lt (skip_pending b n s1 s2 h2) hlt)
      · exact ih s1 hlt

theorem node_loop_halts (b : Build) (name : String) (func : Option Nat) (s : XMLStructure) :
    Halts (fun n => (assert_no_callbacks b s).bind (node_loop b name func n)) := by
  refine halts_bind (f := fun _ => assert_no_callbacks b s)
    (k := fun n s1 => node_loop b name func n s1) (halts_const _ ?_) (fun _ s1 _ => ?_)
  · unfold assert_no_callbacks; split_ifs <;> simp
  · exact halts_of_mono (pending_steps s1 + 1) (node_loop_fuel b name func _ s1 (by omega))
      (fun m hm => node_loop_mono b name func m s1 hm)

theorem node_call_pending (b : Build) (n : Nat) (name : String) (func : Option Nat)
    (s s' : XMLStructure)
    (h : (assert_no_callbacks b s).bind (node_loop b name func n) = .ok s') :
    pending_steps s' ≤ pending_steps s := by
  have := node_inv (pending_invariant b (pending_steps s)) s.stop_layer n name func s
    ⟨rfl, le_refl _⟩
  rw [h] at this
  exact this.1.2

theorem close_body_pending (b : Build) (n : Nat) (s s' : XMLStructure)
    (h : do_each_to_close_body b (do_each_loop b n) s = .ok s') :
    pending_steps s' ≤ pending_steps s := by
  unfold do_each_to_close_body at h
  obtain ⟨s1, h1, h2⟩ := bind_eq_ok _ _ _ h
  have hs1 : s1 = s := by
    split_ifs at h1
    · exact throw_eof_eq_ok b s s1 h1
    · exact (Result.ok.inj h1).symm
  subst hs1
  split_ifs at h2
  · rw [← Result.ok.inj h2]
  · have := (invariant_all (pending_invariant b (pending_steps s1)) n).1 s1.stop_layer
      s1.get_current_node_layer s1 ⟨rfl, le_refl _⟩
    rw [h2] at this
    exact this.1.2

theorem each_lambda_pending (b : Build) (n : Nat) (e : EachCallback) (name : String)
    (s s' : XMLStructure) (hreg : s.each_callbacks ≠ [])
    (h : each_lambda (exec b n) e name s = .ok s') :
    pending_steps s' ≤ pending_steps s ∧ s'.each_callbacks ≠ [] := by
  have := each_lambda_inv (pending_invariant b (pending_steps s)) n
    (invariant_all (pending_invariant b (pending_steps s)) n).2.2 s.stop_layer e name s
    ⟨rfl, le_refl _⟩ hreg
  rw [h] at this
  refine ⟨this.1.2, ?_⟩
  obtain ⟨l, hl⟩ := this.2
  rw [hl]
  intro h0
  exact hreg (List.append_eq_nil.mp h0).1

theorem for_each_pending (b : Build) (n : Nat) (es : List EachCallback) (name : String)
    (s s' : XMLStructure) (hreg : es = [] ∨ s.each_callbacks ≠ [])
    (h : for_each b n es name s = .ok s') :
    pending_steps s' ≤ pending_steps s := by
  have := (invariant_all (pending_invariant b (pending_steps s)) n).2.1 s.stop_layer es name s
    ⟨rfl, le_refl _⟩ hreg
  rw [h] at this
  exact this.1.2

theorem loop_halts_step (b : Build) (M : Nat)
    (hl : ∀ (start : Int) (s1 : XMLStructure), pending_steps s1 < M →
      Halts (fun n => do_each_loop b n start s1))
    (he : ∀ (es : List EachCallback) (name : String) (s1 : XMLStructure),
      pending_steps s1 < M → (es = [] ∨ s1.each_callbacks ≠ []) →
      Halts (fun n => for_each b n es name s1)) :
    ∀ (start : Int) (s : XMLStructure), pending_steps s ≤ M →
      Halts (fun n => do_each_loop b n start s) := by
  intro start s hs
  apply halts_succ
  have hp := read_pending s
  rcases hread : s.read with ⟨r, s1⟩
  rw [hread] at hp
  cases r with
  | false =>
    have heq : (fun m => do_each_loop b (m + 1) start s) = fun _ => .ok s1 := by
      funext m; rw [do_each_loop, hread]
    rw [heq]
    exact halts_const _ (by simp)
  | true =>
    have hlt : pending_steps s1 < M := by have := hp.2 rfl; dsimp only at this; omega
    have hreg : s1.each_callbacks = [] ∨ s1.each_callbacks ≠ [] := by
      cases s1.each_callbacks with
      | nil => exact Or.inl rfl
      | cons x xs => exact Or.inr (by simp)
    cases hty : s1.reader.cur.type with
    | EXN_ELEMENT =>
      by_cases hd : s1.get_current_node_layer = start + 1
      · have heq : (fun m => do_each_loop b (m + 1) start s) = fun m =>
            (for_each b m s1.each_callbacks s1.reader.cur.name s1).bind
              (do_each_loop b m start) := by
          funext m; rw [do_each_loop, hread]; simp only [hty]; rw [if_pos hd]
        rw [heq]
        exact halts_bind (he _ _ s1 hlt hreg) (fun n s2 h2 =>
          hl start s2 (lt_of_le_of_lt (for_each_pending b n _ _ s1 s2 hreg h2) hlt))
      · have heq : (fun m => do_each_loop b (m + 1) start s) = fun m =>
            do_each_loop b m start s1 := by
          funext m; rw [do_each_loop, hread]; simp only [hty]; rw [if_neg hd]
        rw [heq]
        exact hl start s1 hlt
    | EXN_ELEMENT_END =>
      by_cases hd : s1.get_current_node_layer = start - 1
      · have heq : (fun m => do_each_loop b (m + 1) start s) = fun _ => .ok s1 := by
          funext m; rw [do_each_loop, hread]; simp only [hty]; rw [if_pos hd]
        rw [heq]
        exact halts_const _ (by simp)
      · have heq : (fun m => do_each_loop b (m + 1) start s) = fun m =>
            do_each_loop b m start s1 := by
          funext m; rw [do_each_loop, hread]; simp only [hty]; rw [if_neg hd]
        rw [heq]
        exact hl start s1 hlt
    | EXN_OTHER =>
      have heq : (fun m => do_each_loop b (m + 1) start s) = fun m =>
          do_each_loop b m start s1 := by
        funext m; rw [do_each_loop, hread]; simp only [hty]
      rw [heq]
      exact hl start s1 hlt

theorem exec_halts_step (b : Build) (M : Nat)
    (hl : ∀ (start : Int) (s : XMLStructure), pending_steps s ≤ M →
      Halts (fun n => do_each_loop b n start s)) :
    ∀ (cs : List Call) (s : XMLStructure), pending_steps s ≤ M →
      Halts (fun n => exec b n cs s) := by
  intro cs
  induction cs with
  | nil =>
    intro s _
    apply halts_succ
    have heq : (fun m => exec b (m + 1) [] s) = fun _ => .ok s := by funext m; rw [exec]
    rw [heq]
    exact halts_const _ (by simp)
  | cons c cs ih =>
    intro s hs
    apply halts_succ
    cases c with
    | node name =>
      have heq : (fun m => exec b (m + 1) (Call.node name :: cs) s) = fun m =>
          ((assert_no_callbacks b s).bind (node_loop b name none m)).bind (exec b m cs) := by
        funext m; rw [exec]; rfl
      rw [heq]
      exact halts_bind (node_loop_halts b name none s) (fun n s2 h2 =>
        ih s2 (le_trans (node_call_pending b n name none s s2 h2) hs))
    | node_func name func =>
      have heq : (fun m => exec b (m + 1) (Call.node_func name func :: cs) s) = fun m =>
          ((assert_no_callbacks b s).bind (node_loop b name (some func) m)).bind
            (exec b m cs) := by
        funext m; rw [exec]; rfl
      rw [heq]
      exact halts_bind (node_loop_halts b name (some func) s) (fun n s2 h2 =>
        ih s2 (le_trans (node_call_pending b n name (some func) s s2 h2) hs))
    | each name func1 func2 body =>
      have heq : (fun m => exec b (m + 1) (Call.each name func1 func2 body :: cs) s) =
          fun m => exec b m cs (s.each name func1 (func2.map (fun id => ⟨id, body⟩))) := by
        funext m; rw [exec]
      rw [heq]
      exact ih _ hs
    | close =>
      have heq : (fun m => exec b (m + 1) (Call.close :: cs) s) = fun m =>
          (do_each_to_close_body b (do_each_loop b m) s).bind (exec b m cs) := by
        funext m; rw [exec]
      rw [heq]
      refine halts_bind ?_ (fun n s2 h2 => ih s2 (le_trans (close_body_pending b n s s2 h2) hs))
      unfold do_each_to_close_body
      refine halts_bind (f := fun _ => if s.last_read_invalid = true then throw_eof b s
        else .ok s) (k := fun m s1 => if s1.reader.cur.empty = true then .ok s1
        else do_each_loop b m s1.get_current_node_layer s1) (halts_const _ ?_) ?_
      · split_ifs
        · exact throw_eof_ne b s
        · simp
      · intro _ s1 h1
        have hs1 : s1 = s := by
          split_ifs at h1
          · exact throw_eof_eq_ok b s s1 h1
          · exact (Result.ok.inj h1).symm
        subst hs1
        dsimp only
        split_ifs
        · exact halts_const _ (by simp)
        · exact hl _ s1 hs

theorem each_lambda_halts (b : Build) (M : Nat)
    (hx : ∀ (cs : List Call) (s : XMLStructure), pending_steps s ≤ M →
      Halts (fun n => exec b n cs s))
    (e : EachCallback) (name : String) (s : XMLStructure) (hs : pending_steps s ≤ M) :
    Halts (fun n => each_lambda (exec b n) e name s) := by
  unfold each_lambda
  split_ifs
  swap
  · exact halts_const _ (by simp)
  have h1 : ∀ s1 : XMLStructure, pending_steps s1 ≤ M →
      Halts (fun n =>
        match e.func2 with
        | some g =>
          if s1.reader.cur.empty = false then
            (exec b n g.body
              { s1.set_new_bound s1.get_current_node_layer with
                trace := (s1.set_new_bound s1.get_current_node_layer).trace ++
                  [Event.enter g.id (s1.set_new_bound s1.get_current_node_layer).reader.cur
                    (s1.set_new_bound s1.get_current_node_layer).reader.pos
                    (s1.set_new_bound s1.get_current_node_layer).stop_layer] }).bind
              (fun s4 =>
                .ok { s4.set_new_bound s1.get_current_bound with
                      trace := (s4.set_new_bound s1.get_current_bound).trace ++
                        [Event.leave g.id (s4.set_new_bound s1.get_current_bound).current_layer
                          (s4.set_new_bound s1.get_current_bound).last_read_invalid
                          (s4.set_new_bound s1.get_current_bound).stop_layer] })
          else .ok s1
        | none => .ok s1) := by
    intro s1 hs1
    cases hg : e.func2 with
    | none => exact halts_const _ (by simp)
    | some g =>
      dsimp only
      split_ifs
      · exact halts_bind (hx g.body _ hs1) (fun _ s4 _ => halts_const _ (by simp))
      · exact halts_const _ (by simp)
  cases hf1 : e.func1 with
  | none => exact h1 s hs
  | some f => exact h1 (call_node_processor f s) hs

theorem each_halts_step (b : Build) (M : Nat)
    (hx : ∀ (cs : List Call) (s : XMLStructure), pending_steps s ≤ M →
      Halts (fun n => exec b n cs s)) :
    ∀ (es : List EachCallback) (name : String) (s : XMLStructure), pending_steps s ≤ M →
      (es = [] ∨ s.each_callbacks ≠ []) → Halts (fun n => for_each b n es name s) := by
  intro es
  induction es with
  | nil =>
    intro name s _ _
    apply halts_succ
    have heq : (fun m => for_each b (m + 1) [] name s) = fun _ => .ok s := by
      funext m; rw [for_each]
    rw [heq]
    exact halts_const _ (by simp)
  | cons e es ih =>
    intro name s hs hreg
    have hne : s.each_callbacks ≠ [] := hreg.resolve_left (by simp)
    apply halts_succ
    have heq : (fun m => for_each b (m + 1) (e :: es) name s) = fun m =>
        (each_lambda (exec b m) e name s).bind (for_each b m es name) := by
      funext m; rw [for_each]
    rw [heq]
    refine halts_bind (each_lambda_halts b M hx e name s hs) (fun n s2 h2 => ?_)
    obtain ⟨h3, h4⟩ := each_lambda_pending b n e name s s2 hne h2
    exact ih name s2 (le_trans h3 hs) (Or.inr h4)

/-- Every loop of `do_each_to_close`, every dispatch and every sequence of
calls halts, whatever the registry holds. -/
theorem halting (b : Build) :
    ∀ M : Nat,
      (∀ (start : Int) (s : XMLStructure), pending_steps s ≤ M →
        Halts (fun n => do_each_loop b n start s)) ∧
      (∀ (es : List EachCallback) (name : String) (s : XMLStructure), pending_steps s ≤ M →
        (es = [] ∨ s.each_callbacks ≠ []) → Halts (fun n => for_each b n es name s)) ∧
      (∀ (cs : List Call) (s : XMLStructure), pending_steps s ≤ M →
        Halts (fun n => exec b n cs s)) := by
  intro M
  induction M with
  | zero =>
    have hl := loop_halts_step b 0 (fun _ _ h => absurd h (Nat.not_lt_zero _))
      (fun _ _ _ h => absurd h (Nat.not_lt_zero _))
    have hx := exec_halts_step b 0 hl
    exact ⟨hl, each_halts_step b 0 hx, hx⟩
  | succ M ih =>
    have hl := loop_halts_step b (M + 1) (fun start s1 h => ih.1 start s1 (by omega))
      (fun es name s1 h hreg => ih.2.1 es name s1 (by omega) hreg)
    have hx := exec_halts_step b (M + 1) hl
    exact ⟨hl, each_halts_step b (M + 1) hx, hx⟩

/-- With immediate callbacks only, the loop of `do_each_to_close` returns
within `pending_steps + 1` units of fuel beyond those the dispatch of one
child needs. -/
theorem do_each_loop_fuel (b : Build) (start : Int) :
    ∀ (n : Nat) (s : XMLStructure), (∀ c ∈ s.each_callbacks, c.func2 = none) →
      pending_steps s + s.each_callbacks.length < n →
      do_each_loop b n start s ≠ .out_of_fuel := by
  intro n
  induction n with
  | zero => intro s _ h; omega
  | succ n ih =>
    intro s himm h
    have hp := read_pending s
    have hreg := (read_registry s).1
    rw [do_each_loop]
    rcases hread : s.read with ⟨r, s1⟩
    rw [hread] at hp hreg
    dsimp only at hreg
    cases r with
    | false => simp
    | true =>
      have hlt : pending_steps s1 + s1.each_callbacks.length < n := by
        have := hp.2 rfl; dsimp only at this; rw [hreg]; omega
      have himm1 : ∀ c ∈ s1.each_callbacks, c.func2 = none := by rw [hreg]; exact himm
      dsimp only
      split
      · split_ifs
        · rw [for_each_quiet b s1.each_callbacks n s1 (by omega)
            (fun e he _ => Or.inl (himm1 e he))]
          simp only [Result.bind]
          exact ih _ himm1 hlt
        · exact ih s1 himm1 hlt
      · split_ifs
        · simp
        · exact ih s1 himm1 hlt
      · exact ih s1 himm1 hlt

end termination_proofs

/-! ## Claims -/

section claims
open XMLStructure

/-- C1 (dispatch order, single subscription): on a non-self-closing scope
element with the Pushback Flag clear (and Scope Bound ≤ Depth) whose subtree
is well formed, with the registry holding exactly one subscription
`each(n, cb)` that has only an immediate callback, `close()` returns and has
invoked `cb` exactly once for each direct child start-element named `n`, in
document order, each time on that child (its token and its position), and
for nothing else; the reader ends on the scope's end-event. -/
theorem close_dispatch_single (b : Build) (fuel : Nat) (s : XMLStructure)
    (body : List Token) (e : Token) (after : List Token) (n : String) (cb : Nat)
    (_hty : s.reader.cur.type = EXN_ELEMENT)
    (hne : s.reader.cur.empty = false)
    (hf : s.last_read_invalid = false)
    (hbound : s.stop_layer ≤ s.current_layer)
    (hr : s.reader.rest = body ++ e :: after)
    (hb : balanced 0 body = true)
    (he : e.type = EXN_ELEMENT_END)
    (hreg : s.each_callbacks = [⟨n, some cb, none⟩])
    (hfuel : body.length + 3 ≤ fuel) :
    ∃ s', close b fuel s = .ok s' ∧
      s'.trace = s.trace ++
        ((children 0 s.reader.pos body).filter (fun c => c.2.name = n)).map
          (fun c => Event.immediate cb c.2 c.1) ∧
      s'.reader = ⟨e, after, s.reader.pos + body.length + 1⟩ := by
  have hq : ∀ c ∈ children 0 s.reader.pos body, quiet s.each_callbacks c.2 :=
    fun c _ => quiet_of_no_nested _ _ (by simp [hreg])
  refine ⟨_, close_quiet b fuel s body e after hne hf hbound hr hb he hq
    (by simp [hreg]; omega), ?_, rfl⟩
  simp [hreg, dispatch_spec_single]

/-- Witness of C1: the spec's scenario `<root><a x="1"/><b><c/></b><a x="2"/></root>`
with `each("a", cb)` observes `x=1` then `x=2`, and children `[A, B, A, C]`
with a subscription on `A` fire exactly twice. -/
theorem close_dispatch_single_witness :
    (∃ s', close debug_build 8 (scenario_at_root [⟨"a", some 0, none⟩]) = .ok s' ∧
      s'.trace = [Event.immediate 0 (tEmpty "a" [("x", "1")]) 2,
                  Event.immediate 0 (tEmpty "a" [("x", "2")]) 6] ∧
      s'.trace.map (fun ev => match ev with
        | Event.immediate _ v _ => v.str_attr "x"
        | _ => "") = ["1", "2"]) ∧
    (∃ s', close debug_build 10 (abac_at_scope [⟨"A", some 0, none⟩]) = .ok s' ∧
      s'.trace = [Event.immediate 0 (tEmpty "A" [("k", "first")]) 2,
                  Event.immediate 0 (tStart "A" [("k", "second")]) 5]) := by
  constructor
  · obtain ⟨s', h1, h2, _⟩ := close_dispatch_single debug_build 8
      (scenario_at_root [⟨"a", some 0, none⟩])
      [tEmpty "a" [("x", "1")], tStart "b" [], tEmpty "c" [], tEnd "b", tEmpty "a" [("x", "2")]]
      (tEnd "root") [] "a" 0 rfl rfl rfl (by decide) rfl rfl rfl rfl (by decide)
    have h3 : s'.trace = [Event.immediate 0 (tEmpty "a" [("x", "1")]) 2,
        Event.immediate 0 (tEmpty "a" [("x", "2")]) 6] := h2.trans (by decide)
    exact ⟨s', h1, h3, by rw [h3]; decide⟩
  · obtain ⟨s', h1, h2, _⟩ := close_dispatch_single debug_build 10
      (abac_at_scope [⟨"A", some 0, none⟩])
      [tEmpty "A" [("k", "first")], tStart "B" [], tEnd "B", tStart "A" [("k", "second")],
       tEmpty "A" [("k", "inner")], tEnd "A", tEmpty "C" []]
      (tEnd "S") [] "A" 0 rfl rfl rfl (by decide) rfl rfl rfl rfl (by decide)
    exact ⟨s', h1, h2.trans (by decide)⟩

/-- C2 (fan-out in registration order): on a non-self-closing scope element
with the Pushback Flag clear (and Scope Bound ≤ Depth) whose subtree is well
formed, for every list of subscriptions without nested callbacks (duplicate
names allowed), the invocations made by `close()` are exactly: the direct
children in document order and, for each child, the subscriptions whose
name equals the child's name, in registration order. -/
theorem close_fan_out (b : Build) (fuel : Nat) (s : XMLStructure)
    (body : List Token) (e : Token) (after : List Token)
    (_hty : s.reader.cur.type = EXN_ELEMENT)
    (hne : s.reader.cur.empty = false)
    (hf : s.last_read_invalid = false)
    (hbound : s.stop_layer ≤ s.current_layer)
    (hr : s.reader.rest = body ++ e :: after)
    (hb : balanced 0 body = true)
    (he : e.type = EXN_ELEMENT_END)
    (himm : ∀ c ∈ s.each_callbacks, c.func2 = none)
    (hfuel : body.length + s.each_callbacks.length + 2 ≤ fuel) :
    ∃ s', close b fuel s = .ok s' ∧
      s'.trace = s.trace ++
        dispatch_spec s.each_callbacks (children 0 s.reader.pos body) := by
  exact ⟨_, close_quiet b fuel s body e after hne hf hbound hr hb he
    (fun c _ => quiet_of_no_nested _ _ himm) hfuel, rfl⟩

/-- Witness of C2: two subscriptions both named `A` (ids 0 then 1) and one
named `C` on children `[A, B, A, C]`: both fire for each `A` child, the
earlier-registered one first. -/
theorem close_fan_out_witness :
    ∃ s', close debug_build 12
        (abac_at_scope [⟨"A", some 0, none⟩, ⟨"C", some 2, none⟩, ⟨"A", some 1, none⟩]) = .ok s' ∧
      s'.trace = [Event.immediate 0 (tEmpty "A" [("k", "first")]) 2,
                  Event.immediate 1 (tEmpty "A" [("k", "first")]) 2,
                  Event.immediate 0 (tStart "A" [("k", "second")]) 5,
                  Event.immediate 1 (tStart "A" [("k", "second")]) 5,
                  Event.immediate 2 (tEmpty "C" []) 8] := by
  obtain ⟨s', h1, h2⟩ := close_fan_out debug_build 12
    (abac_at_scope [⟨"A", some 0, none⟩, ⟨"C", some 2, none⟩, ⟨"A", some 1, none⟩])
    [tEmpty "A" [("k", "first")], tStart "B" [], tEnd "B", tStart "A" [("k", "second")],
     tEmpty "A" [("k", "inner")], tEnd "A", tEmpty "C" []]
    (tEnd "S") [] rfl rfl rfl (by decide) rfl rfl rfl (by simp [abac_at_scope]) (by decide)
  exact ⟨s', h1, h2.trans (by decide)⟩

/-- C7 (a self-closing element has no subtree): when the current element is a
self-closing start-element and the Pushback Flag is clear, `close()` and
`skip()` both return at once with the navigator exactly as it was (no token
consumed, no callback invoked, Depth, Scope Bound, flag and registry
unchanged), whatever the registry holds. -/
theorem self_closing_no_subtree (b : Build) (fuel : Nat) (s : XMLStructure)
    (_hty : s.reader.cur.type = EXN_ELEMENT)
    (hem : s.reader.cur.empty = true)
    (hf : s.last_read_invalid = false) :
    close b fuel s = .ok s ∧ skip b fuel s = .ok s := by
  constructor
  · simp [close, do_each_to_close, do_each_to_close_body, hf, hem, Result.bind]
  · simp [skip, hem]

/-- Witness of C7: `<leaf/>` as the current element, with a subscription (with
a nested callback) registered and tokens still to read. -/
theorem self_closing_no_subtree_witness :
    close debug_build 0
        { reader := ⟨tEmpty "leaf" [], [tEmpty "leaf" [], tEnd "root"], 2⟩,
          each_callbacks := [⟨"leaf", some 0, some ⟨1, [Call.close]⟩⟩],
          current_layer := 1 } =
      .ok { reader := ⟨tEmpty "leaf" [], [tEmpty "leaf" [], tEnd "root"], 2⟩,
            each_callbacks := [⟨"leaf", some 0, some ⟨1, [Call.close]⟩⟩],
            current_layer := 1 } ∧
    skip debug_build 0
        { reader := ⟨tEmpty "leaf" [], [tEmpty "leaf" [], tEnd "root"], 2⟩,
          each_callbacks := [⟨"leaf", some 0, some ⟨1, [Call.close]⟩⟩],
          current_layer := 1 } =
      .ok { reader := ⟨tEmpty "leaf" [], [tEmpty "leaf" [], tEnd "root"], 2⟩,
            each_callbacks := [⟨"leaf", some 0, some ⟨1, [Call.close]⟩⟩],
            current_layer := 1 } :=
  self_closing_no_subtree debug_build 0 _ rfl rfl rfl

/-- C8, counterexample: in the header's own build (`XML_USE_CPP_EXCEPTION` not
defined) `throw_eof()` does nothing, and `close()` entered with the Pushback
Flag set does not fail: on `</A>` pushed back at Depth 1 under Scope Bound -1
it releases the pushback, reads `<a/>` and `</root>`, invokes the subscription
on `a` and returns. -/
theorem close_with_pushback_returns :
    ∃ s', close plain_build 5
        { reader := ⟨tEnd "A", [tEmpty "a" [], tEnd "root"], 4⟩,
          each_callbacks := [⟨"a", some 0, none⟩],
          last_read_invalid := true, current_layer := 1 } = .ok s' ∧
      s'.reader.pos = 6 ∧ s'.reader.rest = [] ∧
      s'.trace = [Event.immediate 0 (tEmpty "a" []) 5] ∧
      s'.last_read_invalid = false ∧ s'.current_layer = 0 :=
  ⟨_, rfl, rfl, rfl, rfl, rfl, rfl⟩

/-- C8 (amended): in the build where `throw_eof` throws
(`XML_USE_CPP_EXCEPTION` defined), with subscriptions that carry no nested
callbacks and for every state and token stream, `close()` fails with
end-of-input if and only if the Pushback Flag is set on entry; when it fails
the navigator is exactly as it was; with the flag clear it returns normally,
also when the tokens run out (with none left it returns at once,
unchanged). -/
theorem close_fails_iff_pushback (b : Build) (fuel : Nat) (s : XMLStructure)
    (hexc : b.XML_USE_CPP_EXCEPTION = true)
    (himm : ∀ c ∈ s.each_callbacks, c.func2 = none)
    (hfuel : s.reader.rest.length + s.each_callbacks.length + 1 ≤ fuel) :
    ((∃ s', close b fuel s = .stop .XMLEOF s') ↔ s.last_read_invalid = true) ∧
    (s.last_read_invalid = true → close b fuel s = .stop .XMLEOF s) ∧
    (s.last_read_invalid = false → ∃ s', close b fuel s = .ok s') ∧
    (s.last_read_invalid = false → s.reader.rest = [] → close b fuel s = .ok s) := by
  have hset : s.last_read_invalid = true → close b fuel s = .stop .XMLEOF s := by
    intro hf
    simp [close, do_each_to_close, do_each_to_close_body, hf, throw_eof, hexc, Result.bind]
  have hclear : s.last_read_invalid = false → ∃ s', close b fuel s = .ok s' := by
    intro hf
    simp only [close, do_each_to_close, do_each_to_close_body, hf, Bool.false_eq_true,
      if_false, Result.bind]
    split
    · exact ⟨s, rfl⟩
    · exact do_each_loop_returns b _ _ fuel s hf rfl himm hfuel
  refine ⟨⟨?_, fun hf => ⟨s, hset hf⟩⟩, hset, hclear, ?_⟩
  · rintro ⟨s', h⟩
    by_contra hf
    obtain ⟨s'', h'⟩ := hclear (by simpa using hf)
    rw [h'] at h
    cases h
  · intro hf hr
    obtain ⟨f, rfl⟩ : ∃ f, fuel = f + 1 := ⟨fuel - 1, by omega⟩
    simp only [close, do_each_to_close, do_each_to_close_body, hf, Bool.false_eq_true,
      if_false, Result.bind]
    split
    · rfl
    · rw [do_each_loop, read_eof s hf hr]

/-- Witness of C8 (amended): with the flag set `close()` throws; the same navigator with
the flag clear returns although the document ends before the scope's
end-event. -/
theorem close_fails_iff_pushback_witness :
    close debug_build 3
        { reader := ⟨tEnd "a", [tText], 3⟩, each_callbacks := [⟨"a", some 0, none⟩],
          last_read_invalid := true, current_layer := 0, stop_layer := 1 } =
      .stop .XMLEOF
        { reader := ⟨tEnd "a", [tText], 3⟩, each_callbacks := [⟨"a", some 0, none⟩],
          last_read_invalid := true, current_layer := 0, stop_layer := 1 } ∧
    ∃ s', close debug_build 3
        { reader := ⟨tStart "a" [], [tText], 3⟩, each_callbacks := [⟨"a", some 0, none⟩],
          current_layer := 1 } = .ok s' :=
  ⟨(close_fails_iff_pushback debug_build 3
      { reader := ⟨tEnd "a", [tText], 3⟩, each_callbacks := [⟨"a", some 0, none⟩],
        last_read_invalid := true, current_layer := 0, stop_layer := 1 }
      rfl (by simp) (by decide)).2.1 rfl,
   (close_fails_iff_pushback debug_build 3
      { reader := ⟨tStart "a" [], [tText], 3⟩, each_callbacks := [⟨"a", some 0, none⟩],
        current_layer := 1 }
      rfl (by simp) (by decide)).2.2.1 rfl⟩

/-- C9 (`each` only registers): `each(name, func1, func2)` appends exactly the
subscription `(name, func1, func2)` at the end of the registry, keeping all
earlier entries in order (duplicates included), and leaves the reader, Depth,
Scope Bound, Pushback Flag and the invocation record as they were; as a call
made by a callback it always returns normally with that navigator. -/
theorem each_only_registers (s : XMLStructure) (name : String) (func1 : NodeProcessor)
    (func2 : Option StructureProcessor) :
    (s.each name func1 func2).each_callbacks = s.each_callbacks ++ [⟨name, func1, func2⟩] ∧
    (s.each name func1 func2).reader = s.reader ∧
    (s.each name func1 func2).current_layer = s.current_layer ∧
    (s.each name func1 func2).stop_layer = s.stop_layer ∧
    (s.each name func1 func2).last_read_invalid = s.last_read_invalid ∧
    (s.each name func1 func2).trace = s.trace ∧
    (∀ (b : Build) (fuel : Nat) (id : Option Nat) (body : List Call),
      exec b (fuel + 2) [Call.each name func1 id body] s =
        .ok (s.each name func1 (id.map (fun i => ⟨i, body⟩)))) := by
  refine ⟨rfl, rfl, rfl, rfl, rfl, rfl, ?_⟩
  intro b fuel id body
  simp [exec]

/-- C6 (skip correctness): on a non-self-closing current start-element whose
subtree `body` is well formed, with the Pushback Flag clear and the Scope
Bound at or below the element's parent depth, `skip()` returns normally
having consumed exactly `body` and the element's own end-event `e` (as many
end-events as `body` has non-self-closing start-events, plus its own), has
lowered Depth by exactly one, leaves flag, bound, registry and invocation
record untouched, and the next step delivers the first token after the
subtree. -/
theorem skip_correct (b : Build) (fuel : Nat) (s : XMLStructure)
    (body : List Token) (e : Token) (after : List Token)
    (_hty : s.reader.cur.type = EXN_ELEMENT)
    (hne : s.reader.cur.empty = false)
    (hf : s.last_read_invalid = false)
    (hbound : s.stop_layer ≤ s.current_layer - 1)
    (hr : s.reader.rest = body ++ e :: after)
    (hb : balanced 0 body = true)
    (he : e.type = EXN_ELEMENT_END)
    (hfuel : body.length + 1 ≤ fuel) :
    skip b fuel s = .ok
        { s with reader := ⟨e, after, s.reader.pos + body.length + 1⟩,
                 current_layer := s.current_layer - 1 } ∧
    (body ++ [e]).countP Token.closes = body.countP Token.opens + 1 ∧
    (∀ t ts, after = t :: ts →
      (read { s with reader := ⟨e, after, s.reader.pos + body.length + 1⟩,
                     current_layer := s.current_layer - 1 }).2.reader =
        ⟨t, ts, s.reader.pos + body.length + 2⟩) := by
  refine ⟨?_, ?_, ?_⟩
  · have := skip_loop_balanced b e after he body 0 fuel s hf hr hb (by simpa using hbound) hfuel
    simp only [skip, hne, Bool.false_eq_true, if_false]
    simpa using this
  · have := balanced_count body 0 hb
    simp [List.countP_append, Token.closes, he, this]
  · intro t ts hafter
    exact (read_cons { s with reader := ⟨e, after, s.reader.pos + body.length + 1⟩,
                              current_layer := s.current_layer - 1 } t ts hf hafter).1

/-- Witness of C6: skipping `<b>` in `<root><b><c/><d>text</d></b><a/></root>`:
one nested non-self-closing start, two end-events consumed, the next step
is on `<a/>`. -/
theorem skip_correct_witness :
    skip debug_build 6
        { reader := ⟨tStart "b" [], [tEmpty "c" [], tStart "d" [], tText, tEnd "d", tEnd "b",
                       tEmpty "a" [], tEnd "root"], 2⟩,
          current_layer := 2 } =
      .ok { reader := ⟨tEnd "b", [tEmpty "a" [], tEnd "root"], 7⟩, current_layer := 1 } ∧
    (read { reader := ⟨tEnd "b", [tEmpty "a" [], tEnd "root"], 7⟩,
            current_layer := 1 }).2.reader = ⟨tEmpty "a" [], [tEnd "root"], 8⟩ := by
  have h := skip_correct debug_build 6
    { reader := ⟨tStart "b" [], [tEmpty "c" [], tStart "d" [], tText, tEnd "d", tEnd "b",
                   tEmpty "a" [], tEnd "root"], 2⟩,
      current_layer := 2 }
    [tEmpty "c" [], tStart "d" [], tText, tEnd "d"] (tEnd "b") [tEmpty "a" [], tEnd "root"]
    rfl rfl rfl (by decide) rfl rfl rfl (by decide)
  exact ⟨h.1, h.2.2 _ _ rfl⟩

/-- Counterexample to C5 as stated: on `<root><A><x/></A></root>` the nested
callback of `each("A", nested)` is handed the scope `<A>` (Scope Bound 2 =
its Node Depth) and drains it with `close()`; when that `close()` returns
Depth is 1 = startDepth - 1 but the Pushback Flag is set (the `leave` record
of the full traversal shows the same). -/
theorem close_in_nested_scope_sets_pushback :
    (∃ s', close debug_build 12 (nested_doc_in_callback [Call.close]) = .ok s' ∧
      s'.current_layer = 1 ∧ s'.last_read_invalid = true ∧
      s'.reader = ⟨tEnd "A", [tEnd "root"], 4⟩) ∧
    (∃ s', run debug_build 12 nested_doc
        [Call.node "root", Call.each "A" none (some 1) [Call.close], Call.close] = .ok s' ∧
      s'.trace = [Event.enter 1 (tStart "A" []) 2 2, Event.leave 1 1 true (-1)]) :=
  ⟨⟨_, rfl, rfl, rfl, rfl⟩, ⟨_, rfl, rfl⟩⟩

/-- C5, amended (depth conservation of `close`): on a non-self-closing scope
element with the Pushback Flag clear and Scope Bound ≤ Depth, whose subtree
is well formed.  (1) With a registry in which no two subscriptions carrying
a nested callback share a name and nested callbacks register immediate
callbacks only, whenever `close()` returns, Depth = startDepth - 1
(startDepth the Node Depth of the scope element at entry), the reader is on
the scope's end-event, the Scope Bound is unchanged, and the Pushback Flag
is false when the Scope Bound is below startDepth (a scope reached with
`node` at root level) and true when it equals startDepth (the scope handed
to a nested callback).  (2) When no nested callback fires for a direct
child, `close()` does return, in that state. -/
theorem close_depth_conservation (b : Build) (fuel : Nat) (s : XMLStructure)
    (body : List Token) (e : Token) (after : List Token)
    (_hty : s.reader.cur.type = EXN_ELEMENT)
    (hne : s.reader.cur.empty = false)
    (hf : s.last_read_invalid = false)
    (hbound : s.stop_layer ≤ s.current_layer)
    (hr : s.reader.rest = body ++ e :: after)
    (hb : balanced 0 body = true)
    (he : e.type = EXN_ELEMENT_END) :
    (tame s.each_callbacks →
      ∀ s' : XMLStructure, close b fuel s = .ok s' → close_post s e after s') ∧
    ((∀ c ∈ children 0 s.reader.pos body, quiet s.each_callbacks c.2) →
      body.length + s.each_callbacks.length + 2 ≤ fuel →
      ∃ s' : XMLStructure, close b fuel s = .ok s' ∧ close_post s e after s') := by
  constructor
  · intro htame s' h
    exact close_tame b fuel s s' body e after hne hf hbound hr hb he htame h
  · intro hq hfuel
    refine ⟨_, close_quiet b fuel s body e after hne hf hbound hr hb he hq hfuel,
      ?_, rfl, ?_, ?_, rfl, rfl⟩
    · simp [node_layer_open s hne]
    · intro h
      rw [node_layer_open s hne] at h
      simp only [decide_eq_false_iff_not]
      omega
    · intro h
      rw [node_layer_open s hne] at h
      simp only [decide_eq_true_eq]
      omega

/-- Witness of C5 (amended): the scope `<root>` of the scenario document,
reached at root level; the scope `<root>` of `<root><A><x/></A></root>`
while the nested callback of `each("A", nested)` fires and drains `<A>`;
and the scope `<A>` handed to that nested callback (flag set afterwards). -/
theorem close_depth_conservation_witness :
    (∃ s', close debug_build 8 (scenario_at_root [⟨"a", some 0, none⟩]) = .ok s' ∧
      s'.current_layer = 0 ∧ s'.last_read_invalid = false) ∧
    (∃ s', close debug_build 12 (nested_doc_at_root [Call.close]) = .ok s' ∧
      s'.current_layer = 0 ∧ s'.last_read_invalid = false ∧
      s'.trace = [Event.enter 1 (tStart "A" []) 2 2, Event.leave 1 1 true (-1)]) ∧
    (∃ s', close debug_build 8 (nested_doc_in_callback [Call.close]) = .ok s' ∧
      s'.current_layer = 1 ∧ s'.last_read_invalid = true) := by
  refine ⟨?_, ?_, ?_⟩
  · obtain ⟨s', h1, h2, _, h4, _⟩ := (close_depth_conservation debug_build 8
      (scenario_at_root [⟨"a", some 0, none⟩])
      [tEmpty "a" [("x", "1")], tStart "b" [], tEmpty "c" [], tEnd "b", tEmpty "a" [("x", "2")]]
      (tEnd "root") [] rfl rfl rfl (by decide) rfl rfl rfl).2
      (fun c _ => quiet_of_no_nested _ _ (by simp [scenario_at_root])) (by decide)
    exact ⟨s', h1, h2, h4 (by decide)⟩
  · have hrun : close debug_build 12 (nested_doc_at_root [Call.close]) = .ok
        { reader := ⟨tEnd "root", [], 5⟩,
          each_callbacks := [⟨"A", none, some ⟨1, [Call.close]⟩⟩],
          current_layer := 0,
          trace := [Event.enter 1 (tStart "A" []) 2 2, Event.leave 1 1 true (-1)] } := rfl
    obtain ⟨h2, _, h4, _⟩ := (close_depth_conservation debug_build 12
      (nested_doc_at_root [Call.close]) [tStart "A" [], tEmpty "x" [], tEnd "A"]
      (tEnd "root") [] rfl rfl rfl (by decide) rfl rfl rfl).1
      (by simp [tame, nested_names, flat_bodies, nested_doc_at_root, Call.flat]) _ hrun
    exact ⟨_, hrun, h2, h4 (by decide), rfl⟩
  · obtain ⟨s', h1, h2, _, _, h5, _⟩ := (close_depth_conservation debug_build 8
      (nested_doc_in_callback [Call.close]) [tEmpty "x" []] (tEnd "A") [tEnd "root"]
      rfl rfl rfl (by decide) rfl rfl rfl).2
      (by
        intro c hc e he hn
        simp [children, tEmpty, nested_doc_in_callback] at hc
        subst hc
        right; rfl)
      (by decide)
    exact ⟨s', h1, h2, h5 rfl⟩

/-- C3 (`node` success postcondition): with an empty registry, on every token
stream and in every state in which a pending pushback is not on a
start-event, for both overloads of `node` (`func = none` is `node(name)`,
`func = some f` is `node(name, f)`): whenever `node` returns normally the
reference search has found an offset `k`, the reader is on the token at
offset `k` of the tokens that were unread, a start-event whose name equals
`name` exactly, every token before it has been consumed, and the invocation
record has grown by exactly one call of `f` on that element (by nothing for
`node(name)`).  With fuel for the unread tokens the call ends within the
fuel, and (flag clear) returns normally whenever the reference search finds
an element. -/
theorem node_success (b : Build) (fuel : Nat) (name : String) (func : Option Nat)
    (s : XMLStructure)
    (hreg : s.each_callbacks = [])
    (hinv : s.last_read_invalid = true → s.reader.cur.type ≠ EXN_ELEMENT) :
    (∀ s' : XMLStructure, (match func with
        | none => node b fuel name s
        | some f => node_func b fuel name f s) = .ok s' →
      ∃ k, search name s.stop_layer 0 s.current_layer s.reader.rest = .found k ∧
        s'.reader.cur :: s'.reader.rest = s.reader.rest.drop k ∧
        s'.reader.pos = s.reader.pos + k + 1 ∧
        s'.reader.cur.type = EXN_ELEMENT ∧ s'.reader.cur.name = name ∧
        s'.trace = s.trace ++ (match func with
          | some f => [Event.immediate f s'.reader.cur s'.reader.pos]
          | none => [])) ∧
    (s.reader.rest.length + 3 ≤ fuel →
      (match func with
        | none => node b fuel name s
        | some f => node_func b fuel name f s) ≠ .out_of_fuel) ∧
    (s.reader.rest.length + 3 ≤ fuel → s.last_read_invalid = false →
      ∀ k, search name s.stop_layer 0 s.current_layer s.reader.rest = .found k →
        ∃ s' : XMLStructure, (match func with
          | none => node b fuel name s
          | some f => node_func b fuel name f s) = .ok s') := by
  rw [node_eq_loop b fuel name func s (Or.inr hreg)]
  have key : ∀ F, s.reader.rest.length + 3 ≤ F →
      node_loop b name func F s ≠ .out_of_fuel ∧
      (∀ s' : XMLStructure, node_loop b name func F s = .ok s' →
        ∃ k, search name s.stop_layer 0 s.current_layer s.reader.rest = .found k ∧
          s'.reader.cur :: s'.reader.rest = s.reader.rest.drop k ∧
          s'.reader.pos = s.reader.pos + k + 1 ∧
          s'.reader.cur.type = EXN_ELEMENT ∧ s'.reader.cur.name = name ∧
          s'.trace = s.trace ++ (match func with
            | some f => [Event.immediate f s'.reader.cur s'.reader.pos]
            | none => [])) ∧
      (s.last_read_invalid = false →
        ∀ k, search name s.stop_layer 0 s.current_layer s.reader.rest = .found k →
          ∃ s' : XMLStructure, node_loop b name func F s = .ok s') := by
    intro F hF
    rcases node_loop_any b name func F s hinv hF with h | ⟨hf, h⟩
    · revert h
      generalize search name s.stop_layer 0 s.current_layer s.reader.rest = sr
      generalize node_loop b name func F s = res
      intro h
      cases sr <;> cases res <;> simp [node_post] at h ⊢
      obtain ⟨h1, h2, h3, h4, h5, _⟩ := h
      exact ⟨h1, h2, h3, h4, h5⟩
    · rw [h]
      simp [hf]
  refine ⟨?_, fun hF => (key fuel hF).1, fun hF => (key fuel hF).2.2⟩
  intro s' hok
  have hne : node_loop b name func fuel s ≠ .out_of_fuel := by rw [hok]; simp
  have hbig := node_loop_mono_add b name func fuel s hne (s.reader.rest.length + 3)
  exact (key (fuel + (s.reader.rest.length + 3)) (by omega)).2.1 s' (by rw [hbig, hok])

/-- Witness of C3: on `search_doc` a fresh navigator asked for `node("b", f)`
skips `<a>` with the `b` nested in it and `<B>`, and returns on
`<b x="outer"/>`, the token at offset 6, with `f` called once on it. -/
theorem node_success_witness :
    ∃ k, search "b" (-1) 0 0 search_doc = .found k ∧
      [tEmpty "b" [("x", "outer")], tEmpty "b" []] = search_doc.drop k ∧
      7 = 0 + k + 1 ∧
      (tEmpty "b" [("x", "outer")]).type = EXN_ELEMENT ∧
      (tEmpty "b" [("x", "outer")]).name = "b" ∧
      [Event.immediate 4 (tEmpty "b" [("x", "outer")]) 7] =
        [] ++ [Event.immediate 4 (tEmpty "b" [("x", "outer")]) 7] :=
  (node_success debug_build 11 "b" (some 4) (create (open_reader search_doc)) rfl
    (by decide)).1
    { reader := ⟨tEmpty "b" [("x", "outer")], [tEmpty "b" []], 7⟩,
      trace := [Event.immediate 4 (tEmpty "b" [("x", "outer")]) 7] } rfl

/-- Counterexample to C4 as stated: in the build with assertions active, the
nested callback of `each("A", nested)` on `<root><A><x/></A></root>` calls
`node("missing")` in a scope with no element of that name; the call does not
fail with end-of-input but stops at `assert(each_callbacks.size() == 0)`
(the registry holds the subscription being dispatched), and no token of the
scope has been consumed. -/
theorem node_in_nested_scope_asserts :
    node debug_build 12 "missing" (nested_doc_in_callback [Call.node "missing"]) =
      .stop .assertion (nested_doc_in_callback [Call.node "missing"]) ∧
    run debug_build 12 nested_doc
        [Call.node "root", Call.each "A" none (some 1) [Call.node "missing"], Call.close] =
      .stop .assertion (nested_doc_in_callback [Call.node "missing"]) :=
  ⟨rfl, rfl⟩

/-- C4, amended (`node` not-found failure): in the build where `throw_eof`
throws, with the Pushback Flag clear, and with the registry empty or the
assertion compiled out (`NDEBUG`), both overloads of `node` fail with
end-of-input when the scope holds no element named `name`, the callback is
never invoked, and the whole scope has been consumed: (root scope) every
token, when the remainder of the document is well formed and never reaches
the Scope Bound; (scope of a nested callback, Scope Bound = Depth) exactly
the tokens up to and including the scope element's end-event. -/
theorem node_not_found (b : Build) (fuel : Nat) (name : String) (func : Option Nat)
    (s : XMLStructure)
    (hexc : b.XML_USE_CPP_EXCEPTION = true)
    (hassert : b.NDEBUG = true ∨ s.each_callbacks = [])
    (hf : s.last_read_invalid = false)
    (hfuel : s.reader.rest.length + 3 ≤ fuel) :
    (∀ d : Nat, balanced d s.reader.rest = true → s.stop_layer ≤ s.current_layer - d →
      (∀ t ∈ s.reader.rest, ¬ (t.type = EXN_ELEMENT ∧ t.name = name)) →
      ∃ s' : XMLStructure, (match func with
          | none => node b fuel name s
          | some f => node_func b fuel name f s) = .stop .XMLEOF s' ∧
        s'.reader.rest = [] ∧ s'.reader.pos = s.reader.pos + s.reader.rest.length ∧
        s'.trace = s.trace) ∧
    (∀ (body : List Token) (e : Token) (after : List Token),
      s.reader.rest = body ++ e :: after → balanced 0 body = true →
      e.type = EXN_ELEMENT_END → s.stop_layer = s.current_layer →
      (∀ t ∈ body, ¬ (t.type = EXN_ELEMENT ∧ t.name = name)) →
      ∃ s' : XMLStructure, (match func with
          | none => node b fuel name s
          | some f => node_func b fuel name f s) = .stop .XMLEOF s' ∧
        s'.reader.rest = after ∧ s'.reader.pos = s.reader.pos + body.length + 1 ∧
        s'.trace = s.trace) := by
  rw [node_eq_loop b fuel name func s hassert]
  have hmain := (node_loop_search b name func _ s hf rfl).1 fuel (by omega)
  have habort : eof_abort b = .XMLEOF := by simp [eof_abort, hexc]
  constructor
  · intro d hb hl hno
    rw [search_exhausts_document name s.stop_layer s.reader.rest 0 d s.current_layer hb hl hno]
      at hmain
    revert hmain
    generalize node_loop b name func fuel s = res
    intro hmain
    cases res with
    | ok s' => simp [node_post] at hmain
    | out_of_fuel => simp [node_post] at hmain
    | stop w s' =>
      simp only [node_post, habort] at hmain
      obtain ⟨h1, h2, h3, h4, _⟩ := hmain
      subst h1
      exact ⟨s', rfl, by simpa using h2, h3, h4⟩
  · intro body e after hr hb he hl hno
    rw [hr, search_exhausts_scope name s.stop_layer e after he body 0 0 s.current_layer hb
      (by simp [hl]) hno] at hmain
    revert hmain
    generalize node_loop b name func fuel s = res
    intro hmain
    cases res with
    | ok s' => simp [node_post] at hmain
    | out_of_fuel => simp [node_post] at hmain
    | stop w s' =>
      simp only [node_post, habort] at hmain
      obtain ⟨h1, h2, h3, h4, _⟩ := hmain
      subst h1
      exact ⟨s', rfl, by simpa using h2, by omega, h4⟩

/-- Witness of C4 (amended): `node("missing", f)` at root level on the scenario
document fails after the whole document, and `node("missing")` inside the
nested scope `<A>` (assertions compiled out) fails after `<x/></A>`. -/
theorem node_not_found_witness :
    (∃ s', node_func debug_build 10 "missing" 3 (create (open_reader scenario_doc)) =
        .stop .XMLEOF s' ∧
      s'.reader.rest = [] ∧ s'.reader.pos = 0 + scenario_doc.length ∧ s'.trace = []) ∧
    (∃ s', node release_build 6 "missing" (nested_doc_in_callback [Call.node "missing"]) =
        .stop .XMLEOF s' ∧
      s'.reader.rest = [tEnd "root"] ∧ s'.reader.pos = 2 + [tEmpty "x" []].length + 1 ∧
      s'.trace = [Event.enter 1 (tStart "A" []) 2 2]) :=
  ⟨(node_not_found debug_build 10 "missing" (some 3) (create (open_reader scenario_doc))
      rfl (Or.inr rfl) rfl (by decide)).1 0 (by decide) (by decide) (by decide),
   (node_not_found release_build 6 "missing" none
      (nested_doc_in_callback [Call.node "missing"]) rfl (Or.inl rfl) rfl (by decide)).2
      [tEmpty "x" []] (tEnd "A") [tEnd "root"] rfl (by decide) rfl rfl (by decide)⟩

/-- C10, the code at a failing input: on `<root><A></A><B></B></root>` with two
subscriptions named `A` carrying nested callbacks, the first nested callback
runs under Scope Bound 2 (the Node Depth of `<A>`) and drains `<A>`; the
second is then entered with the reader on `</A>` and Scope Bound 1, not 2.
With an empty body the wrong bound shows in the record.  With `close()` as
its body that call throws end-of-input (the pushback is pending), so the
enclosing `close()` ends there, with Scope Bound 1, and `<B>` is never
dispatched.  With assertions compiled out and `node("B")` as its body it
consumes the sibling `<B>`, and the enclosing `close()` returns without ever
dispatching `<B>` (the subscription on `B`, id 3, is not invoked). -/
theorem second_nested_callback_escapes_child :
    (∃ s', run debug_build 20 sibling_doc (two_nested_script []) = .ok s' ∧
      s'.trace = [Event.enter 1 (tStart "A" []) 2 2, Event.leave 1 1 true (-1),
                  Event.immediate 5 (tEnd "A") 3,
                  Event.enter 2 (tEnd "A") 3 1, Event.leave 2 1 true (-1),
                  Event.immediate 3 (tStart "B" []) 4]) ∧
    (∃ s', run debug_build 20 sibling_doc (two_nested_script [Call.close]) =
        .stop .XMLEOF s' ∧
      s'.trace = [Event.enter 1 (tStart "A" []) 2 2, Event.leave 1 1 true (-1),
                  Event.immediate 5 (tEnd "A") 3,
                  Event.enter 2 (tEnd "A") 3 1] ∧
      s'.stop_layer = 1 ∧
      s'.reader.rest = [tStart "B" [], tEnd "B", tEnd "root"]) ∧
    (∃ s', run release_build 20 sibling_doc (two_nested_script [Call.node "B"]) = .ok s' ∧
      s'.trace = [Event.enter 1 (tStart "A" []) 2 2, Event.leave 1 1 true (-1),
                  Event.immediate 5 (tEnd "A") 3,
                  Event.enter 2 (tEnd "A") 3 1, Event.leave 2 2 false (-1)] ∧
      s'.stop_layer = -1 ∧ s'.reader.rest = []) :=
  ⟨⟨_, rfl, rfl⟩, ⟨_, rfl, rfl, rfl, rfl⟩, ⟨_, rfl, rfl, rfl, rfl⟩⟩

/-- C14 (`read` is the reference step): for every state and token stream
`read()` returns exactly what the reference definition of step prescribes;
whatever the rest of the state is, with the Pushback Flag set it leaves the
reader and Depth as they were. -/
theorem read_eq_step_spec (s : XMLStructure) :
    s.read = step_spec s ∧
    ({ s with last_read_invalid := true } : XMLStructure).read.2.reader = s.reader ∧
    ({ s with last_read_invalid := true } : XMLStructure).read.2.current_layer =
      s.current_layer := by
  refine ⟨read_as_step_spec s, ?_, ?_⟩ <;>
    by_cases h : s.stop_layer ≤ s.current_layer <;> simp [XMLStructure.read, h]

/-- C19, counterexample: the Scope Bound of a freshly created navigator is not
0. -/
theorem fresh_bound_is_not_zero :
    (create (open_reader scenario_doc)).get_current_bound ≠ 0 := by
  decide

/-- C19 (amended): a navigator freshly created on a Token Reader has Scope
Bound -1, Depth 0, Pushback Flag false, an empty Subscription Registry, and
holds the reader as it was given. -/
theorem create_initial_state (reader : IXMLReader) :
    (create reader).get_current_bound = -1 ∧
    (create reader).get_current_layer = 0 ∧
    (create reader).last_read_invalid = false ∧
    (create reader).each_callbacks = [] ∧
    (create reader).reader = reader :=
  ⟨rfl, rfl, rfl, rfl, rfl⟩

/-- C17, the code at a failing input: on `<root><A k="v"><x/></A></root>` with
`each("A", f1, nested)` whose nested callback calls `close()`, followed by
`each("A", f2)`, the immediate callback `f1` sees `<A k="v">`, but `f2` is
invoked after the nested callback returned, while the reader's current event
is the end-event `</A>` at index 4: the view it receives has no attribute
`k`. -/
theorem later_immediate_callback_sees_end_event :
    ∃ s', run debug_build 20 attr_doc
        [Call.node "root", Call.each "A" (some 1) (some 9) [Call.close],
         Call.each "A" (some 2) none [], Call.close] = .ok s' ∧
      s'.trace = [Event.immediate 1 (tStart "A" [("k", "v")]) 2,
                  Event.enter 9 (tStart "A" [("k", "v")]) 2 2,
                  Event.leave 9 1 true (-1),
                  Event.immediate 2 (tEnd "A") 4] ∧
      (tStart "A" [("k", "v")]).str_attr "k" = "v" ∧ (tEnd "A").str_attr "k" = "" :=
  ⟨_, rfl, rfl, by decide, by decide⟩

/-- Invariant I2 where the moved-reader defect cannot act (background of C15):
in the build the spec describes (`throw_eof()` throws, the assertion of `node`
is active), a fresh navigator satisfies I2 and, on any token stream, every
sequence of `node`, `each` and `close` calls made in a state that satisfies
I2 leaves the navigator in a state that satisfies I2, whether the sequence
returns or is stopped by the exception or the assertion (which covers the
states inside nested callbacks, under the bound set for them); `read()` and
`skip()` preserve I2 from every state. -/
theorem scope_bound_at_most_depth (b : Build) (hb : spec_build b) :
    (∀ reader : IXMLReader, I2 (create reader)) ∧
    (∀ (fuel : Nat) (script : List Call) (s : XMLStructure), I2 s →
      (exec b fuel script s).sat I2 I2) ∧
    (∀ s : XMLStructure, I2 s → I2 s.read.2) ∧
    (∀ (n : Nat) (s : XMLStructure), I2 s → (skip b n s).sat I2 I2) := by
  refine ⟨fun reader _ => by simp [create], ?_, I2_read, ?_⟩
  · intro fuel script s hs
    exact sat_mono ((invariant_all (I2_invariant hb) fuel).2.2 s.stop_layer script s
      ⟨rfl, hs⟩) (fun s h => h.1.2) (fun _ h => h)
  · intro n s hs
    exact sat_mono (skip_inv (I2_invariant hb) s.stop_layer n s ⟨rfl, hs⟩)
      (fun s h => h.1.2) (fun _ h => h)

/-- An instance of `scope_bound_at_most_depth`: the traversal of `<root><A></A><B></B></root>` with two
same-named subscriptions carrying nested callbacks returns in a state that
satisfies I2. -/
theorem scope_bound_at_most_depth_witness :
    spec_build debug_build ∧
    ∃ s', run debug_build 20 sibling_doc (two_nested_script []) = .ok s' ∧ I2 s' :=
  ⟨⟨rfl, rfl⟩, _, rfl,
    (scope_bound_at_most_depth debug_build ⟨rfl, rfl⟩).2.1 20 (two_nested_script [])
      (create (open_reader sibling_doc))
      ((scope_bound_at_most_depth debug_build ⟨rfl, rfl⟩).1 (open_reader sibling_doc))⟩

/-- C16 (Depth counts the open elements): on any token stream and in every
build, a fresh navigator has consumed nothing at Depth 0, and every sequence
of `node`, `each` and `close` calls (returned or stopped), every `read()` and
every `skip()` leads from a state in which the navigator has consumed some
`k` of the reader's tokens and Depth is the number of non-self-closing
start-events among them minus the number of end-events among them to a state
of that kind, however often the pushback was armed and released; hence
Depth is never negative on a well-formed document; and the start-event that
`read()` consumes has Node Depth `Depth + 1`, self-closing or not. -/
theorem depth_counts_open_elements (b : Build) (reader : IXMLReader) :
    counted reader (create reader) ∧
    (∀ (fuel : Nat) (script : List Call) (s : XMLStructure), counted reader s →
      (exec b fuel script s).sat (counted reader) (counted reader)) ∧
    (∀ s : XMLStructure, counted reader s → counted reader s.read.2) ∧
    (∀ (n : Nat) (s : XMLStructure), counted reader s →
      (skip b n s).sat (counted reader) (counted reader)) ∧
    (balanced 0 reader.rest = true →
      ∀ s : XMLStructure, counted reader s → 0 ≤ s.current_layer) ∧
    (∀ (s : XMLStructure) (t : Token) (ts : List Token), s.last_read_invalid = false →
      s.reader.rest = t :: ts → t.type = EXML_NODE.EXN_ELEMENT →
      s.read.1 = true ∧ s.read.2.reader.cur = t ∧
        s.read.2.get_current_node_layer = s.current_layer + 1) := by
  refine ⟨⟨0, by simp, by simp [create], by simp [create], by simp [create, net_depth]⟩,
    ?_, counted_read reader, ?_, ?_, ?_⟩
  · intro fuel script s hs
    exact sat_mono ((invariant_all (counted_invariant b reader) fuel).2.2 s.stop_layer script
      s ⟨rfl, hs⟩) (fun s h => h.1.2) (fun _ h => h)
  · intro n s hs
    exact sat_mono (skip_inv (counted_invariant b reader) s.stop_layer n s ⟨rfl, hs⟩)
      (fun s h => h.1.2) (fun _ h => h)
  · rintro hbal s' ⟨k, -, -, -, hl⟩
    have := balanced_prefix_nonneg reader.rest 0 k hbal
    rw [hl]; simpa using this
  · intro s t ts hf hr ht
    cases hem : t.empty
    · rw [read_open s t ts hf hr ht hem]
      simp [get_current_node_layer, hem]
    · rw [read_leaf s t ts hf hr ht hem]
      simp [get_current_node_layer, hem, ht]

/-- Witness of C16: after the traversal of `<root><A></A><B></B></root>` that
arms and releases the pushback, the reader has consumed all six tokens and
Depth is 0 = 3 start-events - 3 end-events. -/
theorem depth_counts_open_elements_witness :
    balanced 0 (open_reader sibling_doc).rest = true ∧
    ∃ s', run debug_build 20 sibling_doc (two_nested_script []) = .ok s' ∧
      counted (open_reader sibling_doc) s' ∧ s'.reader.rest = [] ∧ s'.current_layer = 0 :=
  ⟨by decide, _, rfl,
    (depth_counts_open_elements debug_build (open_reader sibling_doc)).2.1 20
      (two_nested_script []) (create (open_reader sibling_doc))
      (depth_counts_open_elements debug_build (open_reader sibling_doc)).1, rfl, rfl⟩

/-- Confinement where the moved-reader defect cannot act (background of C11):
let the navigator be on a non-self-closing element `A` whose subtree is well
formed and ends with the end-event `e`, with the Pushback Flag clear and
Scope Bound = Node Depth of `A`, as a nested callback for `A` receives it, in
the build the spec describes (any registry, any calls) or in any build with a
registry in which no two nested callbacks share a name (and calls that
register immediate callbacks only).  Whatever sequence of `node`, `each` and
`close` calls is made, the state in which it returns is within the scope: `e`
has not been passed, Depth is at least Node Depth of `A` - 1, no token after
`e` has been consumed, the Scope Bound is unchanged and, once `e` has been
consumed, the Pushback Flag is set, `e` is the current event, and `read()`
reports no token and changes nothing.  In the build the spec describes the
state in which the exception or the assertion stops the calls is within the
scope as well. -/
theorem nested_scope_never_over_consumes (b : Build) (fuel : Nat)
    (s : XMLStructure) (body : List Token) (e : Token) (after : List Token)
    (calls : List Call)
    (hcase : spec_build b ∨ (tame s.each_callbacks ∧ ∀ c ∈ calls, c.flat = true))
    (_hty : s.reader.cur.type = EXML_NODE.EXN_ELEMENT)
    (hne : s.reader.cur.empty = false)
    (hf : s.last_read_invalid = false)
    (hbound : s.stop_layer = s.get_current_node_layer)
    (hr : s.reader.rest = body ++ e :: after)
    (hbal : balanced 0 body = true)
    (he : e.type = EXML_NODE.EXN_ELEMENT_END) :
    (exec b fuel calls s).sat
      (fun s' => within_scope s.get_current_node_layer e after s' ∧
        s.get_current_node_layer - 1 ≤ s'.current_layer ∧
        after.length ≤ s'.reader.rest.length ∧
        s'.stop_layer = s.stop_layer ∧
        (s'.reader.rest = after →
          s'.last_read_invalid = true ∧ s'.reader.cur = e ∧ s'.read = (false, s')))
      (fun s' => spec_build b → within_scope s.get_current_node_layer e after s' ∧
        s.get_current_node_layer - 1 ≤ s'.current_layer ∧
        after.length ≤ s'.reader.rest.length) := by
  have hg : s.get_current_node_layer = s.current_layer := by
    simp [get_current_node_layer, hne]
  have hfacts : ∀ s' : XMLStructure, within_scope s.get_current_node_layer e after s' →
      s.get_current_node_layer - 1 ≤ s'.current_layer ∧
        after.length ≤ s'.reader.rest.length := by
    rintro s' (⟨ts, d, h1, -, h3⟩ | ⟨-, h2, h3, -⟩)
    · exact ⟨by omega, by rw [h1]; simp; omega⟩
    · exact ⟨by omega, by rw [h2]⟩
  have hok : ∀ s' : XMLStructure, within_scope s.get_current_node_layer e after s' →
      s'.stop_layer = s.stop_layer →
      within_scope s.get_current_node_layer e after s' ∧
        s.get_current_node_layer - 1 ≤ s'.current_layer ∧
        after.length ≤ s'.reader.rest.length ∧
        s'.stop_layer = s.stop_layer ∧
        (s'.reader.rest = after →
          s'.last_read_invalid = true ∧ s'.reader.cur = e ∧ s'.read = (false, s')) := by
    intro s' h3 h1
    refine ⟨h3, (hfacts s' h3).1, (hfacts s' h3).2, h1, fun hrest => ?_⟩
    rcases h3 with ⟨ts, d, q1, -, -⟩ | ⟨q1, q2, q3, q4⟩
    · rw [hrest] at q1
      have := congrArg List.length q1
      simp at this
      omega
    · refine ⟨q4, q1, ?_⟩
      have hlt : ¬ s'.current_layer ≥ s'.stop_layer := by rw [q3, h1, hbound]; omega
      simp [XMLStructure.read, q4, hlt]
  have h0 : within_scope s.get_current_node_layer e after s :=
    Or.inl ⟨body, 0, hr, hbal, by rw [hg]; simp⟩
  by_cases hb : spec_build b
  · refine sat_mono ((invariant_all (within_invariant hb s.get_current_node_layer e after he)
      fuel).2.2 s.stop_layer calls s ⟨rfl, by rw [hbound], h0⟩) ?_ ?_
    · rintro s' ⟨⟨h1, -, h3⟩, -⟩
      exact hok s' h3 h1
    · intro s' h3 _
      exact ⟨h3, (hfacts s' h3).1, (hfacts s' h3).2⟩
  · obtain ⟨htame, hflat⟩ := hcase.resolve_left hb
    cases hres : exec b fuel calls s with
    | out_of_fuel => trivial
    | stop w s' => exact fun h => absurd h hb
    | ok s' =>
      have hin : Framed s.get_current_node_layer e after s :=
        ⟨Or.inl ⟨hbound, hf, body, 0, hr, hbal, by rw [hg]; simp⟩, htame⟩
      obtain ⟨hfr, -⟩ := (confinement b fuel).2.2 calls _ e after s s' he hflat hin hres
      rcases hfr with ⟨q1, -, ts, d, q3, q4, q5⟩ | ⟨q1, q2, q3, q4, q5⟩
      · exact hok s' (Or.inl ⟨ts, d, q3, q4, q5⟩) (q1.trans hbound.symm)
      · exact hok s' (Or.inr ⟨q3, q4, q5, q2⟩) (q1.trans hbound.symm)

/-- An instance of `nested_scope_never_over_consumes`: inside the nested callback for `<A>` of
`<root><A><x/></A></root>` (Scope Bound 2), `close()` consumes `</A>` and arms
the pushback; a second `close()` throws with the reader still on `</A>` and
`</root>` unread. -/
theorem nested_scope_never_over_consumes_witness :
    spec_build debug_build ∧
    ∃ s', exec debug_build 10 [Call.close, Call.close]
        (nested_doc_in_callback [Call.close, Call.close]) = .stop .XMLEOF s' ∧
      within_scope 2 (tEnd "A") [tEnd "root"] s' ∧ 1 ≤ s'.current_layer ∧
      s'.reader.cur = tEnd "A" ∧ s'.reader.rest = [tEnd "root"] :=
  ⟨⟨rfl, rfl⟩, _, rfl,
    ((nested_scope_never_over_consumes debug_build 10
      (nested_doc_in_callback [Call.close, Call.close]) [tEmpty "x" []] (tEnd "A")
      [tEnd "root"] [Call.close, Call.close] (Or.inl ⟨rfl, rfl⟩) rfl rfl rfl rfl rfl rfl rfl)
      ⟨rfl, rfl⟩).1,
    ((nested_scope_never_over_consumes debug_build 10
      (nested_doc_in_callback [Call.close, Call.close]) [tEmpty "x" []] (tEnd "A")
      [tEnd "root"] [Call.close, Call.close] (Or.inl ⟨rfl, rfl⟩) rfl rfl rfl rfl rfl rfl rfl)
      ⟨rfl, rfl⟩).2.1, rfl, rfl⟩

/-- C11, the code at a failing input: on `<root><A><A></A></A><B/></root>`, in
the header's own build, with three subscriptions named `A` whose nested
callbacks call `close()`.  The nested callback for the outer `<A>` (index 2)
is entered under Scope Bound 2 and calls `close()`; that call dispatches the
inner `<A>` to all three subscriptions: the first drains it, the second is
entered on `</A>` (index 4) under bound 2 and reads on to the outer `</A>`,
the third is entered on the outer `</A>` (index 5) under bound 1 and reads
`<B/>` and `</root>`.  When the nested callback for the outer `<A>` returns,
Depth is 0 and the reader is on `</root>`. -/
theorem third_nested_callback_leaves_scope :
    ∃ s', run plain_build 40 nested_twice_doc three_nested_script = .ok s' ∧
      s'.trace.take 8 =
        [Event.enter 1 (tStart "A" []) 2 2,
         Event.enter 1 (tStart "A" []) 3 3, Event.leave 1 2 true 2,
         Event.enter 2 (tEnd "A") 4 2, Event.leave 2 1 true 2,
         Event.enter 3 (tEnd "A") 5 1, Event.leave 3 0 true 2,
         Event.leave 1 0 true (-1)] ∧
      s'.reader.cur = tEnd "root" ∧ s'.reader.rest = [] :=
  ⟨_, rfl, rfl, rfl, rfl⟩

/-- C15, the code at two failing inputs.  In the header's own build, on the
truncated stream `<root><A><A></A></A>` with three subscriptions named `A`
whose nested callbacks call `close()`, the third nested callback is entered
on the outer `</A>` under Scope Bound 1, releases the pushback and returns at
the end of input; the bound restored is 2 while Depth is 1 and the Pushback
Flag is false.  With exceptions enabled and assertions compiled out, on the
well-formed `<root><S><G></G><x></x></S><y/></root>`, the third nested
callback for `<G>` is entered on `</S>` under bound 1 and finds `<y/>`; again
the bound restored is 2 with Depth 1 and the flag false. -/
theorem bound_restored_above_depth :
    (∃ s', run plain_build 40 (nested_twice_doc.take 5) three_nested_script = .ok s' ∧
      s'.trace.take 7 =
        [Event.enter 1 (tStart "A" []) 2 2,
         Event.enter 1 (tStart "A" []) 3 3, Event.leave 1 2 true 2,
         Event.enter 2 (tEnd "A") 4 2, Event.leave 2 1 true 2,
         Event.enter 3 (tEnd "A") 5 1, Event.leave 3 1 false 2]) ∧
    (∃ s', run release_build 40 scope_doc scope_script = .ok s' ∧
      s'.trace =
        [Event.enter 0 (tStart "S" []) 2 2,
         Event.enter 1 (tStart "G" []) 3 3, Event.leave 1 2 true 2,
         Event.enter 2 (tEnd "G") 4 2, Event.leave 2 1 true 2,
         Event.enter 3 (tEnd "S") 7 1, Event.leave 3 1 false 2,
         Event.leave 0 0 true (-1)]) ∧
    ¬ I2 { reader := ⟨tEnd "A", [], 5⟩, current_layer := 1, stop_layer := 2 } :=
  ⟨⟨_, rfl, rfl⟩, ⟨_, rfl, rfl⟩, by simp [I2]⟩

/-- C12, counterexample: on `<root><A><A/></A></root>` with `each("A", cb,
nested)` whose nested callback calls `close()`, `cb` (id 0) is invoked twice:
for `<A>` and, from the nested `close()`, for its child `<A/>`. -/
theorem enclosing_subscription_fires_for_grandchild :
    ∃ s', run debug_build 20 same_name_doc
        [Call.node "root", Call.each "A" (some 0) (some 1) [Call.close], Call.close] =
          .ok s' ∧
      s'.trace = [Event.immediate 0 (tStart "A" []) 2, Event.enter 1 (tStart "A" []) 2 2,
                  Event.immediate 0 (tEmpty "A" []) 3, Event.leave 1 1 true (-1)] :=
  ⟨_, rfl, rfl⟩

/-- C12 (amended): the registry is one list shared by every scope of the
navigator.  `close()` on a non-self-closing scope element with a well-formed
subtree, in which no nested callback fires, invokes for the direct children
of that scope, in document order, every subscription in the registry whose
name matches (those registered on enclosing scopes as well as those
registered on this one), and invokes nothing for deeper descendants. -/
theorem close_dispatches_shared_registry (b : Build) (fuel : Nat) (s : XMLStructure)
    (enclosing own : List EachCallback) (body : List Token) (e : Token)
    (after : List Token)
    (hreg : s.each_callbacks = enclosing ++ own)
    (hne : s.reader.cur.empty = false)
    (hf : s.last_read_invalid = false)
    (hbound : s.stop_layer ≤ s.current_layer)
    (hr : s.reader.rest = body ++ e :: after)
    (hb : balanced 0 body = true)
    (he : e.type = EXML_NODE.EXN_ELEMENT_END)
    (hq : ∀ c ∈ children 0 s.reader.pos body, quiet (enclosing ++ own) c.2)
    (hfuel : body.length + (enclosing ++ own).length + 2 ≤ fuel) :
    ∃ s', close b fuel s = .ok s' ∧
      s'.trace = s.trace ++
        dispatch_spec (enclosing ++ own) (children 0 s.reader.pos body) ∧
      s'.each_callbacks = enclosing ++ own := by
  rw [← hreg] at hq hfuel ⊢
  exact ⟨_, close_quiet b fuel s body e after hne hf hbound hr hb he hq hfuel, rfl, rfl⟩

/-- Witness of C12 (amended): inside the nested callback for `<A>` of
`<root><A><A/></A></root>`, `close()` invokes the subscription registered on
the root scope (immediate callback 0) for the child `<A/>` of `<A>`. -/
theorem close_dispatches_shared_registry_witness :
    ∃ s', close debug_build 5
        { reader := ⟨tStart "A" [], [tEmpty "A" [], tEnd "A", tEnd "root"], 2⟩,
          each_callbacks := [⟨"A", some 0, some ⟨1, [Call.close]⟩⟩],
          current_layer := 2, stop_layer := 2 } = .ok s' ∧
      s'.trace = [Event.immediate 0 (tEmpty "A" []) 3] := by
  obtain ⟨s', h1, h2, -⟩ := close_dispatches_shared_registry debug_build 5
    { reader := ⟨tStart "A" [], [tEmpty "A" [], tEnd "A", tEnd "root"], 2⟩,
      each_callbacks := [⟨"A", some 0, some ⟨1, [Call.close]⟩⟩],
      current_layer := 2, stop_layer := 2 }
    [⟨"A", some 0, some ⟨1, [Call.close]⟩⟩] [] [tEmpty "A" []] (tEnd "A") [tEnd "root"]
    rfl rfl rfl (by decide) rfl rfl rfl
    (by intro c hc; simp [children, tEmpty] at hc; subst hc; intro e _ _; exact Or.inr rfl)
    (by decide)
  exact ⟨s', h1, h2.trans (by decide)⟩

/-- C13, counterexample: on `<root><first><a/></first><next/></root>` the
sequence `node`, `each`, `close`, `node` stops on the assertion of the second
`node` (nothing cleared the registry); with assertions compiled out that
`node` returns, and the registry still holds the subscription. -/
theorem node_does_not_clear_registry :
    (∃ s', run debug_build 20 sequence_doc sequence_script = .stop .assertion s' ∧
      s'.each_callbacks = [⟨"a", some 0, none⟩]) ∧
    (∃ s', run release_build 20 sequence_doc sequence_script = .ok s' ∧
      s'.reader.cur = tEmpty "next" [] ∧ s'.each_callbacks = [⟨"a", some 0, none⟩]) :=
  ⟨⟨_, rfl, rfl⟩, ⟨_, rfl, rfl, rfl⟩⟩

/-- C13 (amended): no call clears the registry.  `node` (with or without a
callback) returns with the registry it was called with, which the active
assertion requires to be empty; `close()` returns with the registry it was
called with, extended by whatever nested callbacks registered; so after
`each` and `close()` a later `node` stops on its assertion when assertions
are active. -/
theorem registry_is_never_cleared (b : Build) :
    (∀ (fuel : Nat) (name : String) (s s' : XMLStructure), node b fuel name s = .ok s' →
      s'.each_callbacks = s.each_callbacks ∧ (b.NDEBUG = false → s'.each_callbacks = [])) ∧
    (∀ (fuel : Nat) (name : String) (func : Nat) (s s' : XMLStructure),
      node_func b fuel name func s = .ok s' →
      s'.each_callbacks = s.each_callbacks ∧ (b.NDEBUG = false → s'.each_callbacks = [])) ∧
    (∀ (fuel : Nat) (s s' : XMLStructure), close b fuel s = .ok s' →
      ∃ l, s'.each_callbacks = s.each_callbacks ++ l) ∧
    (∀ (fuel fuel2 : Nat) (n : String) (f1 : NodeProcessor) (f2 : Option StructureProcessor)
      (name : String) (s s2 : XMLStructure), b.NDEBUG = false →
      close b fuel (s.each n f1 f2) = .ok s2 → node b fuel2 name s2 = .stop .assertion s2) := by
  have hclose : ∀ (fuel : Nat) (s s' : XMLStructure), close b fuel s = .ok s' →
      ∃ l, s'.each_callbacks = s.each_callbacks ++ l := by
    intro fuel s s' h
    cases fuel with
    | zero =>
      simp only [close, do_each_to_close, do_each_to_close_body] at h
      obtain ⟨s1, h1, h2⟩ := bind_eq_ok _ _ _ h
      have hs1 : s1 = s := by
        split_ifs at h1
        · exact throw_eof_eq_ok b s s1 h1
        · exact (Result.ok.inj h1).symm
      subst hs1
      split_ifs at h2
      · exact ⟨[], by rw [← Result.ok.inj h2]; simp⟩
      · simp [do_each_loop] at h2
    | succ fuel =>
      have h1 := (invariant_all (bound_invariant b) (fuel + 2)).2.2 s.stop_layer
        [Call.close] s rfl
      have h2 : exec b (fuel + 2) [Call.close] s = .ok s' := by
        rw [exec]
        simp only [close, do_each_to_close] at h
        rw [h]
        simp [Result.bind, exec]
      rw [h2] at h1
      exact h1.2
  refine ⟨fun fuel name s s' h => node_call_registry b fuel name none s s' h,
    fun fuel name func s s' h => node_call_registry b fuel name (some func) s s' h,
    hclose, ?_⟩
  intro fuel fuel2 n f1 f2 name s s2 hn h
  obtain ⟨l, hl⟩ := hclose fuel _ s2 h
  have hne : s2.each_callbacks.length ≠ 0 := by
    rw [hl]; simp [XMLStructure.each]
  simp [node, assert_no_callbacks, hn, hne, Result.bind]

/-- Witness of C13 (amended): after `node("root")`, `node("first")`,
`each("a", f)` and `close()` on `<root><first><a/></first><next/></root>`, the
registry still holds the subscription and `node("next")` stops on the
assertion. -/
theorem registry_is_never_cleared_witness :
    ∃ s2, close debug_build 6
        (XMLStructure.each
          { reader := ⟨tStart "first" [], [tEmpty "a" [], tEnd "first", tEmpty "next" [],
              tEnd "root"], 2⟩, current_layer := 2 } "a" (some 0) none) = .ok s2 ∧
      s2.each_callbacks = [⟨"a", some 0, none⟩] ∧
      node debug_build 6 "next" s2 = .stop .assertion s2 :=
  ⟨_, rfl, rfl,
    (registry_is_never_cleared debug_build).2.2.2 6 6 "a" (some 0) none "next"
      { reader := ⟨tStart "first" [], [tEmpty "a" [], tEnd "first", tEmpty "next" [],
          tEnd "root"], 2⟩, current_layer := 2 } _ rfl rfl⟩

/-- C18, the code at failing inputs: `close()` on `<root>` with two
subscriptions named `A` that both carry a nested callback (ids 1 and 2) and
a non-self-closing child `<A>`.  When the first nested callback leaves the
reader where it was, both nested callbacks are invoked once.  When it moves
the reader, the lambda tests `isEmptyElement()` on the event the reader is
on then, not on the child, and the second nested callback is not invoked at
all: on `<root><A><x/></A></root>` with assertions compiled out and
`node("x")` as the first callback, which leaves the reader on `<x/>`; on the
stream `<root><A><x/>` that ends there, with `close()` as the first callback,
which returns at the end of input with the reader on `<x/>`; and on
`<root><A><x/></A></root>` with `close()` as the first callback, read through
a reader that still reports `isEmptyElement()` on the end-event `</A>`. -/
theorem second_nested_callback_not_invoked :
    (∃ s', close debug_build 10 (two_nested_at_root nested_doc.tail [] []) = .ok s' ∧
      s'.trace = [Event.enter 1 (tStart "A" []) 2 2, Event.leave 1 2 false (-1),
                  Event.enter 2 (tStart "A" []) 2 2, Event.leave 2 2 false (-1)]) ∧
    (∃ s', close release_build 10 (two_nested_at_root nested_doc.tail [Call.node "x"] []) =
        .ok s' ∧
      s'.trace = [Event.enter 1 (tStart "A" []) 2 2, Event.leave 1 2 false (-1)] ∧
      s'.reader.cur = tEnd "root" ∧ s'.reader.rest = []) ∧
    (∃ s', close debug_build 10
        (two_nested_at_root [tStart "A" [], tEmpty "x" []] [Call.close] []) = .ok s' ∧
      s'.trace = [Event.enter 1 (tStart "A" []) 2 2, Event.leave 1 2 false (-1)] ∧
      s'.reader.cur = tEmpty "x" [] ∧ s'.reader.rest = []) ∧
    (∃ s', close debug_build 10
        (two_nested_at_root
          [tStart "A" [], tEmpty "x" [], ⟨EXN_ELEMENT_END, "A", true, []⟩, tEnd "root"]
          [Call.close] []) = .ok s' ∧
      s'.trace = [Event.enter 1 (tStart "A" []) 2 2, Event.leave 1 1 true (-1)] ∧
      s'.reader.cur = tEnd "root" ∧ s'.reader.rest = []) :=
  ⟨⟨_, rfl, rfl⟩, ⟨_, rfl, rfl, rfl, rfl⟩, ⟨_, rfl, rfl, rfl, rfl⟩, ⟨_, rfl, rfl, rfl, rfl⟩⟩

/-- C20 (termination on finite input): in every build, from every state and
on every token stream.  A step that reports a token either consumes exactly
one token with the Pushback Flag clear, or clears the flag without touching
the reader; the flag is set only by a step that consumes a token; so every
reporting step lowers `pending_steps`, which is at most twice the number of
remaining tokens plus one.  `skip` and both `node` calls return or abort
within that many iterations and a last failing step; so does `close()` when
the subscriptions have immediate callbacks only (the dispatch of a child
taking one unit of fuel per subscription); and with arbitrary nested
callbacks `close()` and every sequence of calls halt. -/
theorem calls_terminate (b : Build) (s : XMLStructure) :
    (s.read.1 = true →
      (s.last_read_invalid = false ∧ s.read.2.last_read_invalid = false ∧
        ∃ t ts, s.reader.rest = t :: ts ∧ s.read.2.reader = ⟨t, ts, s.reader.pos + 1⟩) ∨
      (s.last_read_invalid = true ∧ s.read.2.last_read_invalid = false ∧
        s.read.2.reader = s.reader)) ∧
    (s.last_read_invalid = false → s.read.2.last_read_invalid = true →
      ∃ t ts, s.reader.rest = t :: ts ∧ s.read.2.reader = ⟨t, ts, s.reader.pos + 1⟩) ∧
    (s.read.1 = true → pending_steps s.read.2 < pending_steps s) ∧
    pending_steps s ≤ 2 * s.reader.rest.length + 1 ∧
    (∀ fuel : Nat, 2 * s.reader.rest.length + 2 ≤ fuel →
      skip b fuel s ≠ .out_of_fuel ∧
      (∀ name : String, node b fuel name s ≠ .out_of_fuel) ∧
      (∀ (name : String) (func : Nat), node_func b fuel name func s ≠ .out_of_fuel)) ∧
    ((∀ c ∈ s.each_callbacks, c.func2 = none) →
      ∀ fuel : Nat, 2 * s.reader.rest.length + 2 + s.each_callbacks.length ≤ fuel →
        close b fuel s ≠ .out_of_fuel) ∧
    Halts (fun fuel => close b fuel s) ∧
    (∀ calls : List Call, Halts (fun fuel => exec b fuel calls s)) := by
  have hle : pending_steps s ≤ 2 * s.reader.rest.length + 1 := by
    unfold pending_steps; split_ifs <;> omega
  have hnode : ∀ (fuel : Nat) (name : String) (func : Option Nat),
      2 * s.reader.rest.length + 2 ≤ fuel →
      (assert_no_callbacks b s).bind (node_loop b name func fuel) ≠ .out_of_fuel := by
    intro fuel name func hfuel
    unfold assert_no_callbacks
    split_ifs
    · simp [Result.bind]
    · simp only [Result.bind]
      exact node_loop_fuel b name func fuel s (by omega)
  refine ⟨(read_progress s).1, (read_progress s).2, (read_pending s).2, hle, ?_, ?_, ?_, ?_⟩
  · intro fuel hfuel
    exact ⟨skip_fuel b fuel s (by omega), fun name => hnode fuel name none hfuel,
      fun name func => hnode fuel name (some func) hfuel⟩
  · intro himm fuel hfuel
    unfold close do_each_to_close do_each_to_close_body
    split_ifs
    · unfold throw_eof
      split_ifs
      · simp [Result.bind]
      · simp only [Result.bind]
        split_ifs
        · simp
        · exact do_each_loop_fuel b _ fuel s himm (by omega)
    · simp only [Result.bind]
      split_ifs
      · simp
      · exact do_each_loop_fuel b _ fuel s himm (by omega)
  · have h := (halting b (pending_steps s)).2.2 [Call.close] s (le_refl _)
    obtain ⟨n, r, hr, hs⟩ := h
    have hstep : ∀ m, exec b (m + 2) [Call.close] s = close b (m + 1) s := by
      intro m
      rw [exec]
      unfold close do_each_to_close
      cases do_each_to_close_body b (do_each_loop b (m + 1)) s <;> simp [Result.bind, exec]
    refine ⟨n + 1, r, hr, fun m hm => ?_⟩
    obtain ⟨m', rfl⟩ : ∃ m', m = m' + 1 := ⟨m - 1, by omega⟩
    show close b (m' + 1) s = r
    rw [← hstep m']
    exact hs (m' + 2) (by omega)
  · intro calls
    exact (halting b (pending_steps s)).2.2 calls s (le_refl _)

/-- Witness of C20: on `<root><A><x/></A></root>` with a subscription whose
nested callback calls `close()` twice, `skip` and `node` return within
2 * 4 + 2 units of fuel, and `close()` halts. -/
theorem calls_terminate_witness :
    skip debug_build 10 (nested_doc_at_root [Call.close, Call.close]) ≠ .out_of_fuel ∧
    node release_build 10 "x" (nested_doc_at_root [Call.close, Call.close]) ≠ .out_of_fuel ∧
    Halts (fun fuel => close debug_build fuel (nested_doc_at_root [Call.close, Call.close])) :=
  ⟨((calls_terminate debug_build (nested_doc_at_root [Call.close, Call.close])).2.2.2.2.1 10
      (by decide)).1,
   ((calls_terminate release_build (nested_doc_at_root [Call.close, Call.close])).2.2.2.2.1 10
      (by decide)).2.1 "x",
   (calls_terminate debug_build (nested_doc_at_root [Call.close, Call.close])).2.2.2.2.2.2.1⟩

end claims

end XML
